import Mathlib

/-!
# EvilEngine entity-component storage (src/ecs.c)

A shallow embedding of the entity table, the component registry, the query
cursor and the save/load codec of `src/ecs.c`, with the parts of `src/heap.c`
and `src/fs.c` that the codec reaches (aligned allocate/free, the blocking
read of one file).

Conventions of the embedding
* `int` and `entity_state_t` values are `Int`; results of `int` arithmetic are
  reduced to the 32-bit two's-complement range by `wrap_int`.
* `uint64_t` and `size_t` values are `Nat`.
* the arrays of `ecs_t` are functions of the index; the C arrays have
  `k_max_entities` (resp. `k_max_component_types`) elements and only those
  indices are ever touched by in-range calls.
* memory obtained from `heap_alloc` is a block of bytes in `heap_t`; a pointer
  is a block number and a byte offset, `none` is `NULL`. A freed block can no
  longer be read.
* byte order is little-endian (the code base is Windows/x86 only).
-/

namespace EvilEngine

/-! ## Constants and enums -/

/-- Enumerator `k_max_component_types`. -/
def k_max_component_types : Nat := 64

/-- Enumerator `k_max_entities`. -/
def k_max_entities : Nat := 512

/-- Enumerator `k_entity_unused` of `entity_state_t`. -/
def k_entity_unused : Int := 0

/-- Enumerator `k_entity_pending_add` of `entity_state_t`. -/
def k_entity_pending_add : Int := 1

/-- Enumerator `k_entity_active` of `entity_state_t`. -/
def k_entity_active : Int := 2

/-- Enumerator `k_entity_pending_remove` of `entity_state_t`. -/
def k_entity_pending_remove : Int := 3

/-- The value of `sizeof(entity_state_t)`: an enum has the size of `int`. -/
def sizeof_entity_state_t : Nat := 4

/-! ## Machine integers and their bytes -/

/-- Value of a 32-bit two's-complement `int` holding the mathematical integer `x`. -/
def wrap_int (x : Int) : Int := (x + 2147483648) % 4294967296 - 2147483648

/-- Value of a `size_t` holding the natural number `x`. -/
def wrap_size (x : Nat) : Nat := x % 18446744073709551616

/-- The `n` low-order bytes of `x`, least significant first. -/
def le_bytes : Nat → Nat → List Nat
  | 0, _ => []
  | n + 1, x => (x % 256) :: le_bytes n (x / 256)

/-- The number whose little-endian bytes are `bs`. -/
def le_value : List Nat → Nat
  | [] => 0
  | b :: bs => b + 256 * le_value bs

/-- Bytes of an `int` object, what `convert_to_char_array_stupid(&x)` points at. -/
def int_to_bytes (x : Int) : List Nat := le_bytes 4 (x % 4294967296).toNat

/-- Reading `*((int*)p)` from the four bytes at `p`. -/
def int_of_bytes (bs : List Nat) : Int := wrap_int (le_value bs)

/-- Bytes of a `uint64_t` object. -/
def u64_to_bytes (x : Nat) : List Nat := le_bytes 8 x

/-- Reading `*((uint64_t*)p)` from the eight bytes at `p`. -/
def u64_of_bytes (bs : List Nat) : Nat := le_value bs

/-! ## Loops -/

/-- The loop `for (int i = 0; i < n; ++i) body(i)` run on state `s`. -/
def for_lt {σ : Type} (n : Nat) (body : Nat → σ → σ) (s : σ) : σ :=
  match n with
  | 0 => s
  | k + 1 => body k (for_lt k body s)

/-- The loop `for (int i = 0; i < n; ++i) body(i)` whose body may read memory
that is not there (`none`). -/
def for_lt_opt {σ : Type} (n : Nat) (body : Nat → σ → Option σ) (s : σ) : Option σ :=
  match n with
  | 0 => some s
  | k + 1 => (for_lt_opt k body s).bind (body k)

/-- The loop `for (i = lo; i < lo + n; ++i) if (p(i)) return i;`: the first
index at or after `lo` that satisfies `p`, among `n` candidates. -/
def find_from (p : Nat → Bool) : Nat → Nat → Option Nat
  | 0, _ => none
  | n + 1, lo => if p lo then some lo else find_from p n (lo + 1)

/-! ## Memory collaborator (src/heap.c) -/

/-- A pointer into heap memory: the block it was allocated in and a byte offset. -/
structure ptr_t where
  block : Nat
  offset : Nat
deriving DecidableEq, Repr

/-- The heap: one entry per block ever allocated, `some bytes` while the block
is live and `none` once it has been freed; `junk` is the indeterminate content
of freshly allocated memory. -/
structure heap_t where
  blocks : List (Option (List Nat))
  junk : Nat → Nat

/-- Pointer arithmetic `p + k` on a `char*`. -/
def ptr_add (p : ptr_t) (k : Nat) : ptr_t := { block := p.block, offset := p.offset + k }

/-- Function `heap_alloc(heap, size, alignment)`: a new block of `size` bytes of
indeterminate content. The allocation is taken to succeed. -/
def heap_alloc (heap : heap_t) (size : Nat) (_alignment : Nat) : heap_t × ptr_t :=
  ({ heap with blocks := heap.blocks ++ [some ((List.range size).map heap.junk)] },
   { block := heap.blocks.length, offset := 0 })

/-- Function `heap_free(heap, address)`: the block of `address` is released. -/
def heap_free (heap : heap_t) (address : ptr_t) : heap_t :=
  { heap with blocks := heap.blocks.set address.block none }

/-- The bytes of the live block `b`, `none` when `b` was freed or never allocated. -/
def heap_block (heap : heap_t) (b : Nat) : Option (List Nat) :=
  (heap.blocks.getD b none)

/-- The `n` bytes at offset `off` of a buffer, `none` when they are not all inside it. -/
def buf_read (bs : List Nat) (off n : Nat) : Option (List Nat) :=
  if off + n ≤ bs.length then some ((bs.drop off).take n) else none

/-- Reading `n` bytes through pointer `p`; `none` when the block is not live or
the bytes are not all inside it. -/
def mem_read (heap : heap_t) (p : ptr_t) (n : Nat) : Option (List Nat) :=
  (heap_block heap p.block).bind (fun bs => buf_read bs p.offset n)

/-- Reading the byte `p[k]`. -/
def mem_byte (heap : heap_t) (p : Option ptr_t) (k : Nat) : Option Nat :=
  p.bind (fun q => (heap_block heap q.block).bind (fun bs => bs.get? (q.offset + k)))

/-- Storing the bytes `vals` through pointer `p`; `none` when the block is not
live or the bytes do not all fit inside it. -/
def mem_write (heap : heap_t) (p : ptr_t) (vals : List Nat) : Option heap_t :=
  (heap_block heap p.block).bind (fun bs =>
    if p.offset + vals.length ≤ bs.length then
      some { heap with
        blocks := heap.blocks.set p.block (some (bs.take p.offset ++ vals ++ bs.drop (p.offset + vals.length))) }
    else none)

/-- Function `memset(p, c, n)`; writing outside a live block is undefined in C
and leaves the heap as it is here. -/
def memset (heap : heap_t) (p : ptr_t) (c : Nat) (n : Nat) : heap_t :=
  (mem_write heap p (List.replicate n c)).getD heap

/-! ## Storage collaborator (src/fs.c) -/

/-- What the operating system answers when `file_read` opens and reads the
requested path. -/
inductive fs_file_t where
  /-- the path conversion, `CreateFile` or `GetFileSizeEx` fails with code `err` -/
  | open_failed (err : Int)
  /-- the file of `size` bytes opens, but `ReadFile` fails with code `err` -/
  | read_failed (size : Nat) (err : Int)
  /-- the file opens and `ReadFile` delivers `bytes` -/
  | ok (bytes : List Nat)

/-- The fields of `fs_work_t` that a reader of a finished request looks at. -/
structure fs_work_t where
  buffer : Option ptr_t
  size : Nat
  result : Int

/-- Function `fs_read(fs, path, heap, false, false)` followed by
`fs_work_wait`: `fs_read` clears `buffer`, `size` and `result`, then
`file_read` runs on the file thread. -/
def fs_read (heap : heap_t) (file : fs_file_t) : heap_t × fs_work_t :=
  match file with
  | .open_failed err => (heap, { buffer := none, size := 0, result := err })
  | .read_failed size err =>
      let a := heap_alloc heap size 8
      (a.1, { buffer := some a.2, size := size, result := err })
  | .ok bytes =>
      let a := heap_alloc heap bytes.length 8
      ((mem_write a.1 a.2 bytes).getD a.1,
       { buffer := some a.2, size := bytes.length, result := 0 })

/-- Function `fs_work_get_result`. -/
def fs_work_get_result (work : fs_work_t) : Int := work.result

/-- Function `fs_work_get_buffer`. -/
def fs_work_get_buffer (work : fs_work_t) : Option ptr_t := work.buffer

/-! ## The entity table (src/ecs.c) -/

/-- Struct `ecs_entity_ref_t`: slot index and generation. -/
structure ecs_entity_ref_t where
  entity : Int
  sequence : Int
deriving DecidableEq, Repr

/-- Struct `ecs_query_t`: the requested mask and the cursor index. -/
structure ecs_query_t where
  component_mask : Nat
  entity : Int
deriving DecidableEq, Repr

/-- Struct `ecs_t`. The field `heap` holds the memory reached through the
pointer `ecs->heap`, which is also the heap handed to save and load. -/
structure ecs_t where
  heap : heap_t
  global_sequence : Int
  sequences : Nat → Int
  entity_states : Nat → Int
  component_masks : Nat → Nat
  components : Nat → Option ptr_t
  component_type_sizes : Nat → Nat
  component_type_names : Nat → String
  save_component : Nat → Bool

/-- Function `ecs_create`: the struct is zeroed by `memset`, then
`global_sequence` is set to 1. The storage of the struct itself is not
represented in the heap. -/
def ecs_create (heap : heap_t) : ecs_t :=
  { heap := heap
    global_sequence := 1
    sequences := fun _ => 0
    entity_states := fun _ => 0
    component_masks := fun _ => 0
    components := fun _ => none
    component_type_sizes := fun _ => 0
    component_type_names := fun _ => ""
    save_component := fun _ => false }

/-- Body of the loop of `ecs_update` for slot `i`. -/
def ecs_update_slot (i : Nat) (ecs : ecs_t) : ecs_t :=
  if ecs.entity_states i = k_entity_pending_add then
    { ecs with entity_states := Function.update ecs.entity_states i k_entity_active }
  else if ecs.entity_states i = k_entity_pending_remove then
    { ecs with entity_states := Function.update ecs.entity_states i k_entity_unused }
  else ecs

/-- Function `ecs_update`. -/
def ecs_update (ecs : ecs_t) : ecs_t :=
  for_lt k_max_entities ecs_update_slot ecs

/-- The expression `(size_per_component + (alignment - 1)) & ~(alignment - 1)`
in `size_t` arithmetic. -/
def aligned_size (size_per_component alignment : Nat) : Nat :=
  wrap_size (size_per_component + wrap_size (alignment + 18446744073709551615)) &&&
    (18446744073709551615 - wrap_size (alignment + 18446744073709551615))

/-- Function `ecs_register_component_type`. The name is taken to fit the 32
bytes of its slot (`strcpy_s` aborts the program otherwise). -/
def ecs_register_component_type (ecs : ecs_t) (name : String) (size_per_component : Nat)
    (alignment : Nat) (save : Bool) : ecs_t × Int :=
  match find_from (fun i => (ecs.components i).isNone) k_max_component_types 0 with
  | some i =>
      let asz := aligned_size size_per_component alignment
      let a := heap_alloc ecs.heap (wrap_size (asz * k_max_entities)) alignment
      ({ ecs with
          component_type_names := Function.update ecs.component_type_names i name
          component_type_sizes := Function.update ecs.component_type_sizes i asz
          components := Function.update ecs.components i (some a.2)
          heap := memset a.1 a.2 0 (wrap_size (asz * k_max_entities))
          save_component := Function.update ecs.save_component i save },
       (i : Int))
  | none => (ecs, -1)

/-- Function `ecs_get_component_type_size`. -/
def ecs_get_component_type_size (ecs : ecs_t) (component_type : Nat) : Nat :=
  ecs.component_type_sizes component_type

/-- Function `ecs_entity_add`. -/
def ecs_entity_add (ecs : ecs_t) (component_mask : Nat) : ecs_t × ecs_entity_ref_t :=
  match find_from (fun i => decide (ecs.entity_states i = k_entity_unused)) k_max_entities 0 with
  | some i =>
      ({ ecs with
          entity_states := Function.update ecs.entity_states i k_entity_pending_add
          sequences := Function.update ecs.sequences i ecs.global_sequence
          global_sequence := wrap_int (ecs.global_sequence + 1)
          component_masks := Function.update ecs.component_masks i component_mask },
       { entity := (i : Int), sequence := ecs.global_sequence })
  | none => (ecs, { entity := -1, sequence := -1 })

/-- Function `ecs_is_entity_ref_valid`. The slot is read at `ref.entity` only
when that index is not negative. -/
def ecs_is_entity_ref_valid (ecs : ecs_t) (ref : ecs_entity_ref_t) (allow_pending_add : Bool) :
    Bool :=
  decide (ref.entity ≥ 0) &&
  decide (ecs.sequences ref.entity.toNat = ref.sequence) &&
  decide (ecs.entity_states ref.entity.toNat ≥
    (if allow_pending_add then k_entity_pending_add else k_entity_active))

/-- Function `ecs_entity_remove`. -/
def ecs_entity_remove (ecs : ecs_t) (ref : ecs_entity_ref_t) (allow_pending_add : Bool) : ecs_t :=
  if ecs_is_entity_ref_valid ecs ref allow_pending_add then
    { ecs with
        entity_states := Function.update ecs.entity_states ref.entity.toNat k_entity_pending_remove }
  else ecs

/-- Function `ecs_entity_get_component`: `NULL` (`none`) unless the ref is valid
and the type has storage. The index `size * ref.entity` is a `size_t` product. -/
def ecs_entity_get_component (ecs : ecs_t) (ref : ecs_entity_ref_t) (component_type : Nat)
    (allow_pending_add : Bool) : Option ptr_t :=
  if ecs_is_entity_ref_valid ecs ref allow_pending_add then
    (ecs.components component_type).map
      (fun p => ptr_add p (wrap_size (ecs.component_type_sizes component_type * ref.entity.toNat)))
  else none

/-- The test of `ecs_query_next` on slot `i`. -/
def ecs_query_match (ecs : ecs_t) (mask : Nat) (i : Nat) : Bool :=
  decide (ecs.component_masks i &&& mask = mask) &&
  decide (ecs.entity_states i ≥ k_entity_active)

/-- Function `ecs_query_next`: the scan starts at `query->entity + 1`, which is
not negative for a cursor made by `ecs_query_create` or `ecs_query_next`. -/
def ecs_query_next (ecs : ecs_t) (query : ecs_query_t) : ecs_query_t :=
  match find_from (ecs_query_match ecs query.component_mask)
      (k_max_entities - (query.entity + 1).toNat) (query.entity + 1).toNat with
  | some i => { query with entity := (i : Int) }
  | none => { query with entity := -1 }

/-- Function `ecs_query_create`. -/
def ecs_query_create (ecs : ecs_t) (mask : Nat) : ecs_query_t :=
  ecs_query_next ecs { component_mask := mask, entity := -1 }

/-- Function `ecs_query_is_valid`. -/
def ecs_query_is_valid (_ecs : ecs_t) (query : ecs_query_t) : Bool :=
  decide (query.entity ≥ 0)

/-- Function `ecs_query_get_component`: the address
`&components[size * query->entity]`, with no check at all; meant for a valid
cursor (`query->entity >= 0`) and a registered type. -/
def ecs_query_get_component (ecs : ecs_t) (query : ecs_query_t) (component_type : Nat) :
    Option ptr_t :=
  (ecs.components component_type).map
    (fun p => ptr_add p (wrap_size (ecs.component_type_sizes component_type * query.entity.toNat)))

/-- Function `ecs_query_get_entity`, for a valid cursor (`query->entity >= 0`). -/
def ecs_query_get_entity (ecs : ecs_t) (query : ecs_query_t) : ecs_entity_ref_t :=
  { entity := query.entity, sequence := ecs.sequences query.entity.toNat }

/-- The caller's loop
`for (q = ecs_query_create(ecs, mask); ecs_query_is_valid(ecs, &q); ecs_query_next(ecs, &q))`
(as in `update_blocks`), started at cursor `query`: the slot indices of the
valid cursor positions in the order they are visited. `fuel` bounds the number
of valid positions; `none` means the loop was still running when it ran out. -/
def ecs_query_visit (ecs : ecs_t) : Nat → ecs_query_t → Option (List Int)
  | 0, query => if ecs_query_is_valid ecs query then none else some []
  | fuel + 1, query =>
      if ecs_query_is_valid ecs query then
        (ecs_query_visit ecs fuel (ecs_query_next ecs query)).map (fun l => query.entity :: l)
      else some []

/-! ## The save/load codec (src/ecs.c) -/

/-- The output buffer `data` of `ecs_save_game` and the write position `ctr`. -/
structure save_cursor_t where
  data : Nat → Nat
  ctr : Nat

/-- The statements `for (int j = 0; j < n; j++) data[j + ctr] = src[j]; ctr += n;`. -/
def save_put (src : List Nat) (n : Nat) (c : save_cursor_t) : save_cursor_t :=
  { data := for_lt n (fun j d => Function.update d (j + c.ctr) (src.getD j 0)) c.data
    ctr := c.ctr + n }

/-- The loop over `j` of `ecs_save_game` that copies the array of one component
type, `component_size` bytes per entity, read through `components`. -/
def save_component_array (heap : heap_t) (components : Option ptr_t) (component_size : Nat)
    (c : save_cursor_t) : Option save_cursor_t :=
  for_lt_opt k_max_entities (fun j c =>
    (for_lt_opt component_size (fun k d =>
        (mem_byte heap components (j * component_size + k)).map
          (fun v => Function.update d (k + c.ctr) v)) c.data).map
      (fun d => { data := d, ctr := c.ctr + component_size })) c

/-- The first loop of `ecs_save_game`: the number of bytes to store. -/
def ecs_save_size (ecs : ecs_t) : Nat :=
  for_lt k_max_component_types (fun i size =>
    if ecs.save_component i then
      wrap_size (size + wrap_size (k_max_entities * ecs.component_type_sizes i))
    else size)
    (4 + ((4 + sizeof_entity_state_t + 8) * k_max_entities))

/-- The fixed part written by `ecs_save_game`: `global_sequence`, `sequences[]`,
`entity_states[]` and `component_masks[]`. -/
def ecs_save_header (ecs : ecs_t) (c : save_cursor_t) : save_cursor_t :=
  let c1 := save_put (int_to_bytes ecs.global_sequence) 4 c
  let c2 := for_lt k_max_entities (fun i c => save_put (int_to_bytes (ecs.sequences i)) 4 c) c1
  let c3 := for_lt k_max_entities
    (fun i c => save_put (int_to_bytes (ecs.entity_states i)) sizeof_entity_state_t c) c2
  for_lt k_max_entities (fun i c => save_put (u64_to_bytes (ecs.component_masks i)) 8 c) c3

/-- Function `ecs_save_game` with `heap == ecs->heap`: the table afterwards and
the bytes handed to `fs_write` for the file "savegame". The result is `none`
when the code reads a component array that is not in live memory, or writes
past the `size` bytes it allocated. -/
def ecs_save_game (ecs : ecs_t) : Option (ecs_t × List Nat) :=
  let size := ecs_save_size ecs
  let a := heap_alloc ecs.heap size 8
  let c0 : save_cursor_t := { data := fun k => ecs.heap.junk k, ctr := 0 }
  let c4 := ecs_save_header ecs c0
  (for_lt_opt k_max_component_types (fun i c =>
      if ecs.save_component i then
        save_component_array ecs.heap (ecs.components i) (ecs.component_type_sizes i) c
      else some c) c4).bind
    (fun c =>
      if c.ctr ≤ size then
        some ({ ecs with heap := heap_free a.1 a.2 }, (List.range size).map c.data)
      else none)

/-- The table being filled by `ecs_load_game` and the read position `ctr`. -/
structure load_cursor_t where
  ecs : ecs_t
  ctr : Nat

/-- Body of the loop of `ecs_load_game` that reads `sequences[i]`. -/
def load_sequence (heap : heap_t) (data : ptr_t) (i : Nat) (c : load_cursor_t) :
    Option load_cursor_t :=
  (mem_read heap (ptr_add data c.ctr) 4).map (fun sequence =>
    { ecs := { c.ecs with
        sequences := Function.update c.ecs.sequences i (int_of_bytes sequence) }
      ctr := c.ctr + 4 })

/-- Body of the loop of `ecs_load_game` that reads `entity_states[i]`. -/
def load_entity_state (heap : heap_t) (data : ptr_t) (i : Nat) (c : load_cursor_t) :
    Option load_cursor_t :=
  (mem_read heap (ptr_add data c.ctr) sizeof_entity_state_t).map (fun entity_state =>
    { ecs := { c.ecs with
        entity_states := Function.update c.ecs.entity_states i (int_of_bytes entity_state) }
      ctr := c.ctr + sizeof_entity_state_t })

/-- Body of the loop of `ecs_load_game` that reads `component_masks[i]`. -/
def load_component_mask (heap : heap_t) (data : ptr_t) (i : Nat) (c : load_cursor_t) :
    Option load_cursor_t :=
  (mem_read heap (ptr_add data c.ctr) 8).map (fun cm =>
    { ecs := { c.ecs with
        component_masks := Function.update c.ecs.component_masks i (u64_of_bytes cm) }
      ctr := c.ctr + 8 })

/-- Body of the last loop of `ecs_load_game`: the array of a persisted type
becomes the pointer `data + ctr`; nothing is copied. -/
def load_components (data : ptr_t) (i : Nat) (c : load_cursor_t) : load_cursor_t :=
  if c.ecs.save_component i then
    { ecs := { c.ecs with
        components := Function.update c.ecs.components i (some (ptr_add data c.ctr)) }
      ctr := c.ctr + c.ecs.component_type_sizes i * k_max_entities }
  else c

/-- The part of `ecs_load_game` after the result check, reading the buffer
`data` in `heap`; at the end the buffer is handed to `heap_free`. -/
def ecs_load_game_buffer (ecs : ecs_t) (heap : heap_t) (data : ptr_t) : Option ecs_t :=
  (mem_read heap data 4).bind (fun gs =>
    (for_lt_opt k_max_entities (load_sequence heap data)
      { ecs := { ecs with heap := heap, global_sequence := int_of_bytes gs }, ctr := 4 }).bind
    (fun c2 =>
      (for_lt_opt k_max_entities (load_entity_state heap data) c2).bind (fun c3 =>
        (for_lt_opt k_max_entities (load_component_mask heap data) c3).map (fun c4 =>
          { (for_lt k_max_component_types (load_components data) c4).ecs with
            heap := heap_free heap data }))))

/-- Function `ecs_load_game` with `heap == ecs->heap`, `file` being what the
storage answers for "savegame". The first loop of the C function only computes
a local `size` that is never used. The result is `none` when the code reads
through a null buffer or past the end of the buffer. -/
def ecs_load_game (ecs : ecs_t) (file : fs_file_t) : Option ecs_t :=
  if fs_work_get_result (fs_read ecs.heap file).2 ≠ 0 then
    some { ecs with heap := (fs_read ecs.heap file).1 }
  else
    (fs_work_get_buffer (fs_read ecs.heap file).2).bind
      (ecs_load_game_buffer ecs (fs_read ecs.heap file).1)

/-! ## Auxiliary definitions used in the statements -/

/-- What `ecs_update` does to one lifecycle state. -/
def commit_state (x : Int) : Int :=
  if x = k_entity_pending_add then k_entity_active
  else if x = k_entity_pending_remove then k_entity_unused
  else x

/-- The state after the first `k` of the calls `ecs_entity_add(ecs, masks 0)`,
`ecs_entity_add(ecs, masks 1)`, ... -/
def ecs_entity_add_many (ecs : ecs_t) (masks : Nat → Nat) : Nat → ecs_t
  | 0 => ecs
  | k + 1 => (ecs_entity_add (ecs_entity_add_many ecs masks k) (masks k)).1

/-- A heap in which nothing was allocated yet. -/
def heap_empty : heap_t := { blocks := [], junk := fun _ => 0 }

/-- A fresh table whose generation counter stands at `INT_MAX`. -/
def ecs_counter_at_int_max : ecs_t :=
  { ecs_create heap_empty with global_sequence := 2147483647 }

/-- The arguments of one `ecs_register_component_type` call. -/
structure register_args_t where
  name : String
  size_per_component : Nat
  alignment : Nat
  save : Bool

/-- The state after the first `k` of the calls
`ecs_register_component_type(ecs, args 0)`, `ecs_register_component_type(ecs, args 1)`, ... -/
def ecs_register_many (ecs : ecs_t) (args : Nat → register_args_t) : Nat → ecs_t
  | 0 => ecs
  | k + 1 =>
      (ecs_register_component_type (ecs_register_many ecs args k) (args k).name
        (args k).size_per_component (args k).alignment (args k).save).1

/-- A table with one entity waiting in slot 0 (mask 3, generation 1) and one
active entity in slot 1 (mask 1, generation 2). -/
def ecs_one_pending_one_active : ecs_t :=
  { ecs_create heap_empty with
    global_sequence := 3
    sequences := fun i => if i = 0 then 1 else if i = 1 then 2 else 0
    entity_states := fun i =>
      if i = 0 then k_entity_pending_add else if i = 1 then k_entity_active else k_entity_unused
    component_masks := fun i => if i = 0 then 3 else if i = 1 then 1 else 0 }

/-- One call on the entity table. -/
inductive ecs_call_t where
  | add (component_mask : Nat)
  | remove (ref : ecs_entity_ref_t) (allow_pending_add : Bool)
  | update

/-- The call stays inside the arrays: a ref handed to `ecs_entity_remove` has
an index below `k_max_entities` (a negative index is never used as one). -/
def ecs_call_in_range : ecs_call_t → Prop
  | .add _ => True
  | .remove ref _ => ref.entity < (k_max_entities : Int)
  | .update => True

/-- The table after one call, and the ref returned when the call is an
`ecs_entity_add` that succeeded. -/
def ecs_call (ecs : ecs_t) : ecs_call_t → ecs_t × List ecs_entity_ref_t
  | .add component_mask =>
      ((ecs_entity_add ecs component_mask).1,
       if 0 ≤ (ecs_entity_add ecs component_mask).2.entity then
         [(ecs_entity_add ecs component_mask).2] else [])
  | .remove ref allow_pending_add => (ecs_entity_remove ecs ref allow_pending_add, [])
  | .update => (ecs_update ecs, [])

/-- The table after a sequence of calls, and the refs returned by the
successful `ecs_entity_add` calls among them, in call order. -/
def ecs_run (ecs : ecs_t) : List ecs_call_t → ecs_t × List ecs_entity_ref_t
  | [] => (ecs, [])
  | c :: cs => ((ecs_run (ecs_call ecs c).1 cs).1, (ecs_call ecs c).2 ++ (ecs_run (ecs_call ecs c).1 cs).2)

/-- The handle `ref` can no longer pass `ecs_is_entity_ref_valid`: its
generation lies below the counter, and its slot either carries another
generation or is Unused. -/
def ecs_ref_stale (ecs : ecs_t) (ref : ecs_entity_ref_t) : Prop :=
  ref.sequence < ecs.global_sequence ∧
  (ecs.sequences ref.entity.toNat ≠ ref.sequence ∨
    ecs.entity_states ref.entity.toNat = k_entity_unused)

/-- The byte offset in the saved file at which the array of component type `i`
starts: 8196 bytes of table, then the arrays of the persisted types below `i`. -/
def ecs_save_offset (ecs : ecs_t) (i : Nat) : Nat :=
  for_lt i (fun t off =>
    if ecs.save_component t then off + k_max_entities * ecs.component_type_sizes t else off) 8196

/-- Every integer of the table fits its C type: the counter, the generations
and the lifecycle states are 32-bit `int` values, the masks are `uint64_t`. -/
def ecs_representable (ecs : ecs_t) : Prop :=
  (-2147483648 ≤ ecs.global_sequence ∧ ecs.global_sequence ≤ 2147483647) ∧
  ∀ i, i < k_max_entities →
    (-2147483648 ≤ ecs.sequences i ∧ ecs.sequences i ≤ 2147483647) ∧
    (-2147483648 ≤ ecs.entity_states i ∧ ecs.entity_states i ≤ 2147483647) ∧
    ecs.component_masks i < 18446744073709551616

/-- A fresh table with one registered component type "A" (4 bytes, alignment
4) whose persistence flag is set. -/
def ecs_with_persisted_type : ecs_t :=
  (ecs_register_component_type (ecs_create heap_empty) "A" 4 4 true).1

/-- A fresh table on `heap` with the two registrations of the save/load
scenario: type "A" (4 bytes, persisted) and type "B" (8 bytes, not persisted). -/
def ecs_with_types_A_B (heap : heap_t) : ecs_t :=
  (ecs_register_component_type
    (ecs_register_component_type (ecs_create heap) "A" 4 4 true).1 "B" 8 8 false).1

/-- What the save/load scenario produces: the table that was saved, the bytes
of the file, and the fresh table after the load. -/
structure save_load_scenario_t where
  saved : ecs_t
  file : List Nat
  loaded : ecs_t

/-- The save/load scenario: register A and B on a fresh table, add one entity
with mask {A, B}, store 42 in its A component, `ecs_update`, `ecs_save_game`;
then a fresh table with the same registrations and `ecs_load_game` of the file.
The result is `none` if a step reads or writes memory that is not there. -/
def save_load_scenario : Option save_load_scenario_t :=
  (ecs_entity_get_component (ecs_entity_add (ecs_with_types_A_B heap_empty) 3).1
      (ecs_entity_add (ecs_with_types_A_B heap_empty) 3).2 0 true).bind (fun p =>
    (mem_write (ecs_entity_add (ecs_with_types_A_B heap_empty) 3).1.heap p
        (int_to_bytes 42)).bind (fun heap =>
      (ecs_save_game
        (ecs_update { (ecs_entity_add (ecs_with_types_A_B heap_empty) 3).1 with heap := heap })).bind
      (fun sv =>
        (ecs_load_game (ecs_with_types_A_B sv.1.heap) (.ok sv.2)).map (fun l =>
          { saved := ecs_update
              { (ecs_entity_add (ecs_with_types_A_B heap_empty) 3).1 with heap := heap }
            file := sv.2
            loaded := l }))))

/-- A table in which every slot holds an active entity. -/
def ecs_full_table : ecs_t :=
  { ecs_create heap_empty with
    global_sequence := 513
    sequences := fun i => (i : Int) + 1
    entity_states := fun _ => k_entity_active }

/-- The table `ecs_one_pending_one_active` in which type 0 is registered with
16-byte components stored in block 0, and no other type is. -/
def ecs_two_entities_one_type : ecs_t :=
  { ecs_one_pending_one_active with
    components := Function.update (fun _ => none) 0 (some { block := 0, offset := 0 })
    component_type_sizes := Function.update (fun _ => 0) 0 16 }

/-- The layout of a saved file in closed form: 4 bytes of counter and 16 bytes
for each of the 512 slots, then 512 elements for each persisted type with an
id below `t`. This is where the array of type `t` starts, and for `t = 64` the
length of the whole file. -/
def ecs_layout_offset (ecs : ecs_t) (t : Nat) : Nat :=
  4 + 16 * 512 +
    (((List.range t).filter (fun u => ecs.save_component u)).map
      (fun u => 512 * ecs.component_type_sizes u)).sum

/-- The reload scenario: `ecs_save_game` on a fresh table; then
`ecs_entity_add` (giving the ref `r0`), `ecs_entity_remove(r0, true)`,
`ecs_update`; then `ecs_load_game` of the saved file and `ecs_entity_add`
again (giving the ref `r`). The result is `r0`, `r` and the final table, or
`none` if the save or the load stops. -/
def ecs_reload_scenario : Option (ecs_entity_ref_t × ecs_entity_ref_t × ecs_t) :=
  (ecs_save_game (ecs_create heap_empty)).bind (fun s =>
    (ecs_load_game
      (ecs_update (ecs_entity_remove (ecs_entity_add s.1 1).1 (ecs_entity_add s.1 1).2 true))
      (.ok s.2)).map (fun l =>
        ((ecs_entity_add s.1 1).2, (ecs_entity_add l 1).2, (ecs_entity_add l 1).1)))

/-- The value is one of the four lifecycle states of `entity_state_t`. -/
def is_entity_state (x : Int) : Prop :=
  x = k_entity_unused ∨ x = k_entity_pending_add ∨ x = k_entity_active ∨
    x = k_entity_pending_remove

/-- One call on the entity table, registrations included. -/
inductive ecs_table_call_t where
  | register (name : String) (size_per_component alignment : Nat) (save : Bool)
  | add (component_mask : Nat)
  | remove (ref : ecs_entity_ref_t) (allow_pending_add : Bool)
  | update

/-- The table after one call. -/
def ecs_table_call (ecs : ecs_t) : ecs_table_call_t → ecs_t
  | .register name size_per_component alignment save =>
      (ecs_register_component_type ecs name size_per_component alignment save).1
  | .add component_mask => (ecs_entity_add ecs component_mask).1
  | .remove ref allow_pending_add => ecs_entity_remove ecs ref allow_pending_add
  | .update => ecs_update ecs

/-- The table after a sequence of calls. -/
def ecs_table_run (ecs : ecs_t) : List ecs_table_call_t → ecs_t
  | [] => ecs
  | c :: cs => ecs_table_run (ecs_table_call ecs c) cs

/-- Every bit set in `mask` is the id of a registered component type. -/
def ecs_mask_registered (ecs : ecs_t) (mask : Nat) : Prop :=
  ∀ k, mask.testBit k = true → (ecs.components k).isSome = true

/-- The callers keep to registered types: every mask handed to
`ecs_entity_add` names only types registered at the time of the call, and every
ref handed to `ecs_entity_remove` has an index below `k_max_entities`. -/
def ecs_table_calls_ok (ecs : ecs_t) : List ecs_table_call_t → Prop
  | [] => True
  | c :: cs =>
      (match c with
        | .add component_mask => ecs_mask_registered ecs component_mask
        | .remove ref _ => ref.entity < (k_max_entities : Int)
        | _ => True) ∧
      ecs_table_calls_ok (ecs_table_call ecs c) cs

/-! ## The size header of a compressed file (src/fs.c) -/

/-- The loop `for (int i = n - 1; i >= 0; i--) body(i)` run on state `s`. -/
def for_down {σ : Type} : Nat → (Nat → σ → σ) → σ → σ
  | 0, _, s => s
  | k + 1, body, s => for_down k body (body k s)

/-- An `int` stored into a `char`: its low 8 bits, as the byte in memory. -/
def int_to_char (x : Int) : Nat := (x % 256).toNat

/-- A `char` read as an `int`; `char` is signed on the target, so the bytes
above 127 are negative. -/
def char_to_int (b : Nat) : Int := if b < 128 then (b : Int) else (b : Int) - 256

/-- The result of an `int` operation: `none` when it leaves the range of `int`
(signed overflow). -/
def int_checked (x : Int) : Option Int :=
  if -2147483648 ≤ x ∧ x ≤ 2147483647 then some x else none

/-- The variables of the digit loop of `file_compress`. -/
structure size_header_t where
  buffer : Nat → Nat
  compressed_size : Int
  decompressed_size : Int

/-- Body of the digit loop of `file_compress`; `/` and `%` of C truncate. -/
def file_compress_digit (i : Nat) (s : size_header_t) : size_header_t :=
  { buffer :=
      Function.update
        (Function.update s.buffer i (int_to_char (48 + Int.tmod s.compressed_size 10)))
        (i + 11) (int_to_char (48 + Int.tmod s.decompressed_size 10))
    compressed_size := Int.tdiv s.compressed_size 10
    decompressed_size := Int.tdiv s.decompressed_size 10 }

/-- The part of `file_compress` that writes the 22-byte header into `buffer`:
the digit loop for `i = 9` down to `0`, then the two newlines. -/
def file_compress_header (buffer : Nat → Nat) (compressed_size decompressed_size : Int) :
    Nat → Nat :=
  Function.update
    (Function.update
      (for_down 10 file_compress_digit
        { buffer := buffer
          compressed_size := compressed_size
          decompressed_size := decompressed_size }).buffer
      10 10)
    21 10

/-- Body of the digit loop of `file_decompress` on the pair
`(compressed_size, decompressed_size)`. -/
def file_decompress_digit (compressed_buffer : Nat → Nat) (i : Nat) (s : Int × Int) :
    Option (Int × Int) :=
  (int_checked (s.1 * 10)).bind (fun c1 =>
    (int_checked (s.2 * 10)).bind (fun d1 =>
      (int_checked (c1 + (char_to_int (compressed_buffer i) - 48))).bind (fun c2 =>
        (int_checked (d1 + (char_to_int (compressed_buffer (i + 11)) - 48))).map (fun d2 =>
          (c2, d2)))))

/-- The digit loop of `file_decompress`: the pair
`(compressed_size, decompressed_size)` read from the header, or `none` when an
`int` operation overflows on the way. -/
def file_decompress_sizes (compressed_buffer : Nat → Nat) : Option (Int × Int) :=
  for_lt_opt 10 (file_decompress_digit compressed_buffer) (0, 0)

/-! # Lemmas -/

/-! ## Loops and the commit step -/

theorem find_from_eq_some (p : Nat → Bool) (n lo i : Nat) :
    find_from p n lo = some i ↔
      lo ≤ i ∧ i < lo + n ∧ p i = true ∧ ∀ j, lo ≤ j → j < i → p j = false := by
  induction n generalizing lo with
  | zero => simp [find_from]; intro h1 h2; omega
  | succ n ih =>
    unfold find_from
    by_cases hp : p lo = true
    · rw [if_pos hp]
      simp only [Option.some.injEq]
      constructor
      · intro h; subst h
        exact ⟨le_refl _, by omega, hp, fun j h1 h2 => by omega⟩
      · rintro ⟨h1, _, _, h4⟩
        by_contra hne
        have := h4 lo (le_refl _) (by omega)
        simp [hp] at this
    · rw [if_neg hp, ih]
      have hp' : p lo = false := by simpa using hp
      constructor
      · rintro ⟨h1, h2, h3, h4⟩
        refine ⟨by omega, by omega, h3, fun j hj1 hj2 => ?_⟩
        by_cases hj : j = lo
        · subst hj; exact hp'
        · exact h4 j (by omega) hj2
      · rintro ⟨h1, h2, h3, h4⟩
        have hne : lo ≠ i := by
          intro h; subst h; simp [hp'] at h3
        exact ⟨by omega, by omega, h3, fun j hj1 hj2 => h4 j (by omega) hj2⟩

theorem find_from_eq_none (p : Nat → Bool) (n lo : Nat) :
    find_from p n lo = none ↔ ∀ j, lo ≤ j → j < lo + n → p j = false := by
  induction n generalizing lo with
  | zero => simp [find_from]; intro j h1 h2; omega
  | succ n ih =>
    unfold find_from
    by_cases hp : p lo = true
    · rw [if_pos hp]
      constructor
      · intro h; cases h
      · intro h; have := h lo (le_refl _) (by omega); simp [hp] at this
    · rw [if_neg hp, ih]
      have hp' : p lo = false := by simpa using hp
      constructor
      · intro h j hj1 hj2
        by_cases hj : j = lo
        · subst hj; exact hp'
        · exact h j (by omega) (by omega)
      · intro h j hj1 hj2
        exact h j (by omega) (by omega)

/-- Whatever the slots hold, the scan either finds a first index or none. -/
theorem find_from_exists (p : Nat → Bool) (n lo j : Nat) (h1 : lo ≤ j) (h2 : j < lo + n)
    (hj : p j = true) : ∃ i, find_from p n lo = some i := by
  cases h : find_from p n lo with
  | some i => exact ⟨i, rfl⟩
  | none =>
    rw [find_from_eq_none] at h
    have := h j h1 h2
    simp [hj] at this

theorem for_lt_succ {σ : Type} (n : Nat) (body : Nat → σ → σ) (s : σ) :
    for_lt (n + 1) body s = body n (for_lt n body s) := rfl

theorem ecs_update_slot_states (ecs : ecs_t) (i j : Nat) :
    (ecs_update_slot i ecs).entity_states j =
      if j = i then commit_state (ecs.entity_states i) else ecs.entity_states j := by
  unfold ecs_update_slot commit_state
  by_cases hj : j = i
  · subst hj
    split_ifs <;> simp_all
  · rw [if_neg hj]
    split_ifs <;> simp [Function.update_noteq hj]

theorem ecs_update_slot_rest (ecs : ecs_t) (i : Nat) :
    (ecs_update_slot i ecs).heap = ecs.heap ∧
    (ecs_update_slot i ecs).global_sequence = ecs.global_sequence ∧
    (ecs_update_slot i ecs).sequences = ecs.sequences ∧
    (ecs_update_slot i ecs).component_masks = ecs.component_masks ∧
    (ecs_update_slot i ecs).components = ecs.components ∧
    (ecs_update_slot i ecs).component_type_sizes = ecs.component_type_sizes ∧
    (ecs_update_slot i ecs).component_type_names = ecs.component_type_names ∧
    (ecs_update_slot i ecs).save_component = ecs.save_component := by
  unfold ecs_update_slot
  split_ifs <;> simp

theorem ecs_update_loop_states (ecs : ecs_t) (n i : Nat) :
    (for_lt n ecs_update_slot ecs).entity_states i =
      if i < n then commit_state (ecs.entity_states i) else ecs.entity_states i := by
  induction n with
  | zero => simp [for_lt]
  | succ n ih =>
    rw [for_lt_succ, ecs_update_slot_states]
    by_cases hin : i = n
    · subst hin
      rw [ih]
      simp
    · rw [if_neg hin, ih]
      by_cases h : i < n
      · rw [if_pos h, if_pos (by omega)]
      · rw [if_neg h, if_neg (by omega)]

theorem ecs_update_loop_rest (ecs : ecs_t) (n : Nat) :
    (for_lt n ecs_update_slot ecs).heap = ecs.heap ∧
    (for_lt n ecs_update_slot ecs).global_sequence = ecs.global_sequence ∧
    (for_lt n ecs_update_slot ecs).sequences = ecs.sequences ∧
    (for_lt n ecs_update_slot ecs).component_masks = ecs.component_masks ∧
    (for_lt n ecs_update_slot ecs).components = ecs.components ∧
    (for_lt n ecs_update_slot ecs).component_type_sizes = ecs.component_type_sizes ∧
    (for_lt n ecs_update_slot ecs).component_type_names = ecs.component_type_names ∧
    (for_lt n ecs_update_slot ecs).save_component = ecs.save_component := by
  induction n with
  | zero => simp [for_lt]
  | succ n ih =>
    rw [for_lt_succ]
    obtain ⟨h1, h2, h3, h4, h5, h6, h7, h8⟩ := ecs_update_slot_rest (for_lt n ecs_update_slot ecs) n
    obtain ⟨g1, g2, g3, g4, g5, g6, g7, g8⟩ := ih
    exact ⟨h1.trans g1, h2.trans g2, h3.trans g3, h4.trans g4, h5.trans g5, h6.trans g6,
      h7.trans g7, h8.trans g8⟩

theorem ecs_update_states (ecs : ecs_t) (i : Nat) :
    (ecs_update ecs).entity_states i =
      if i < k_max_entities then commit_state (ecs.entity_states i) else ecs.entity_states i := by
  unfold ecs_update
  exact ecs_update_loop_states ecs k_max_entities i

theorem ecs_update_rest (ecs : ecs_t) :
    (ecs_update ecs).heap = ecs.heap ∧
    (ecs_update ecs).global_sequence = ecs.global_sequence ∧
    (ecs_update ecs).sequences = ecs.sequences ∧
    (ecs_update ecs).component_masks = ecs.component_masks ∧
    (ecs_update ecs).components = ecs.components ∧
    (ecs_update ecs).component_type_sizes = ecs.component_type_sizes ∧
    (ecs_update ecs).component_type_names = ecs.component_type_names ∧
    (ecs_update ecs).save_component = ecs.save_component := by
  unfold ecs_update
  exact ecs_update_loop_rest ecs k_max_entities

/-! ## Adding entities -/

theorem ecs_entity_add_of_found (ecs : ecs_t) (m i : Nat)
    (h : find_from (fun i => decide (ecs.entity_states i = k_entity_unused)) k_max_entities 0
      = some i) :
    ecs_entity_add ecs m =
      ({ ecs with
          entity_states := Function.update ecs.entity_states i k_entity_pending_add
          sequences := Function.update ecs.sequences i ecs.global_sequence
          global_sequence := wrap_int (ecs.global_sequence + 1)
          component_masks := Function.update ecs.component_masks i m },
       { entity := (i : Int), sequence := ecs.global_sequence }) := by
  unfold ecs_entity_add
  rw [h]

theorem ecs_entity_add_of_full (ecs : ecs_t) (m : Nat)
    (h : find_from (fun i => decide (ecs.entity_states i = k_entity_unused)) k_max_entities 0
      = none) :
    ecs_entity_add ecs m = (ecs, { entity := -1, sequence := -1 }) := by
  unfold ecs_entity_add
  rw [h]

theorem wrap_int_of_range (x : Int) (h1 : -2147483648 ≤ x) (h2 : x ≤ 2147483647) :
    wrap_int x = x := by
  unfold wrap_int
  omega

theorem wrap_int_range (x : Int) : -2147483648 ≤ wrap_int x ∧ wrap_int x ≤ 2147483647 := by
  unfold wrap_int
  omega

/-! ## Registering component types -/

theorem ecs_register_of_found (ecs : ecs_t) (name : String) (size alignment : Nat) (save : Bool)
    (i : Nat)
    (h : find_from (fun i => (ecs.components i).isNone) k_max_component_types 0 = some i) :
    ecs_register_component_type ecs name size alignment save =
      ({ ecs with
          component_type_names := Function.update ecs.component_type_names i name
          component_type_sizes :=
            Function.update ecs.component_type_sizes i (aligned_size size alignment)
          components := Function.update ecs.components i
            (some (heap_alloc ecs.heap
              (wrap_size (aligned_size size alignment * k_max_entities)) alignment).2)
          heap := memset
            (heap_alloc ecs.heap
              (wrap_size (aligned_size size alignment * k_max_entities)) alignment).1
            (heap_alloc ecs.heap
              (wrap_size (aligned_size size alignment * k_max_entities)) alignment).2 0
            (wrap_size (aligned_size size alignment * k_max_entities))
          save_component := Function.update ecs.save_component i save },
       (i : Int)) := by
  unfold ecs_register_component_type
  rw [h]

theorem ecs_register_of_full (ecs : ecs_t) (name : String) (size alignment : Nat) (save : Bool)
    (h : find_from (fun i => (ecs.components i).isNone) k_max_component_types 0 = none) :
    ecs_register_component_type ecs name size alignment save = (ecs, -1) := by
  unfold ecs_register_component_type
  rw [h]

theorem ecs_register_many_fresh (heap : heap_t) (args : Nat → register_args_t) (k : Nat)
    (hk : k ≤ k_max_component_types) :
    (∀ j, ((ecs_register_many (ecs_create heap) args k).components j).isNone = decide (k ≤ j)) ∧
    find_from (fun i => ((ecs_register_many (ecs_create heap) args k).components i).isNone)
        k_max_component_types 0 =
      if k < k_max_component_types then some k else none := by
  have hfind : ∀ (e : ecs_t) (k : Nat), k ≤ k_max_component_types →
      (∀ j, (e.components j).isNone = decide (k ≤ j)) →
      find_from (fun i => (e.components i).isNone) k_max_component_types 0 =
        if k < k_max_component_types then some k else none := by
    intro e k _ he
    by_cases hlt : k < k_max_component_types
    · rw [if_pos hlt, find_from_eq_some]
      exact ⟨Nat.zero_le _, by omega, by simp [he], fun j _ hj => by simp [he, hj]⟩
    · rw [if_neg hlt, find_from_eq_none]
      intro j _ hj
      have : j < k := by omega
      simp [he, this]
  induction k with
  | zero =>
    have h0 : ∀ j, ((ecs_register_many (ecs_create heap) args 0).components j).isNone
        = decide (0 ≤ j) := by
      intro j; simp [ecs_register_many, ecs_create]
    exact ⟨h0, hfind _ 0 hk h0⟩
  | succ k ih =>
    obtain ⟨ih1, ih2⟩ := ih (by omega)
    rw [if_pos (by omega)] at ih2
    have hstep : ecs_register_many (ecs_create heap) args (k + 1) =
        (ecs_register_component_type (ecs_register_many (ecs_create heap) args k) (args k).name
          (args k).size_per_component (args k).alignment (args k).save).1 := rfl
    have h1 : ∀ j, ((ecs_register_many (ecs_create heap) args (k + 1)).components j).isNone
        = decide (k + 1 ≤ j) := by
      intro j
      rw [hstep, ecs_register_of_found _ _ _ _ _ k ih2]
      by_cases hj : j = k
      · subst hj; simp
      · simp only [Function.update_noteq hj, ih1]
        simp only [decide_eq_decide]
        omega
    exact ⟨h1, hfind _ (k + 1) hk h1⟩

/-! ## The query cursor -/

theorem find_from_filter_none (p : Nat → Bool) (n lo : Nat) (h : find_from p n lo = none) :
    (List.range' lo n).filter p = [] := by
  rw [find_from_eq_none] at h
  rw [List.filter_eq_nil_iff]
  intro a ha
  rw [List.mem_range'_1] at ha
  simp [h a ha.1 ha.2]

theorem find_from_filter_some (p : Nat → Bool) (n lo i : Nat) (h : find_from p n lo = some i) :
    (List.range' lo n).filter p = i :: (List.range' (i + 1) (lo + n - (i + 1))).filter p := by
  induction n generalizing lo with
  | zero => simp [find_from] at h
  | succ n ih =>
    unfold find_from at h
    rw [List.range'_succ]
    by_cases hp : p lo = true
    · rw [if_pos hp] at h
      cases h
      rw [List.filter_cons_of_pos hp]
      congr 3
      omega
    · rw [if_neg hp] at h
      rw [List.filter_cons_of_neg hp, ih (lo + 1) h]
      congr 3
      omega

theorem ecs_query_visit_invalid (ecs : ecs_t) (fuel : Nat) (mask : Nat) :
    ecs_query_visit ecs fuel { component_mask := mask, entity := -1 } = some [] := by
  cases fuel <;> simp [ecs_query_visit, ecs_query_is_valid]

theorem ecs_query_visit_from (ecs : ecs_t) (mask : Nat) (n : Nat) :
    ∀ lo fuel, lo + n = k_max_entities → n ≤ fuel →
      ecs_query_visit ecs fuel
          (ecs_query_next ecs { component_mask := mask, entity := (lo : Int) - 1 }) =
        some (((List.range' lo n).filter (ecs_query_match ecs mask)).map Int.ofNat) := by
  induction n using Nat.strong_induction_on with
  | _ n ih =>
    intro lo fuel hlo hfuel
    have hstart : ((lo : Int) - 1 + 1).toNat = lo := by simp
    have hn : k_max_entities - lo = n := by omega
    unfold ecs_query_next
    simp only [hstart, hn]
    cases hf : find_from (ecs_query_match ecs mask) n lo with
    | none =>
      simp only [find_from_filter_none _ _ _ hf, List.map_nil]
      exact ecs_query_visit_invalid ecs fuel mask
    | some i =>
      have hspec := (find_from_eq_some _ _ _ _).mp hf
      obtain ⟨h1, h2, _, _⟩ := hspec
      obtain ⟨f, rfl⟩ : ∃ f, fuel = f + 1 := ⟨fuel - 1, by omega⟩
      have hrec := ih (lo + n - (i + 1)) (by omega) (i + 1) f (by omega) (by omega)
      have hcast : (((i + 1 : Nat) : Int) - 1) = (i : Int) := by push_cast; ring
      rw [hcast] at hrec
      simp only [ecs_query_visit, ecs_query_is_valid, find_from_filter_some _ _ _ _ hf]
      have hi : decide ((i : Int) ≥ 0) = true := by simp
      rw [if_pos hi, hrec]
      rfl

/-- The visit list of a query: the shared form of the enumeration result. -/
theorem ecs_query_enumerates_aux (ecs : ecs_t) (mask : Nat) :
    ∃ visited : List Int,
      ecs_query_visit ecs 512 (ecs_query_create ecs mask) = some visited ∧
      visited = ((List.range 512).filter (ecs_query_match ecs mask)).map Int.ofNat ∧
      visited.length ≤ 512 ∧
      visited.Pairwise (fun a b => a < b) ∧
      visited.Nodup ∧
      (∀ i : Nat, i < 512 →
        (ecs.component_masks i &&& mask = mask ∧ ecs.entity_states i ≥ k_entity_active →
          visited.count (i : Int) = 1)) ∧
      (∀ x, x ∈ visited → ∃ i : Nat, i < 512 ∧ x = (i : Int) ∧
        ecs.component_masks i &&& mask = mask ∧ ecs.entity_states i ≥ k_entity_active) := by
  have hrun := ecs_query_visit_from ecs mask 512 0 512 (by decide) (le_refl _)
  have hsorted : (((List.range 512).filter (ecs_query_match ecs mask)).map Int.ofNat).Pairwise
      (fun a b => a < b) := by
    rw [List.pairwise_map]
    apply List.Pairwise.filter
    exact (List.pairwise_lt_range 512).imp (fun h => Int.ofNat_lt.mpr h)
  have hnodup : (((List.range 512).filter (ecs_query_match ecs mask)).map Int.ofNat).Nodup :=
    hsorted.imp (fun h => ne_of_lt h)
  refine ⟨_, ?_, rfl, ?_, hsorted, hnodup, ?_, ?_⟩
  · rw [← List.range_eq_range']  at hrun
    exact hrun
  · rw [List.length_map]
    calc ((List.range 512).filter (ecs_query_match ecs mask)).length
        ≤ (List.range 512).length := List.length_filter_le _ _
      _ = 512 := List.length_range 512
  · intro i hi hm
    apply List.count_eq_one_of_mem hnodup
    rw [List.mem_map]
    refine ⟨i, ?_, rfl⟩
    rw [List.mem_filter, List.mem_range]
    refine ⟨hi, ?_⟩
    simp [ecs_query_match, hm.1, hm.2]
  · intro x hx
    rw [List.mem_map] at hx
    obtain ⟨i, hi, rfl⟩ := hx
    rw [List.mem_filter, List.mem_range] at hi
    refine ⟨i, hi.1, rfl, ?_⟩
    have := hi.2
    simpa [ecs_query_match] using this

/-! ## Sequences of calls and the generation counter -/

theorem ecs_entity_remove_rest (ecs : ecs_t) (ref : ecs_entity_ref_t) (a : Bool) :
    (ecs_entity_remove ecs ref a).global_sequence = ecs.global_sequence ∧
    (ecs_entity_remove ecs ref a).sequences = ecs.sequences ∧
    (ecs_entity_remove ecs ref a).component_masks = ecs.component_masks := by
  unfold ecs_entity_remove
  split_ifs <;> simp

theorem ecs_entity_add_cases (ecs : ecs_t) (m : Nat) :
    (ecs_entity_add ecs m = (ecs, { entity := -1, sequence := -1 })) ∨
    (∃ i, i < k_max_entities ∧ ecs.entity_states i = k_entity_unused ∧
      ecs_entity_add ecs m =
      ({ ecs with
          entity_states := Function.update ecs.entity_states i k_entity_pending_add
          sequences := Function.update ecs.sequences i ecs.global_sequence
          global_sequence := wrap_int (ecs.global_sequence + 1)
          component_masks := Function.update ecs.component_masks i m },
       { entity := (i : Int), sequence := ecs.global_sequence })) := by
  cases hf : find_from (fun i => decide (ecs.entity_states i = k_entity_unused))
      k_max_entities 0 with
  | none => exact Or.inl (ecs_entity_add_of_full ecs m hf)
  | some i =>
    obtain ⟨_, h2, h3, _⟩ := (find_from_eq_some _ _ _ _).mp hf
    exact Or.inr ⟨i, by omega, by simpa using h3, ecs_entity_add_of_found ecs m i hf⟩

theorem ecs_call_refs (ecs : ecs_t) (c : ecs_call_t) :
    ((ecs_call ecs c).2 = [] ∧ (ecs_call ecs c).1.global_sequence = ecs.global_sequence) ∨
    (∃ i : Nat, (ecs_call ecs c).2 = [{ entity := (i : Int), sequence := ecs.global_sequence }] ∧
      (ecs_call ecs c).1.global_sequence = wrap_int (ecs.global_sequence + 1)) := by
  cases c with
  | add m =>
    rcases ecs_entity_add_cases ecs m with h | ⟨i, _, _, h⟩
    · left
      simp [ecs_call, h]
    · right
      exact ⟨i, by simp [ecs_call, h], by simp [ecs_call, h]⟩
  | remove ref a =>
    left
    exact ⟨rfl, (ecs_entity_remove_rest ecs ref a).1⟩
  | update =>
    left
    exact ⟨rfl, (ecs_update_rest ecs).2.1⟩

theorem ecs_run_cons (ecs : ecs_t) (c : ecs_call_t) (cs : List ecs_call_t) :
    ecs_run ecs (c :: cs) =
      ((ecs_run (ecs_call ecs c).1 cs).1, (ecs_call ecs c).2 ++ (ecs_run (ecs_call ecs c).1 cs).2) :=
  rfl

theorem ecs_run_refs_length_le (calls : List ecs_call_t) :
    ∀ ecs : ecs_t, (ecs_run ecs calls).2.length ≤ calls.length := by
  induction calls with
  | nil => intro ecs; simp [ecs_run]
  | cons c cs ih =>
    intro ecs
    rw [ecs_run_cons]
    have := ih (ecs_call ecs c).1
    rcases ecs_call_refs ecs c with ⟨h, _⟩ | ⟨i, h, _⟩ <;> simp [h] <;> omega

/-- Without overflow the counter has advanced by the number of successful adds. -/
theorem ecs_run_counter (calls : List ecs_call_t) :
    ∀ ecs : ecs_t, -2147483648 ≤ ecs.global_sequence →
      ecs.global_sequence + ((ecs_run ecs calls).2.length : Int) ≤ 2147483647 →
      (ecs_run ecs calls).1.global_sequence =
        ecs.global_sequence + ((ecs_run ecs calls).2.length : Int) := by
  induction calls with
  | nil => intro ecs _ _; simp [ecs_run]
  | cons c cs ih =>
    intro ecs hlo hno
    rw [ecs_run_cons] at hno ⊢
    rcases ecs_call_refs ecs c with ⟨h, hg⟩ | ⟨i, h, hg⟩
    · simp only [h, List.nil_append] at hno ⊢
      rw [ih _ (by rw [hg]; exact hlo) (by rw [hg]; exact hno), hg]
    · simp only [h, List.singleton_append, List.length_cons] at hno ⊢
      push_cast at hno ⊢
      have hw : wrap_int (ecs.global_sequence + 1) = ecs.global_sequence + 1 :=
        wrap_int_of_range _ (by omega) (by omega)
      rw [hw] at hg
      rw [ih _ (by rw [hg]; omega) (by rw [hg]; omega), hg]
      ring

/-- Without overflow the generations handed out are at least the counter at
the start and strictly increasing. -/
theorem ecs_run_sequences (calls : List ecs_call_t) :
    ∀ ecs : ecs_t, -2147483648 ≤ ecs.global_sequence →
      ecs.global_sequence + ((ecs_run ecs calls).2.length : Int) ≤ 2147483648 →
      (∀ r, r ∈ (ecs_run ecs calls).2 → ecs.global_sequence ≤ r.sequence) ∧
      ((ecs_run ecs calls).2.map (fun r => r.sequence)).Pairwise (fun a b => a < b) := by
  induction calls with
  | nil => intro ecs _ _; simp [ecs_run]
  | cons c cs ih =>
    intro ecs hlo hno
    rw [ecs_run_cons] at hno ⊢
    rcases ecs_call_refs ecs c with ⟨h, hg⟩ | ⟨i, h, hg⟩
    · simp only [h, List.nil_append] at hno ⊢
      have := ih (ecs_call ecs c).1 (by rw [hg]; exact hlo) (by rw [hg]; exact hno)
      rw [hg] at this
      exact this
    · simp only [h, List.singleton_append, List.length_cons] at hno ⊢
      push_cast at hno
      by_cases hrest : (ecs_run (ecs_call ecs c).1 cs).2 = []
      · simp [hrest]
      · have hpos : 0 < (ecs_run (ecs_call ecs c).1 cs).2.length :=
          List.length_pos.mpr hrest
        have hw : wrap_int (ecs.global_sequence + 1) = ecs.global_sequence + 1 :=
          wrap_int_of_range _ (by omega) (by omega)
        rw [hw] at hg
        obtain ⟨h1, h2⟩ := ih (ecs_call ecs c).1 (by rw [hg]; omega) (by rw [hg]; omega)
        rw [hg] at h1
        constructor
        · intro r hr
          rw [List.mem_cons] at hr
          rcases hr with hr | hr
          · subst hr; exact le_refl _
          · have := h1 r hr; omega
        · rw [List.map_cons, List.pairwise_cons]
          refine ⟨?_, h2⟩
          intro a ha
          rw [List.mem_map] at ha
          obtain ⟨r, hr, rfl⟩ := ha
          have := h1 r hr
          show ecs.global_sequence < r.sequence
          omega

/-! ## Stale handles -/

theorem ecs_is_entity_ref_valid_iff (ecs : ecs_t) (ref : ecs_entity_ref_t) (a : Bool) :
    ecs_is_entity_ref_valid ecs ref a = true ↔
      0 ≤ ref.entity ∧ ecs.sequences ref.entity.toNat = ref.sequence ∧
      (if a then k_entity_pending_add else k_entity_active) ≤
        ecs.entity_states ref.entity.toNat := by
  unfold ecs_is_entity_ref_valid
  simp only [Bool.and_eq_true, decide_eq_true_eq, ge_iff_le, and_assoc]

theorem ecs_ref_stale_not_valid (ecs : ecs_t) (ref : ecs_entity_ref_t) (a : Bool)
    (h : ecs_ref_stale ecs ref) : ecs_is_entity_ref_valid ecs ref a = false := by
  rw [← Bool.not_eq_true, ecs_is_entity_ref_valid_iff]
  rintro ⟨_, h2, h3⟩
  rcases h.2 with h | h
  · exact h h2
  · rw [h] at h3
    cases a <;> simp [k_entity_unused, k_entity_pending_add, k_entity_active] at h3

theorem ecs_ref_stale_call (ecs : ecs_t) (ref : ecs_entity_ref_t) (c : ecs_call_t)
    (h : ecs_ref_stale ecs ref) (hlo : -2147483648 ≤ ecs.global_sequence)
    (hno : ecs.global_sequence + ((ecs_call ecs c).2.length : Int) ≤ 2147483647) :
    ecs_ref_stale (ecs_call ecs c).1 ref := by
  obtain ⟨h1, h2⟩ := h
  cases c with
  | add m =>
    rcases ecs_entity_add_cases ecs m with hadd | ⟨i, _, _, hadd⟩
    · simp only [ecs_call, hadd]
      exact ⟨h1, h2⟩
    · simp only [ecs_call, hadd] at hno ⊢
      have hi : (0 : Int) ≤ (i : Int) := Int.ofNat_nonneg i
      rw [if_pos hi] at hno
      simp only [List.length_singleton, Nat.cast_one] at hno
      have hw : wrap_int (ecs.global_sequence + 1) = ecs.global_sequence + 1 :=
        wrap_int_of_range _ (by omega) (by omega)
      refine ⟨by show ref.sequence < wrap_int _; rw [hw]; omega, ?_⟩
      by_cases he : ref.entity.toNat = i
      · left
        show Function.update ecs.sequences i ecs.global_sequence ref.entity.toNat ≠ _
        rw [he, Function.update_same]
        omega
      · show Function.update ecs.sequences i ecs.global_sequence ref.entity.toNat ≠ _ ∨
          Function.update ecs.entity_states i k_entity_pending_add ref.entity.toNat = _
        rw [Function.update_noteq he, Function.update_noteq he]
        exact h2
  | remove r a =>
    simp only [ecs_call]
    unfold ecs_entity_remove
    by_cases hv : ecs_is_entity_ref_valid ecs r a = true
    · rw [if_pos hv]
      refine ⟨h1, ?_⟩
      by_cases he : ref.entity.toNat = r.entity.toNat
      · left
        rcases h2 with h2 | h2
        · exact h2
        · exfalso
          rw [ecs_is_entity_ref_valid_iff] at hv
          obtain ⟨_, _, hv3⟩ := hv
          rw [← he, h2] at hv3
          cases a <;> simp [k_entity_unused, k_entity_pending_add, k_entity_active] at hv3
      · show _ ∨ Function.update ecs.entity_states r.entity.toNat k_entity_pending_remove
          ref.entity.toNat = _
        rw [Function.update_noteq he]
        exact h2
    · rw [if_neg hv]
      exact ⟨h1, h2⟩
  | update =>
    simp only [ecs_call]
    obtain ⟨_, g2, g3, _⟩ := ecs_update_rest ecs
    refine ⟨by rw [g2]; exact h1, ?_⟩
    rw [g3]
    rcases h2 with h2 | h2
    · exact Or.inl h2
    · right
      rw [ecs_update_states, h2]
      simp [commit_state, k_entity_unused, k_entity_pending_add, k_entity_pending_remove]

theorem ecs_ref_stale_run (ref : ecs_entity_ref_t) (calls : List ecs_call_t) :
    ∀ ecs : ecs_t, ecs_ref_stale ecs ref → -2147483648 ≤ ecs.global_sequence →
      ecs.global_sequence + ((ecs_run ecs calls).2.length : Int) ≤ 2147483647 →
      ecs_ref_stale (ecs_run ecs calls).1 ref := by
  induction calls with
  | nil => intro ecs h _ _; exact h
  | cons c cs ih =>
    intro ecs h hlo hno
    rw [ecs_run_cons] at hno ⊢
    rw [List.length_append] at hno
    push_cast at hno
    have hstep := ecs_ref_stale_call ecs ref c h hlo (by omega)
    have hcnt := ecs_run_counter [c] ecs hlo (by
      simp only [ecs_run, List.append_nil]; omega)
    simp only [ecs_run, List.append_nil] at hcnt
    exact ih _ hstep (by rw [hcnt]; omega) (by rw [hcnt]; omega)

/-! ## Heap blocks -/

theorem heap_block_lt (heap : heap_t) (b : Nat) (bs : List Nat)
    (h : heap_block heap b = some bs) : b < heap.blocks.length := by
  by_contra hb
  unfold heap_block at h
  rw [List.getD_eq_getElem?_getD, List.getElem?_eq_none (by omega)] at h
  simp at h

theorem heap_block_alloc_old (heap : heap_t) (size alignment b : Nat)
    (hb : b < heap.blocks.length) :
    heap_block (heap_alloc heap size alignment).1 b = heap_block heap b := by
  unfold heap_block heap_alloc
  simp only [List.getD_eq_getElem?_getD]
  rw [List.getElem?_append_left hb]

theorem heap_block_alloc_new (heap : heap_t) (size alignment : Nat) :
    heap_block (heap_alloc heap size alignment).1 (heap_alloc heap size alignment).2.block =
      some ((List.range size).map heap.junk) := by
  unfold heap_block heap_alloc
  simp [List.getD_eq_getElem?_getD]

theorem heap_block_set (heap : heap_t) (b c : Nat) (v : Option (List Nat)) (junk : Nat → Nat) :
    heap_block { blocks := heap.blocks.set b v, junk := junk } c =
      if b = c ∧ b < heap.blocks.length then v else heap_block heap c := by
  unfold heap_block
  simp only [List.getD_eq_getElem?_getD, List.getElem?_set]
  by_cases hbc : b = c
  · subst hbc
    by_cases hb : b < heap.blocks.length
    · simp [hb]
    · simp [hb, List.getElem?_eq_none (Nat.le_of_not_lt hb)]
  · simp [hbc]

theorem heap_block_free (heap : heap_t) (p : ptr_t) (c : Nat) :
    heap_block (heap_free heap p) c =
      if p.block = c then none else heap_block heap c := by
  unfold heap_free
  rw [heap_block_set]
  by_cases hbc : p.block = c
  · subst hbc
    by_cases hb : p.block < heap.blocks.length
    · simp [hb]
    · simp only [hb, and_false, if_false, if_true]
      unfold heap_block
      rw [List.getD_eq_getElem?_getD, List.getElem?_eq_none (Nat.le_of_not_lt hb)]
      rfl
  · simp [hbc]

theorem mem_write_block (heap : heap_t) (p : ptr_t) (vals bs : List Nat)
    (hb : heap_block heap p.block = some bs) (hfit : p.offset + vals.length ≤ bs.length)
    (c : Nat) :
    ∃ heap2, mem_write heap p vals = some heap2 ∧ heap2.junk = heap.junk ∧
      heap2.blocks.length = heap.blocks.length ∧
      heap_block heap2 c =
        if p.block = c then
          some (bs.take p.offset ++ vals ++ bs.drop (p.offset + vals.length))
        else heap_block heap c := by
  unfold mem_write
  rw [hb]
  simp only [Option.some_bind, if_pos hfit]
  refine ⟨_, rfl, rfl, by simp, ?_⟩
  rw [heap_block_set]
  have := heap_block_lt heap p.block bs hb
  by_cases hbc : p.block = c
  · subst hbc
    simp [this]
  · simp [hbc]

/-- The heap after a successful read of `bytes`: one more block, holding `bytes`. -/
theorem fs_read_ok_heap (heap : heap_t) (bytes : List Nat) :
    (fs_read heap (.ok bytes)).2 =
      { buffer := some { block := heap.blocks.length, offset := 0 },
        size := bytes.length, result := 0 } ∧
    (fs_read heap (.ok bytes)).1.blocks.length = heap.blocks.length + 1 ∧
    (fs_read heap (.ok bytes)).1.junk = heap.junk ∧
    ∀ c, heap_block (fs_read heap (.ok bytes)).1 c =
      if c = heap.blocks.length then some bytes else heap_block heap c := by
  have hnew := heap_block_alloc_new heap bytes.length 8
  have hp : (heap_alloc heap bytes.length 8).2 = { block := heap.blocks.length, offset := 0 } :=
    rfl
  have hlen : (heap_alloc heap bytes.length 8).1.blocks.length = heap.blocks.length + 1 := by
    simp [heap_alloc]
  have hw := fun c => mem_write_block (heap_alloc heap bytes.length 8).1
    (heap_alloc heap bytes.length 8).2 bytes _ hnew (by simp [hp]) c
  obtain ⟨heap2, hw1, hw2, hw3, _⟩ := hw 0
  have hfs : fs_read heap (.ok bytes) = (heap2,
      { buffer := some (heap_alloc heap bytes.length 8).2, size := bytes.length, result := 0 }) := by
    simp only [fs_read, hw1, Option.getD_some]
  rw [hfs]
  refine ⟨by rw [hp], by rw [hw3, hlen], by rw [hw2]; rfl, ?_⟩
  intro c
  obtain ⟨heap3, hw1', _, _, hw4⟩ := hw c
  rw [hw1] at hw1'
  cases hw1'
  rw [hw4, hp]
  by_cases hc : c = heap.blocks.length
  · subst hc
    simp
  · rw [if_neg (fun h => hc h.symm), if_neg hc]
    by_cases hlt : c < heap.blocks.length
    · exact heap_block_alloc_old heap _ _ c hlt
    · unfold heap_block heap_alloc
      simp only [List.getD_eq_getElem?_getD]
      rw [List.getElem?_eq_none (by simp; omega), List.getElem?_eq_none (by omega)]

/-! ## Bytes of machine integers -/

theorem le_bytes_length (n x : Nat) : (le_bytes n x).length = n := by
  induction n generalizing x with
  | zero => rfl
  | succ n ih => simp [le_bytes, ih]

theorem le_value_le_bytes (n x : Nat) : le_value (le_bytes n x) = x % 256 ^ n := by
  induction n generalizing x with
  | zero => simp [le_bytes, le_value, Nat.mod_one]
  | succ n ih =>
    simp only [le_bytes, le_value, ih]
    rw [Nat.pow_succ', Nat.mod_mul]

theorem int_to_bytes_length (x : Int) : (int_to_bytes x).length = 4 :=
  le_bytes_length 4 _

theorem u64_to_bytes_length (x : Nat) : (u64_to_bytes x).length = 8 :=
  le_bytes_length 8 _

theorem int_of_bytes_to_bytes (x : Int) (h1 : -2147483648 ≤ x) (h2 : x ≤ 2147483647) :
    int_of_bytes (int_to_bytes x) = x := by
  unfold int_of_bytes int_to_bytes
  rw [le_value_le_bytes]
  unfold wrap_int
  have h : (256 : Nat) ^ 4 = 4294967296 := by norm_num
  rw [h]
  omega

theorem u64_of_bytes_to_bytes (x : Nat) (h : x < 18446744073709551616) :
    u64_of_bytes (u64_to_bytes x) = x := by
  unfold u64_of_bytes u64_to_bytes
  rw [le_value_le_bytes]
  have h8 : (256 : Nat) ^ 8 = 18446744073709551616 := by norm_num
  rw [h8]
  exact Nat.mod_eq_of_lt h

/-! ## Loop invariants -/

theorem for_lt_inv {σ : Type} (P : Nat → σ → Prop) (body : Nat → σ → σ) (s : σ) (n : Nat)
    (h0 : P 0 s) (hstep : ∀ k a, k < n → P k a → P (k + 1) (body k a)) :
    P n (for_lt n body s) := by
  induction n with
  | zero => exact h0
  | succ n ih =>
    rw [for_lt_succ]
    exact hstep n _ (Nat.lt_succ_self n) (ih (fun k a hk => hstep k a (Nat.lt_succ_of_lt hk)))

theorem for_lt_opt_succ {σ : Type} (n : Nat) (body : Nat → σ → Option σ) (s : σ) :
    for_lt_opt (n + 1) body s = (for_lt_opt n body s).bind (body n) := rfl

theorem for_lt_opt_inv {σ : Type} (P : Nat → σ → Prop) (body : Nat → σ → Option σ) (s : σ)
    (n : Nat) (h0 : P 0 s)
    (hstep : ∀ k a b, k < n → P k a → body k a = some b → P (k + 1) b) :
    ∀ r, for_lt_opt n body s = some r → P n r := by
  induction n with
  | zero =>
    intro r hr
    cases hr
    exact h0
  | succ n ih =>
    intro r hr
    rw [for_lt_opt_succ] at hr
    cases hm : for_lt_opt n body s with
    | none => rw [hm] at hr; cases hr
    | some a =>
      rw [hm] at hr
      exact hstep n a r (Nat.lt_succ_self n)
        (ih (fun k a b hk => hstep k a b (Nat.lt_succ_of_lt hk)) a hm) hr

theorem for_lt_opt_exists {σ : Type} (P : Nat → σ → Prop) (body : Nat → σ → Option σ) (s : σ)
    (n : Nat) (h0 : P 0 s)
    (hstep : ∀ k a, k < n → P k a → ∃ b, body k a = some b ∧ P (k + 1) b) :
    ∃ r, for_lt_opt n body s = some r ∧ P n r := by
  induction n with
  | zero => exact ⟨s, rfl, h0⟩
  | succ n ih =>
    obtain ⟨a, ha, hpa⟩ := ih (fun k a hk => hstep k a (Nat.lt_succ_of_lt hk))
    obtain ⟨b, hb, hpb⟩ := hstep n a (Nat.lt_succ_self n) hpa
    exact ⟨b, by rw [for_lt_opt_succ, ha]; exact hb, hpb⟩

/-! ## Writing the save buffer -/

theorem for_lt_update_data (n ctr : Nat) (src : Nat → Nat) (d : Nat → Nat) (k : Nat) :
    for_lt n (fun j d => Function.update d (j + ctr) (src j)) d k =
      if ctr ≤ k ∧ k < ctr + n then src (k - ctr) else d k := by
  induction n with
  | zero =>
    rw [if_neg (by omega)]
    rfl
  | succ n ih =>
    rw [for_lt_succ]
    by_cases hk : k = n + ctr
    · subst hk
      rw [Function.update_same, if_pos (by omega)]
      congr 1
      omega
    · rw [Function.update_noteq hk, ih]
      by_cases h : ctr ≤ k ∧ k < ctr + n
      · rw [if_pos h, if_pos (by omega)]
      · rw [if_neg h, if_neg (by omega)]

theorem save_put_ctr (src : List Nat) (n : Nat) (c : save_cursor_t) :
    (save_put src n c).ctr = c.ctr + n := rfl

theorem save_put_data (src : List Nat) (n : Nat) (c : save_cursor_t) (k : Nat) :
    (save_put src n c).data k =
      if c.ctr ≤ k ∧ k < c.ctr + n then src.getD (k - c.ctr) 0 else c.data k := by
  unfold save_put
  exact for_lt_update_data n c.ctr (fun j => src.getD j 0) c.data k

/-- A loop of `m` writes of `w` bytes each: where the bytes of item `i` land. -/
theorem save_put_loop (src : Nat → List Nat) (w m : Nat) (c0 : save_cursor_t) :
    (for_lt m (fun i c => save_put (src i) w c) c0).ctr = c0.ctr + m * w ∧
    (∀ i j, i < m → j < w →
      (for_lt m (fun i c => save_put (src i) w c) c0).data (c0.ctr + i * w + j) =
        (src i).getD j 0) ∧
    (∀ k, k < c0.ctr ∨ c0.ctr + m * w ≤ k →
      (for_lt m (fun i c => save_put (src i) w c) c0).data k = c0.data k) := by
  induction m with
  | zero =>
    refine ⟨by simp [for_lt], fun i j hi _ => by omega, fun k _ => rfl⟩
  | succ m ih =>
    obtain ⟨ih1, ih2, ih3⟩ := ih
    rw [for_lt_succ]
    have hmul : (m + 1) * w = m * w + w := Nat.succ_mul m w
    refine ⟨by rw [save_put_ctr, ih1, hmul]; omega, ?_, ?_⟩
    · intro i j hi hj
      rw [save_put_data, ih1]
      by_cases him : i = m
      · subst him
        rw [if_pos (by omega)]
        congr 1
        omega
      · have hle : (i + 1) * w ≤ m * w := Nat.mul_le_mul_right w (by omega)
        rw [Nat.succ_mul] at hle
        rw [if_neg (by omega)]
        exact ih2 i j (by omega) hj
    · intro k hk
      rw [save_put_data, ih1, if_neg (by omega)]
      exact ih3 k (by omega)

/-- Where `ecs_save_game` puts the fixed part of the table. -/
theorem ecs_save_header_layout (ecs : ecs_t) (c0 : save_cursor_t) (h0 : c0.ctr = 0) :
    (ecs_save_header ecs c0).ctr = 8196 ∧
    (∀ j, j < 4 → (ecs_save_header ecs c0).data j = (int_to_bytes ecs.global_sequence).getD j 0) ∧
    (∀ i j, i < 512 → j < 4 →
      (ecs_save_header ecs c0).data (4 + i * 4 + j) = (int_to_bytes (ecs.sequences i)).getD j 0) ∧
    (∀ i j, i < 512 → j < 4 →
      (ecs_save_header ecs c0).data (2052 + i * 4 + j) =
        (int_to_bytes (ecs.entity_states i)).getD j 0) ∧
    (∀ i j, i < 512 → j < 8 →
      (ecs_save_header ecs c0).data (4100 + i * 8 + j) =
        (u64_to_bytes (ecs.component_masks i)).getD j 0) ∧
    (∀ k, 8196 ≤ k → (ecs_save_header ecs c0).data k = c0.data k) := by
  unfold ecs_save_header
  simp only
  generalize hc1 : save_put (int_to_bytes ecs.global_sequence) 4 c0 = c1
  have hc1ctr : c1.ctr = 4 := by rw [← hc1, save_put_ctr, h0]
  have hc1data : ∀ k, c1.data k =
      if k < 4 then (int_to_bytes ecs.global_sequence).getD k 0 else c0.data k := by
    intro k
    rw [← hc1, save_put_data, h0]
    by_cases hk : k < 4
    · rw [if_pos (by omega), if_pos hk]; rfl
    · rw [if_neg (by omega), if_neg hk]
  obtain ⟨a1, a2, a3⟩ := save_put_loop (fun i => int_to_bytes (ecs.sequences i)) 4
    k_max_entities c1
  generalize hc2 : for_lt k_max_entities
    (fun i c => save_put (int_to_bytes (ecs.sequences i)) 4 c) c1 = c2 at a1 a2 a3
  obtain ⟨b1, b2, b3⟩ := save_put_loop (fun i => int_to_bytes (ecs.entity_states i))
    sizeof_entity_state_t k_max_entities c2
  generalize hc3 : for_lt k_max_entities
    (fun i c => save_put (int_to_bytes (ecs.entity_states i)) sizeof_entity_state_t c) c2 = c3
    at b1 b2 b3
  obtain ⟨d1, d2, d3⟩ := save_put_loop (fun i => u64_to_bytes (ecs.component_masks i)) 8
    k_max_entities c3
  generalize hc4 : for_lt k_max_entities
    (fun i c => save_put (u64_to_bytes (ecs.component_masks i)) 8 c) c3 = c4 at d1 d2 d3
  have hk : k_max_entities = 512 := rfl
  have hs : sizeof_entity_state_t = 4 := rfl
  rw [hk] at a1 a2 a3 b1 b2 b3 d1 d2 d3
  rw [hs] at b1 b2 b3
  rw [hc1ctr] at a1 a2 a3
  rw [a1] at b1 b2 b3
  rw [b1] at d1 d2 d3
  refine ⟨by rw [d1], ?_, ?_, ?_, ?_, ?_⟩
  · intro j hj
    rw [d3 j (by omega), b3 j (by omega), a3 j (by omega), hc1data, if_pos hj]
  · intro i j hi hj
    rw [d3 _ (by omega), b3 _ (by omega)]
    exact a2 i j hi hj
  · intro i j hi hj
    rw [d3 _ (by omega)]
    have := b2 i j hi hj
    rw [← this]
  · intro i j hi hj
    have := d2 i j hi hj
    rw [← this]
  · intro k hk
    rw [d3 k (by omega), b3 k (by omega), a3 k (by omega), hc1data, if_neg (by omega)]

/-! ## Copying component arrays into the save buffer -/

theorem save_copy_inner_spec (src : Nat → Option Nat) (ctr n : Nat) (d0 : Nat → Nat) :
    ∀ d, for_lt_opt n (fun k d => (src k).map (fun v => Function.update d (k + ctr) v)) d0
        = some d →
      (∀ k, k < n → src k = some (d (ctr + k))) ∧
      (∀ x, x < ctr ∨ ctr + n ≤ x → d x = d0 x) := by
  refine for_lt_opt_inv (fun (m : Nat) (d : Nat → Nat) =>
    (∀ k, k < m → src k = some (d (ctr + k))) ∧ (∀ x, x < ctr ∨ ctr + m ≤ x → d x = d0 x))
    _ d0 n ?_ ?_
  · exact ⟨fun k hk => by omega, fun x _ => rfl⟩
  · intro m a b _ ⟨h1, h2⟩ hb
    cases hs : src m with
    | none => rw [hs] at hb; cases hb
    | some v =>
      rw [hs] at hb
      simp only [Option.map_some', Option.some.injEq] at hb
      subst hb
      constructor
      · intro k hk
        by_cases hkm : k = m
        · subst hkm
          rw [show ctr + k = k + ctr by omega, Function.update_same, hs]
        · rw [Function.update_noteq (by omega)]
          exact h1 k (by omega)
      · intro x hx
        rw [Function.update_noteq (by omega)]
        exact h2 x (by omega)

theorem save_copy_inner_exists (src : Nat → Option Nat) (ctr n : Nat) (d0 : Nat → Nat)
    (h : ∀ k, k < n → (src k).isSome = true) :
    ∃ d, for_lt_opt n (fun k d => (src k).map (fun v => Function.update d (k + ctr) v)) d0
      = some d := by
  obtain ⟨d, hd, _⟩ := for_lt_opt_exists (fun _ _ => True)
    (fun k d => (src k).map (fun v => Function.update d (k + ctr) v)) d0 n True.intro
    (fun k a hk _ => by
      obtain ⟨v, hv⟩ := Option.isSome_iff_exists.mp (h k hk)
      exact ⟨Function.update a (k + ctr) v, by simp only [hv, Option.map_some'], True.intro⟩)
  exact ⟨d, hd⟩

theorem save_component_array_spec (heap : heap_t) (components : Option ptr_t) (size : Nat)
    (c : save_cursor_t) :
    ∀ c2, save_component_array heap components size c = some c2 →
      c2.ctr = c.ctr + k_max_entities * size ∧
      (∀ j k, j < k_max_entities → k < size →
        mem_byte heap components (j * size + k) = some (c2.data (c.ctr + j * size + k))) ∧
      (∀ x, x < c.ctr ∨ c.ctr + k_max_entities * size ≤ x → c2.data x = c.data x) := by
  unfold save_component_array
  refine for_lt_opt_inv (fun (m : Nat) (c2 : save_cursor_t) =>
    c2.ctr = c.ctr + m * size ∧
    (∀ j k, j < m → k < size →
      mem_byte heap components (j * size + k) = some (c2.data (c.ctr + j * size + k))) ∧
    (∀ x, x < c.ctr ∨ c.ctr + m * size ≤ x → c2.data x = c.data x))
    _ c k_max_entities ?_ ?_
  · exact ⟨by simp, fun j k hj _ => by omega, fun x _ => rfl⟩
  · intro m a b _ ⟨h1, h2, h3⟩ hb
    cases hin : for_lt_opt size (fun k d =>
        (mem_byte heap components (m * size + k)).map
          (fun v => Function.update d (k + a.ctr) v)) a.data with
    | none => rw [hin] at hb; cases hb
    | some d =>
      rw [hin] at hb
      simp only [Option.map_some', Option.some.injEq] at hb
      subst hb
      obtain ⟨g1, g2⟩ := save_copy_inner_spec
        (fun k => mem_byte heap components (m * size + k)) a.ctr size a.data d hin
      have hmul : (m + 1) * size = m * size + size := Nat.succ_mul m size
      refine ⟨by show a.ctr + size = _; rw [h1, hmul]; omega, ?_, ?_⟩
      · intro j k hj hk
        show _ = some (d _)
        by_cases hjm : j = m
        · subst hjm
          have := g1 k hk
          rw [h1] at this
          rw [this]
        · have hle : (j + 1) * size ≤ m * size := Nat.mul_le_mul_right size (by omega)
          rw [Nat.succ_mul] at hle
          rw [g2 _ (by omega)]
          exact h2 j k (by omega) hk
      · intro x hx
        show d x = _
        rw [g2 x (by omega)]
        exact h3 x (by omega)

theorem save_component_array_exists (heap : heap_t) (components : Option ptr_t) (size : Nat)
    (c : save_cursor_t)
    (h : ∀ off, off < k_max_entities * size → (mem_byte heap components off).isSome = true) :
    ∃ c2, save_component_array heap components size c = some c2 := by
  unfold save_component_array
  obtain ⟨r, hr, _⟩ := for_lt_opt_exists (fun _ _ => True)
    (fun j (c : save_cursor_t) =>
      (for_lt_opt size (fun k d =>
        (mem_byte heap components (j * size + k)).map
          (fun v => Function.update d (k + c.ctr) v)) c.data).map
      (fun d => ({ data := d, ctr := c.ctr + size } : save_cursor_t))) c k_max_entities
    True.intro
    (fun j a hj _ => by
      obtain ⟨d, hd⟩ := save_copy_inner_exists
        (fun k => mem_byte heap components (j * size + k)) a.ctr size a.data
        (fun k hk => h _ (by
          have hle : (j + 1) * size ≤ k_max_entities * size :=
            Nat.mul_le_mul_right size (by omega)
          rw [Nat.succ_mul] at hle
          omega))
      exact ⟨{ data := d, ctr := a.ctr + size }, by simp only [hd, Option.map_some'],
        True.intro⟩)
  exact ⟨r, hr⟩

/-! ## The saved file -/

theorem ecs_save_offset_succ (ecs : ecs_t) (i : Nat) :
    ecs_save_offset ecs (i + 1) =
      if ecs.save_component i then
        ecs_save_offset ecs i + k_max_entities * ecs.component_type_sizes i
      else ecs_save_offset ecs i := rfl

theorem ecs_save_offset_mono (ecs : ecs_t) (i j : Nat) (h : i ≤ j) :
    ecs_save_offset ecs i ≤ ecs_save_offset ecs j := by
  induction j with
  | zero =>
    have : i = 0 := by omega
    subst this
    exact le_refl _
  | succ j ih =>
    by_cases hij : i = j + 1
    · subst hij; exact le_refl _
    · have := ih (by omega)
      rw [ecs_save_offset_succ]
      split_ifs <;> omega

theorem ecs_save_offset_ge (ecs : ecs_t) (i : Nat) : 8196 ≤ ecs_save_offset ecs i :=
  ecs_save_offset_mono ecs 0 i (Nat.zero_le i)

/-- The loop of `ecs_save_game` over the component types, when it returns. -/
theorem ecs_save_arrays_spec (ecs : ecs_t) (c4 : save_cursor_t) (h4 : c4.ctr = 8196) (n : Nat) :
    ∀ c, for_lt_opt n (fun i c =>
        if ecs.save_component i then
          save_component_array ecs.heap (ecs.components i) (ecs.component_type_sizes i) c
        else some c) c4 = some c →
      c.ctr = ecs_save_offset ecs n ∧
      (∀ x, x < 8196 → c.data x = c4.data x) ∧
      (∀ t, t < n → ecs.save_component t = true → ∀ j k, j < k_max_entities →
        k < ecs.component_type_sizes t →
        mem_byte ecs.heap (ecs.components t) (j * ecs.component_type_sizes t + k) =
          some (c.data (ecs_save_offset ecs t + j * ecs.component_type_sizes t + k))) := by
  refine for_lt_opt_inv (fun (m : Nat) (c : save_cursor_t) =>
    c.ctr = ecs_save_offset ecs m ∧
    (∀ x, x < 8196 → c.data x = c4.data x) ∧
    (∀ t, t < m → ecs.save_component t = true → ∀ j k, j < k_max_entities →
      k < ecs.component_type_sizes t →
      mem_byte ecs.heap (ecs.components t) (j * ecs.component_type_sizes t + k) =
        some (c.data (ecs_save_offset ecs t + j * ecs.component_type_sizes t + k))))
    _ c4 n ?_ ?_
  · exact ⟨h4, fun x _ => rfl, fun t ht => by omega⟩
  · intro m a b _ ⟨h1, h2, h3⟩ hb
    by_cases hs : ecs.save_component m = true
    · simp only [hs, if_true] at hb
      obtain ⟨g1, g2, g3⟩ := save_component_array_spec _ _ _ _ b hb
      have hge := ecs_save_offset_ge ecs m
      refine ⟨by rw [ecs_save_offset_succ, if_pos hs, g1, h1], ?_, ?_⟩
      · intro x hx
        rw [g3 x (by omega)]
        exact h2 x hx
      · intro t ht hst j k hj hk
        by_cases htm : t = m
        · subst htm
          rw [g2 j k hj hk, h1]
        · have hmono := ecs_save_offset_mono ecs (t + 1) m (by omega)
          rw [ecs_save_offset_succ, if_pos hst] at hmono
          have hle : (j + 1) * ecs.component_type_sizes t ≤
              k_max_entities * ecs.component_type_sizes t :=
            Nat.mul_le_mul_right _ (by omega)
          rw [Nat.succ_mul] at hle
          rw [g3 _ (by omega)]
          exact h3 t (by omega) hst j k hj hk
    · simp only [hs] at hb
      cases hb
      refine ⟨by rw [ecs_save_offset_succ, if_neg hs, h1], h2, ?_⟩
      intro t ht hst j k hj hk
      have : t ≠ m := by
        intro htm; subst htm; exact hs hst
      exact h3 t (by omega) hst j k hj hk

theorem ecs_save_arrays_exists (ecs : ecs_t) (c4 : save_cursor_t) (n : Nat)
    (hread : ∀ t, t < n → ecs.save_component t = true →
      ∀ off, off < k_max_entities * ecs.component_type_sizes t →
        (mem_byte ecs.heap (ecs.components t) off).isSome = true) :
    ∃ c, for_lt_opt n (fun i c =>
        if ecs.save_component i then
          save_component_array ecs.heap (ecs.components i) (ecs.component_type_sizes i) c
        else some c) c4 = some c := by
  obtain ⟨r, hr, _⟩ := for_lt_opt_exists (fun _ _ => True)
    (fun i c =>
        if ecs.save_component i then
          save_component_array ecs.heap (ecs.components i) (ecs.component_type_sizes i) c
        else some c) c4 n True.intro
    (fun t a ht _ => by
      by_cases hs : ecs.save_component t = true
      · obtain ⟨c2, hc2⟩ := save_component_array_exists ecs.heap (ecs.components t)
          (ecs.component_type_sizes t) a (hread t ht hs)
        exact ⟨c2, by simp only [hs, if_true, hc2], True.intro⟩
      · exact ⟨a, by simp [hs], True.intro⟩)
  exact ⟨r, hr⟩

theorem range_map_getD (size : Nat) (f : Nat → Nat) (x : Nat) (hx : x < size) :
    ((List.range size).map f).getD x 0 = f x := by
  rw [List.getD_eq_getElem?_getD, List.getElem?_map, List.getElem?_range hx]
  rfl

/-- What `ecs_save_game` hands to `fs_write` when it returns: the layout of the
file, and the table afterwards. -/
theorem ecs_save_game_spec (ecs ecs2 : ecs_t) (file : List Nat)
    (h : ecs_save_game ecs = some (ecs2, file)) :
    file.length = ecs_save_size ecs ∧
    ecs_save_offset ecs k_max_component_types ≤ file.length ∧
    (∀ j, j < 4 → file.getD j 0 = (int_to_bytes ecs.global_sequence).getD j 0) ∧
    (∀ i j, i < 512 → j < 4 →
      file.getD (4 + i * 4 + j) 0 = (int_to_bytes (ecs.sequences i)).getD j 0) ∧
    (∀ i j, i < 512 → j < 4 →
      file.getD (2052 + i * 4 + j) 0 = (int_to_bytes (ecs.entity_states i)).getD j 0) ∧
    (∀ i j, i < 512 → j < 8 →
      file.getD (4100 + i * 8 + j) 0 = (u64_to_bytes (ecs.component_masks i)).getD j 0) ∧
    (∀ t, t < k_max_component_types → ecs.save_component t = true → ∀ j k,
      j < k_max_entities → k < ecs.component_type_sizes t →
      mem_byte ecs.heap (ecs.components t) (j * ecs.component_type_sizes t + k) =
        some (file.getD (ecs_save_offset ecs t + j * ecs.component_type_sizes t + k) 0)) ∧
    ecs2 = { ecs with
      heap := heap_free (heap_alloc ecs.heap (ecs_save_size ecs) 8).1
        (heap_alloc ecs.heap (ecs_save_size ecs) 8).2 } := by
  unfold ecs_save_game at h
  simp only at h
  obtain ⟨e1, e2, e3, e4, e5, _⟩ := ecs_save_header_layout ecs
    { data := fun k => ecs.heap.junk k, ctr := 0 } rfl
  generalize hc4 : ecs_save_header ecs { data := fun k => ecs.heap.junk k, ctr := 0 } = c4
    at h e1 e2 e3 e4 e5
  cases hloop : for_lt_opt k_max_component_types (fun i c =>
        if ecs.save_component i then
          save_component_array ecs.heap (ecs.components i) (ecs.component_type_sizes i) c
        else some c) c4 with
  | none => rw [hloop] at h; cases h
  | some c =>
    rw [hloop] at h
    simp only [Option.some_bind] at h
    by_cases hfit : c.ctr ≤ ecs_save_size ecs
    · rw [if_pos hfit] at h
      simp only [Option.some.injEq, Prod.mk.injEq] at h
      obtain ⟨h1, h2⟩ := h
      obtain ⟨g1, g2, g3⟩ := ecs_save_arrays_spec ecs c4 e1 k_max_component_types c hloop
      have hlen : file.length = ecs_save_size ecs := by
        rw [← h2, List.length_map, List.length_range]
      have hge := ecs_save_offset_ge ecs k_max_component_types
      have hget : ∀ x, x < ecs_save_size ecs → file.getD x 0 = c.data x := by
        intro x hx
        rw [← h2]
        exact range_map_getD _ _ x hx
      refine ⟨hlen, by rw [hlen, ← g1]; exact hfit, ?_, ?_, ?_, ?_, ?_, h1.symm⟩
      · intro j hj
        rw [hget j (by omega), g2 j (by omega)]
        exact e2 j hj
      · intro i j hi hj
        rw [hget _ (by omega), g2 _ (by omega)]
        exact e3 i j hi hj
      · intro i j hi hj
        rw [hget _ (by omega), g2 _ (by omega)]
        exact e4 i j hi hj
      · intro i j hi hj
        rw [hget _ (by omega), g2 _ (by omega)]
        exact e5 i j hi hj
      · intro t ht hst j k hj hk
        have hmono := ecs_save_offset_mono ecs (t + 1) k_max_component_types (by omega)
        rw [ecs_save_offset_succ, if_pos hst] at hmono
        have hle : (j + 1) * ecs.component_type_sizes t ≤
            k_max_entities * ecs.component_type_sizes t :=
          Nat.mul_le_mul_right _ (by omega)
        rw [Nat.succ_mul] at hle
        rw [hget _ (by omega)]
        exact g3 t ht hst j k hj hk
    · rw [if_neg hfit] at h
      cases h

theorem ecs_save_size_loop (ecs : ecs_t) (n : Nat)
    (h : ecs_save_offset ecs n < 18446744073709551616) :
    for_lt n (fun i size =>
      if ecs.save_component i then
        wrap_size (size + wrap_size (k_max_entities * ecs.component_type_sizes i))
      else size) (4 + ((4 + sizeof_entity_state_t + 8) * k_max_entities)) =
    ecs_save_offset ecs n := by
  induction n with
  | zero => rfl
  | succ n ih =>
    have hmono := ecs_save_offset_mono ecs n (n + 1) (Nat.le_succ n)
    rw [for_lt_succ, ih (by omega)]
    rw [ecs_save_offset_succ] at h ⊢
    by_cases hs : ecs.save_component n = true
    · rw [if_pos hs] at h ⊢
      have hge := ecs_save_offset_ge ecs n
      simp only [hs, if_true]
      unfold wrap_size
      rw [Nat.mod_eq_of_lt (a := k_max_entities * ecs.component_type_sizes n) (by omega),
        Nat.mod_eq_of_lt h]
    · simp [hs]

/-- Without `size_t` overflow the first loop of `ecs_save_game` computes the
end offset of the last array. -/
theorem ecs_save_size_eq_offset (ecs : ecs_t)
    (h : ecs_save_offset ecs k_max_component_types < 18446744073709551616) :
    ecs_save_size ecs = ecs_save_offset ecs k_max_component_types := by
  unfold ecs_save_size
  exact ecs_save_size_loop ecs k_max_component_types h

/-- The save returns a file when every persisted array can be read and the
file size fits a `size_t`. -/
theorem ecs_save_game_exists (ecs : ecs_t)
    (hread : ∀ t, t < k_max_component_types → ecs.save_component t = true →
      ∀ off, off < k_max_entities * ecs.component_type_sizes t →
        (mem_byte ecs.heap (ecs.components t) off).isSome = true)
    (hsmall : ecs_save_offset ecs k_max_component_types < 18446744073709551616) :
    ∃ ecs2 file, ecs_save_game ecs = some (ecs2, file) := by
  obtain ⟨c, hc⟩ := ecs_save_arrays_exists ecs
    (ecs_save_header ecs { data := fun k => ecs.heap.junk k, ctr := 0 })
    k_max_component_types hread
  obtain ⟨e1, _⟩ := ecs_save_header_layout ecs
    { data := fun k => ecs.heap.junk k, ctr := 0 } rfl
  obtain ⟨g1, _⟩ := ecs_save_arrays_spec ecs _ e1 k_max_component_types c hc
  unfold ecs_save_game
  simp only
  rw [hc]
  simp only [Option.some_bind]
  rw [if_pos (by rw [g1, ecs_save_size_eq_offset ecs hsmall])]
  exact ⟨_, _, rfl⟩

/-! ## Reading the load buffer -/

theorem mem_read_buffer (heap : heap_t) (data : ptr_t) (bytes : List Nat)
    (hb : heap_block heap data.block = some bytes) (ctr w : Nat)
    (hfit : data.offset + ctr + w ≤ bytes.length) :
    mem_read heap (ptr_add data ctr) w = some ((bytes.drop (data.offset + ctr)).take w) := by
  unfold mem_read ptr_add buf_read
  simp only [hb, Option.some_bind]
  rw [if_pos hfit]

/-- The loop of `ecs_load_game` over `sequences[]`, on a live buffer that holds
the 512 records: it returns, and stores the decoded records. -/
theorem load_sequence_loop (heap : heap_t) (data : ptr_t) (bytes : List Nat)
    (hb : heap_block heap data.block = some bytes) (c1 : load_cursor_t) (m : Nat)
    (hfit : data.offset + c1.ctr + m * 4 ≤ bytes.length) :
    ∃ c2, for_lt_opt m (load_sequence heap data) c1 = some c2 ∧
      c2.ctr = c1.ctr + m * 4 ∧
      (∀ j, c2.ecs.sequences j =
        if j < m then int_of_bytes ((bytes.drop (data.offset + c1.ctr + j * 4)).take 4)
        else c1.ecs.sequences j) ∧
      c2.ecs = { c1.ecs with sequences := c2.ecs.sequences } := by
  refine for_lt_opt_exists (fun (k : Nat) (c : load_cursor_t) =>
    c.ctr = c1.ctr + k * 4 ∧
    (∀ j, c.ecs.sequences j =
      if j < k then int_of_bytes ((bytes.drop (data.offset + c1.ctr + j * 4)).take 4)
      else c1.ecs.sequences j) ∧
    c.ecs = { c1.ecs with sequences := c.ecs.sequences }) _ c1 m ?_ ?_
  · exact ⟨by omega, fun j => by simp, rfl⟩
  · intro k a hk ⟨h1, h2, h3⟩
    have hread := mem_read_buffer heap data bytes hb a.ctr 4 (by omega)
    refine ⟨_, by unfold load_sequence; rw [hread]; rfl, by show a.ctr + 4 = _; omega, ?_, ?_⟩
    · intro j
      show Function.update a.ecs.sequences k _ j = _
      by_cases hj : j = k
      · subst hj
        rw [Function.update_same, if_pos (Nat.lt_succ_self j), h1]
        congr 3; omega
      · rw [Function.update_noteq hj, h2]
        by_cases h : j < k
        · rw [if_pos h, if_pos (by omega)]
        · rw [if_neg h, if_neg (by omega)]
    · show ({ a.ecs with sequences := _ } : ecs_t) = _
      rw [h3]

/-- The loop of `ecs_load_game` over `entity_states[]`. -/
theorem load_entity_state_loop (heap : heap_t) (data : ptr_t) (bytes : List Nat)
    (hb : heap_block heap data.block = some bytes) (c1 : load_cursor_t) (m : Nat)
    (hfit : data.offset + c1.ctr + m * 4 ≤ bytes.length) :
    ∃ c2, for_lt_opt m (load_entity_state heap data) c1 = some c2 ∧
      c2.ctr = c1.ctr + m * 4 ∧
      (∀ j, c2.ecs.entity_states j =
        if j < m then int_of_bytes ((bytes.drop (data.offset + c1.ctr + j * 4)).take 4)
        else c1.ecs.entity_states j) ∧
      c2.ecs = { c1.ecs with entity_states := c2.ecs.entity_states } := by
  refine for_lt_opt_exists (fun (k : Nat) (c : load_cursor_t) =>
    c.ctr = c1.ctr + k * 4 ∧
    (∀ j, c.ecs.entity_states j =
      if j < k then int_of_bytes ((bytes.drop (data.offset + c1.ctr + j * 4)).take 4)
      else c1.ecs.entity_states j) ∧
    c.ecs = { c1.ecs with entity_states := c.ecs.entity_states }) _ c1 m ?_ ?_
  · exact ⟨by omega, fun j => by simp, rfl⟩
  · intro k a hk ⟨h1, h2, h3⟩
    have hread := mem_read_buffer heap data bytes hb a.ctr 4 (by omega)
    have hs : sizeof_entity_state_t = 4 := rfl
    refine ⟨_, by unfold load_entity_state; rw [hs, hread]; rfl, by show a.ctr + 4 = _; omega,
      ?_, ?_⟩
    · intro j
      show Function.update a.ecs.entity_states k _ j = _
      by_cases hj : j = k
      · subst hj
        rw [Function.update_same, if_pos (Nat.lt_succ_self j), h1]
        congr 3; omega
      · rw [Function.update_noteq hj, h2]
        by_cases h : j < k
        · rw [if_pos h, if_pos (by omega)]
        · rw [if_neg h, if_neg (by omega)]
    · show ({ a.ecs with entity_states := _ } : ecs_t) = _
      rw [h3]

/-- The loop of `ecs_load_game` over `component_masks[]`. -/
theorem load_component_mask_loop (heap : heap_t) (data : ptr_t) (bytes : List Nat)
    (hb : heap_block heap data.block = some bytes) (c1 : load_cursor_t) (m : Nat)
    (hfit : data.offset + c1.ctr + m * 8 ≤ bytes.length) :
    ∃ c2, for_lt_opt m (load_component_mask heap data) c1 = some c2 ∧
      c2.ctr = c1.ctr + m * 8 ∧
      (∀ j, c2.ecs.component_masks j =
        if j < m then u64_of_bytes ((bytes.drop (data.offset + c1.ctr + j * 8)).take 8)
        else c1.ecs.component_masks j) ∧
      c2.ecs = { c1.ecs with component_masks := c2.ecs.component_masks } := by
  refine for_lt_opt_exists (fun (k : Nat) (c : load_cursor_t) =>
    c.ctr = c1.ctr + k * 8 ∧
    (∀ j, c.ecs.component_masks j =
      if j < k then u64_of_bytes ((bytes.drop (data.offset + c1.ctr + j * 8)).take 8)
      else c1.ecs.component_masks j) ∧
    c.ecs = { c1.ecs with component_masks := c.ecs.component_masks }) _ c1 m ?_ ?_
  · exact ⟨by omega, fun j => by simp, rfl⟩
  · intro k a hk ⟨h1, h2, h3⟩
    have hread := mem_read_buffer heap data bytes hb a.ctr 8 (by omega)
    refine ⟨_, by unfold load_component_mask; rw [hread]; rfl, by show a.ctr + 8 = _; omega,
      ?_, ?_⟩
    · intro j
      show Function.update a.ecs.component_masks k _ j = _
      by_cases hj : j = k
      · subst hj
        rw [Function.update_same, if_pos (Nat.lt_succ_self j), h1]
        congr 3; omega
      · rw [Function.update_noteq hj, h2]
        by_cases h : j < k
        · rw [if_pos h, if_pos (by omega)]
        · rw [if_neg h, if_neg (by omega)]
    · show ({ a.ecs with component_masks := _ } : ecs_t) = _
      rw [h3]

/-- The last loop of `ecs_load_game`: the persisted types get pointers into the
buffer, at the offsets at which `ecs_save_game` puts their arrays. -/
theorem load_components_loop (data : ptr_t) (c4 : load_cursor_t) (h4 : c4.ctr = 8196) (n : Nat) :
    (for_lt n (load_components data) c4).ctr = ecs_save_offset c4.ecs n ∧
    (∀ i, (for_lt n (load_components data) c4).ecs.components i =
      if i < n ∧ c4.ecs.save_component i = true then
        some (ptr_add data (ecs_save_offset c4.ecs i))
      else c4.ecs.components i) ∧
    (for_lt n (load_components data) c4).ecs =
      { c4.ecs with components := (for_lt n (load_components data) c4).ecs.components } := by
  induction n with
  | zero => exact ⟨h4, fun i => by simp [for_lt], rfl⟩
  | succ n ih =>
    obtain ⟨ih1, ih2, ih3⟩ := ih
    rw [for_lt_succ]
    generalize for_lt n (load_components data) c4 = c at ih1 ih2 ih3
    have hsave : c.ecs.save_component = c4.ecs.save_component := by rw [ih3]
    have hsizes : c.ecs.component_type_sizes = c4.ecs.component_type_sizes := by rw [ih3]
    rw [ecs_save_offset_succ]
    by_cases hs : c4.ecs.save_component n = true
    · have hstep : load_components data n c =
          { ecs := { c.ecs with
              components := Function.update c.ecs.components n (some (ptr_add data c.ctr)) }
            ctr := c.ctr + c4.ecs.component_type_sizes n * k_max_entities } := by
        unfold load_components
        rw [hsave, hsizes, if_pos hs]
      rw [hstep, if_pos hs]
      refine ⟨by show c.ctr + _ = _; rw [ih1, Nat.mul_comm], ?_, ?_⟩
      · intro i
        show Function.update c.ecs.components n (some (ptr_add data c.ctr)) i = _
        by_cases hi : i = n
        · subst hi
          rw [Function.update_same, if_pos ⟨Nat.lt_succ_self i, hs⟩, ih1]
        · rw [Function.update_noteq hi, ih2]
          by_cases h : i < n ∧ c4.ecs.save_component i = true
          · rw [if_pos h, if_pos ⟨by omega, h.2⟩]
          · rw [if_neg h, if_neg (fun h2 => h ⟨by omega, h2.2⟩)]
      · show ({ c.ecs with components := _ } : ecs_t) = _
        rw [ih3]
    · have hstep : load_components data n c = c := by
        unfold load_components
        rw [hsave, if_neg hs]
      rw [hstep, if_neg hs]
      refine ⟨ih1, ?_, ih3⟩
      intro i
      rw [ih2]
      by_cases h : i < n ∧ c4.ecs.save_component i = true
      · rw [if_pos h, if_pos ⟨by omega, h.2⟩]
      · rw [if_neg h, if_neg (fun h2 => h ⟨by
          rcases Nat.lt_succ_iff_lt_or_eq.mp h2.1 with h3 | h3
          · exact h3
          · subst h3; exact absurd h2.2 hs, h2.2⟩)]

theorem ecs_save_offset_congr (e1 e2 : ecs_t) (i : Nat)
    (hs : e1.save_component = e2.save_component)
    (hz : e1.component_type_sizes = e2.component_type_sizes) :
    ecs_save_offset e1 i = ecs_save_offset e2 i := by
  unfold ecs_save_offset
  rw [hs, hz]

/-- The part of `ecs_load_game` after the result check, on a live buffer of at
least 8196 bytes: it returns, the table part is decoded from the buffer, every
persisted type points into the buffer, and the buffer has been freed. -/
theorem ecs_load_game_buffer_spec (ecs : ecs_t) (heap : heap_t) (data : ptr_t)
    (bytes : List Nat) (hb : heap_block heap data.block = some bytes)
    (h0 : data.offset = 0) (hlen : 8196 ≤ bytes.length) :
    ∃ ecs2, ecs_load_game_buffer ecs heap data = some ecs2 ∧
      ecs2.heap = heap_free heap data ∧
      ecs2.global_sequence = int_of_bytes (bytes.take 4) ∧
      (∀ j, ecs2.sequences j =
        if j < 512 then int_of_bytes ((bytes.drop (4 + j * 4)).take 4) else ecs.sequences j) ∧
      (∀ j, ecs2.entity_states j =
        if j < 512 then int_of_bytes ((bytes.drop (2052 + j * 4)).take 4)
        else ecs.entity_states j) ∧
      (∀ j, ecs2.component_masks j =
        if j < 512 then u64_of_bytes ((bytes.drop (4100 + j * 8)).take 8)
        else ecs.component_masks j) ∧
      (∀ i, ecs2.components i =
        if i < k_max_component_types ∧ ecs.save_component i = true then
          some (ptr_add data (ecs_save_offset ecs i))
        else ecs.components i) ∧
      ecs2.component_type_sizes = ecs.component_type_sizes ∧
      ecs2.component_type_names = ecs.component_type_names ∧
      ecs2.save_component = ecs.save_component := by
  have hgs : mem_read heap data 4 = some (bytes.take 4) := by
    have := mem_read_buffer heap data bytes hb 0 4 (by omega)
    rw [h0] at this
    simpa [ptr_add] using this
  obtain ⟨c2, hc2, a1, a2, a3⟩ := load_sequence_loop heap data bytes hb
    { ecs := { ecs with heap := heap, global_sequence := int_of_bytes (bytes.take 4) }, ctr := 4 }
    k_max_entities (by rw [h0]; show 0 + 4 + 512 * 4 ≤ _; omega)
  obtain ⟨c3, hc3, b1, b2, b3⟩ := load_entity_state_loop heap data bytes hb c2
    k_max_entities (by rw [h0, a1]; show 0 + (4 + 512 * 4) + 512 * 4 ≤ _; omega)
  obtain ⟨c4, hc4, d1, d2, d3⟩ := load_component_mask_loop heap data bytes hb c3
    k_max_entities (by rw [h0, b1, a1]; show 0 + (4 + 512 * 4 + 512 * 4) + 512 * 8 ≤ _; omega)
  have hctr4 : c4.ctr = 8196 := by
    rw [d1, b1, a1]
    show 4 + 512 * 4 + 512 * 4 + 512 * 8 = 8196
    norm_num
  obtain ⟨_, v2, v3⟩ := load_components_loop data c4 hctr4 k_max_component_types
  have hbuf : ecs_load_game_buffer ecs heap data =
      some { (for_lt k_max_component_types (load_components data) c4).ecs with
        heap := heap_free heap data } := by
    unfold ecs_load_game_buffer
    rw [hgs]
    simp only [Option.some_bind]
    rw [hc2]
    simp only [Option.some_bind]
    rw [hc3]
    simp only [Option.some_bind]
    rw [hc4]
    rfl
  generalize for_lt k_max_component_types (load_components data) c4 = c5 at v2 v3 hbuf
  have hreg_s : c4.ecs.save_component = ecs.save_component := by rw [d3, b3, a3]
  have hreg_z : c4.ecs.component_type_sizes = ecs.component_type_sizes := by rw [d3, b3, a3]
  have hk : k_max_entities = 512 := rfl
  refine ⟨{ c5.ecs with heap := heap_free heap data }, hbuf, rfl, ?_, ?_, ?_, ?_, ?_, ?_, ?_, ?_⟩
  · show c5.ecs.global_sequence = _
    rw [v3, d3, b3, a3]
  · intro j
    show c5.ecs.sequences j = _
    rw [v3, d3, b3]
    show c2.ecs.sequences j = _
    rw [a2, h0, hk]
    by_cases hj : j < 512
    · rw [if_pos hj, if_pos hj, show 0 + 4 + j * 4 = 4 + j * 4 by omega]
    · rw [if_neg hj, if_neg hj]
  · intro j
    show c5.ecs.entity_states j = _
    rw [v3, d3]
    show c3.ecs.entity_states j = _
    rw [b2, h0, a1, hk]
    by_cases hj : j < 512
    · rw [if_pos hj, if_pos hj, show 0 + (4 + 512 * 4) + j * 4 = 2052 + j * 4 by omega]
    · rw [if_neg hj, if_neg hj, a3]
  · intro j
    show c5.ecs.component_masks j = _
    rw [v3]
    show c4.ecs.component_masks j = _
    rw [d2, h0, b1, a1, hk]
    by_cases hj : j < 512
    · rw [if_pos hj, if_pos hj, show 0 + (4 + 512 * 4 + 512 * 4) + j * 8 = 4100 + j * 8 by omega]
    · rw [if_neg hj, if_neg hj, b3, a3]
  · intro i
    show c5.ecs.components i = _
    rw [v2, hreg_s, ecs_save_offset_congr c4.ecs ecs i hreg_s hreg_z]
    split_ifs
    · rfl
    · rw [d3, b3, a3]
  · show c5.ecs.component_type_sizes = _
    rw [v3]
    exact hreg_z
  · show c5.ecs.component_type_names = _
    rw [v3, d3, b3, a3]
  · show c5.ecs.save_component = _
    rw [v3]
    exact hreg_s

/-! ## Save followed by load -/

/-- A load whose read succeeds with at least 8196 bytes: the table part is
decoded from the bytes, every persisted type points into the read buffer, and
that buffer is freed before `ecs_load_game` returns. -/
theorem ecs_load_game_ok (ecs : ecs_t) (bytes : List Nat) (hlen : 8196 ≤ bytes.length) :
    ∃ ecs2, ecs_load_game ecs (.ok bytes) = some ecs2 ∧
      ecs2.global_sequence = int_of_bytes (bytes.take 4) ∧
      (∀ j, ecs2.sequences j =
        if j < 512 then int_of_bytes ((bytes.drop (4 + j * 4)).take 4) else ecs.sequences j) ∧
      (∀ j, ecs2.entity_states j =
        if j < 512 then int_of_bytes ((bytes.drop (2052 + j * 4)).take 4)
        else ecs.entity_states j) ∧
      (∀ j, ecs2.component_masks j =
        if j < 512 then u64_of_bytes ((bytes.drop (4100 + j * 8)).take 8)
        else ecs.component_masks j) ∧
      (∀ i, ecs2.components i =
        if i < k_max_component_types ∧ ecs.save_component i = true then
          some { block := ecs.heap.blocks.length, offset := ecs_save_offset ecs i }
        else ecs.components i) ∧
      ecs2.component_type_sizes = ecs.component_type_sizes ∧
      ecs2.component_type_names = ecs.component_type_names ∧
      ecs2.save_component = ecs.save_component ∧
      (∀ c, heap_block ecs2.heap c =
        if c = ecs.heap.blocks.length then none else heap_block ecs.heap c) := by
  obtain ⟨hw, _, _, hblocks⟩ := fs_read_ok_heap ecs.heap bytes
  have hb : heap_block (fs_read ecs.heap (.ok bytes)).1
      ({ block := ecs.heap.blocks.length, offset := 0 } : ptr_t).block = some bytes := by
    rw [hblocks]; simp
  obtain ⟨ecs2, h1, h2, h3, h4, h5, h6, h7, h8, h9, h10⟩ :=
    ecs_load_game_buffer_spec ecs (fs_read ecs.heap (.ok bytes)).1
      { block := ecs.heap.blocks.length, offset := 0 } bytes hb rfl hlen
  refine ⟨ecs2, ?_, h3, h4, h5, h6, ?_, h8, h9, h10, ?_⟩
  · unfold ecs_load_game fs_work_get_result fs_work_get_buffer
    rw [hw]
    simp only [ne_eq, not_true_eq_false, if_false, Option.some_bind]
    exact h1
  · intro i
    rw [h7]
    split_ifs
    · simp [ptr_add]
    · rfl
  · intro c
    rw [h2, heap_block_free, hblocks]
    by_cases hc : c = ecs.heap.blocks.length
    · subst hc; simp
    · rw [if_neg (fun h => hc h.symm), if_neg hc, if_neg hc]

theorem slice_eq_of_getD (file bs : List Nat) (off : Nat)
    (hfit : off + bs.length ≤ file.length)
    (h : ∀ j, j < bs.length → file.getD (off + j) 0 = bs.getD j 0) :
    (file.drop off).take bs.length = bs := by
  apply List.ext_getElem
  · rw [List.length_take, List.length_drop]
    omega
  · intro j h1 h2
    rw [List.getElem_take, List.getElem_drop]
    have := h j h2
    rw [List.getD_eq_getElem _ _ (by omega), List.getD_eq_getElem _ _ h2] at this
    exact this

/-- Save followed by load, on the code: the table part of `T` comes back, the
registry of the receiving table is kept, and every persisted type of the
receiving table is left pointing into the read buffer, which is no longer live. -/
theorem ecs_save_load_table (T T1 ecs : ecs_t) (file : List Nat)
    (hrep : ecs_representable T) (hsave : ecs_save_game T = some (T1, file)) :
    ∃ ecs2, ecs_load_game ecs (.ok file) = some ecs2 ∧
      ecs2.global_sequence = T.global_sequence ∧
      (∀ i, i < 512 → ecs2.sequences i = T.sequences i) ∧
      (∀ i, i < 512 → ecs2.entity_states i = T.entity_states i) ∧
      (∀ i, i < 512 → ecs2.component_masks i = T.component_masks i) ∧
      ecs2.component_type_sizes = ecs.component_type_sizes ∧
      ecs2.component_type_names = ecs.component_type_names ∧
      ecs2.save_component = ecs.save_component ∧
      (∀ i, i < k_max_component_types → ecs.save_component i = true →
        ecs2.components i =
          some { block := ecs.heap.blocks.length, offset := ecs_save_offset ecs i }) ∧
      (∀ i, ecs.save_component i = false → ecs2.components i = ecs.components i) ∧
      heap_block ecs2.heap ecs.heap.blocks.length = none ∧
      (∀ c, c ≠ ecs.heap.blocks.length → heap_block ecs2.heap c = heap_block ecs.heap c) := by
  obtain ⟨s1, s2, s3, s4, s5, s6, _, _⟩ := ecs_save_game_spec T T1 file hsave
  have hge := ecs_save_offset_ge T k_max_component_types
  have hlen : 8196 ≤ file.length := by omega
  obtain ⟨ecs2, l1, l2, l3, l4, l5, l6, l7, l8, l9, l10⟩ := ecs_load_game_ok ecs file hlen
  obtain ⟨⟨r1, r2⟩, r3⟩ := hrep
  refine ⟨ecs2, l1, ?_, ?_, ?_, ?_, l7, l8, l9, ?_, ?_, ?_, ?_⟩
  · rw [l2]
    have := slice_eq_of_getD file (int_to_bytes T.global_sequence) 0
      (by rw [int_to_bytes_length]; omega)
      (fun j hj => by
        rw [int_to_bytes_length] at hj
        rw [Nat.zero_add]
        exact s3 j hj)
    rw [int_to_bytes_length, List.drop_zero] at this
    rw [this, int_of_bytes_to_bytes _ r1 r2]
  · intro i hi
    rw [l3, if_pos hi]
    have := slice_eq_of_getD file (int_to_bytes (T.sequences i)) (4 + i * 4)
      (by rw [int_to_bytes_length]; omega)
      (fun j hj => by
        rw [int_to_bytes_length] at hj
        exact s4 i j hi hj)
    rw [int_to_bytes_length] at this
    obtain ⟨⟨q1, q2⟩, _, _⟩ := r3 i hi
    rw [this, int_of_bytes_to_bytes _ q1 q2]
  · intro i hi
    rw [l4, if_pos hi]
    have := slice_eq_of_getD file (int_to_bytes (T.entity_states i)) (2052 + i * 4)
      (by rw [int_to_bytes_length]; omega)
      (fun j hj => by
        rw [int_to_bytes_length] at hj
        exact s5 i j hi hj)
    rw [int_to_bytes_length] at this
    obtain ⟨_, ⟨q1, q2⟩, _⟩ := r3 i hi
    rw [this, int_of_bytes_to_bytes _ q1 q2]
  · intro i hi
    rw [l5, if_pos hi]
    have := slice_eq_of_getD file (u64_to_bytes (T.component_masks i)) (4100 + i * 8)
      (by rw [u64_to_bytes_length]; omega)
      (fun j hj => by
        rw [u64_to_bytes_length] at hj
        exact s6 i j hi hj)
    rw [u64_to_bytes_length] at this
    obtain ⟨_, _, q⟩ := r3 i hi
    rw [this, u64_of_bytes_to_bytes _ q]
  · intro i hi hs
    rw [l6, if_pos ⟨hi, hs⟩]
  · intro i hs
    rw [l6, if_neg (fun h => by rw [hs] at h; exact absurd h.2 (by decide))]
  · rw [l10, if_pos rfl]
  · intro c hc
    rw [l10, if_neg hc]

/-! ## Memory of a registered type -/

/-- The heap after a successful registration: one more block, zero-filled, at
which the new type points; the blocks that existed are untouched. -/
theorem ecs_register_heap (ecs : ecs_t) (name : String) (size alignment : Nat) (save : Bool)
    (i : Nat)
    (h : find_from (fun i => (ecs.components i).isNone) k_max_component_types 0 = some i) :
    (ecs_register_component_type ecs name size alignment save).1.components i =
      some { block := ecs.heap.blocks.length, offset := 0 } ∧
    (ecs_register_component_type ecs name size alignment save).1.heap.blocks.length =
      ecs.heap.blocks.length + 1 ∧
    heap_block (ecs_register_component_type ecs name size alignment save).1.heap
        ecs.heap.blocks.length =
      some (List.replicate (wrap_size (aligned_size size alignment * k_max_entities)) 0) ∧
    (∀ c, c < ecs.heap.blocks.length →
      heap_block (ecs_register_component_type ecs name size alignment save).1.heap c =
        heap_block ecs.heap c) := by
  rw [ecs_register_of_found ecs name size alignment save i h]
  generalize wrap_size (aligned_size size alignment * k_max_entities) = n
  have hnew := heap_block_alloc_new ecs.heap n alignment
  have hp : (heap_alloc ecs.heap n alignment).2 = { block := ecs.heap.blocks.length, offset := 0 } :=
    rfl
  have hlen : (heap_alloc ecs.heap n alignment).1.blocks.length = ecs.heap.blocks.length + 1 := by
    simp [heap_alloc]
  have hw := fun c => mem_write_block (heap_alloc ecs.heap n alignment).1
    (heap_alloc ecs.heap n alignment).2 (List.replicate n 0) _ hnew (by simp [hp]) c
  obtain ⟨heap2, hw1, _, hw3, _⟩ := hw 0
  have hms : memset (heap_alloc ecs.heap n alignment).1 (heap_alloc ecs.heap n alignment).2 0 n
      = heap2 := by
    unfold memset
    rw [hw1]
    rfl
  refine ⟨by simp [hp], ?_, ?_, ?_⟩
  · show (memset _ _ 0 n).blocks.length = _
    rw [hms, hw3, hlen]
  · show heap_block (memset _ _ 0 n) _ = _
    rw [hms]
    obtain ⟨heap3, hw1b, _, _, hw4⟩ := hw ecs.heap.blocks.length
    rw [hw1] at hw1b
    cases hw1b
    rw [hw4, hp, if_pos rfl]
    show some (List.take 0 _ ++ List.replicate n 0 ++
      List.drop (0 + (List.replicate n 0).length) ((List.range n).map ecs.heap.junk)) = _
    rw [List.take_zero, List.nil_append, List.length_replicate, Nat.zero_add,
      List.drop_eq_nil_of_le (by rw [List.length_map, List.length_range]), List.append_nil]
  · intro c hc
    show heap_block (memset _ _ 0 n) _ = _
    rw [hms]
    obtain ⟨heap3, hw1b, _, _, hw4⟩ := hw c
    rw [hw1] at hw1b
    cases hw1b
    rw [hw4, hp, if_neg (by show ecs.heap.blocks.length ≠ c; omega)]
    exact heap_block_alloc_old ecs.heap n alignment c hc

theorem mem_byte_of_block (heap : heap_t) (p : ptr_t) (bs : List Nat) (k : Nat)
    (hb : heap_block heap p.block = some bs) (hk : p.offset + k < bs.length) :
    mem_byte heap (some p) k = some (bs.getD (p.offset + k) 0) := by
  unfold mem_byte
  simp only [Option.some_bind, hb]
  rw [List.get?_eq_getElem?, List.getElem?_eq_getElem hk, List.getD_eq_getElem _ _ hk]

theorem mem_read_freed (heap : heap_t) (p : ptr_t) (n : Nat)
    (hb : heap_block heap p.block = none) : mem_read heap p n = none := by
  unfold mem_read
  rw [hb]
  rfl

theorem mem_read_whole_block (heap : heap_t) (b : Nat) (bs : List Nat)
    (hb : heap_block heap b = some bs) :
    mem_read heap { block := b, offset := 0 } bs.length = some bs := by
  unfold mem_read buf_read
  simp only [hb, Option.some_bind]
  rw [if_pos (by omega), List.drop_zero, List.take_length]

theorem ecs_save_game_heap_length (ecs ecs2 : ecs_t) (file : List Nat)
    (h : ecs_save_game ecs = some (ecs2, file)) :
    ecs2.heap.blocks.length = ecs.heap.blocks.length + 1 := by
  obtain ⟨_, _, _, _, _, _, _, h8⟩ := ecs_save_game_spec ecs ecs2 file h
  rw [h8]
  simp [heap_free, heap_alloc]

/-! ## The save/load scenario -/

/-- The table with the registrations A and B: its registry, its empty slots and
the two zero-filled arrays. -/
theorem ecs_with_types_A_B_spec (heap : heap_t) :
    (ecs_with_types_A_B heap).global_sequence = 1 ∧
    (ecs_with_types_A_B heap).sequences = (fun _ => 0) ∧
    (ecs_with_types_A_B heap).entity_states = (fun _ => 0) ∧
    (ecs_with_types_A_B heap).component_masks = (fun _ => 0) ∧
    (ecs_with_types_A_B heap).save_component =
      Function.update (Function.update (fun _ => false) 0 true) 1 false ∧
    (ecs_with_types_A_B heap).component_type_sizes =
      Function.update (Function.update (fun _ => 0) 0 4) 1 8 ∧
    (ecs_with_types_A_B heap).components 0 = some { block := heap.blocks.length, offset := 0 } ∧
    (ecs_with_types_A_B heap).components 1 =
      some { block := heap.blocks.length + 1, offset := 0 } ∧
    (ecs_with_types_A_B heap).heap.blocks.length = heap.blocks.length + 2 ∧
    heap_block (ecs_with_types_A_B heap).heap heap.blocks.length =
      some (List.replicate (512 * 4) 0) ∧
    (∀ c, c < heap.blocks.length →
      heap_block (ecs_with_types_A_B heap).heap c = heap_block heap c) := by
  have hf1 : find_from (fun i => ((ecs_create heap).components i).isNone)
      k_max_component_types 0 = some 0 := rfl
  obtain ⟨a1, a2, a3, a4⟩ := ecs_register_heap (ecs_create heap) "A" 4 4 true 0 hf1
  have hf2 : find_from (fun i =>
      ((ecs_register_component_type (ecs_create heap) "A" 4 4 true).1.components i).isNone)
      k_max_component_types 0 = some 1 := rfl
  obtain ⟨b1, b2, b3, b4⟩ := ecs_register_heap
    (ecs_register_component_type (ecs_create heap) "A" 4 4 true).1 "B" 8 8 false 1 hf2
  have hT : (ecs_register_component_type
      (ecs_register_component_type (ecs_create heap) "A" 4 4 true).1 "B" 8 8 false).1 =
      ecs_with_types_A_B heap := rfl
  rw [hT] at b1 b2 b3 b4
  have hlen0 : (ecs_create heap).heap.blocks.length = heap.blocks.length := rfl
  rw [hlen0] at a1 a2 a3 a4
  rw [a2] at b1 b2 b3 b4
  have hsz : wrap_size (aligned_size 4 4 * k_max_entities) = 512 * 4 := by decide
  rw [hsz] at a3
  refine ⟨rfl, rfl, rfl, rfl, rfl, rfl, ?_, b1, b2, ?_, ?_⟩
  · have : (ecs_with_types_A_B heap).components 0 =
        (ecs_register_component_type (ecs_create heap) "A" 4 4 true).1.components 0 := rfl
    rw [this, a1]
  · rw [b4 _ (by omega), a3]
  · intro c hc
    rw [b4 c (by omega), a4 c hc]
    rfl

/-! # The claims -/

/-! ## C1: save followed by load -/

/-- C1, the code at a failing input: the table with one persisted type "A"
(4 bytes) holds a live, zero-filled array of 512 * 4 bytes for it. Saving it and
loading the file back into the saved table (same sizes and persistence flags)
returns the counter, generations, states and masks of the table, but the array
of the persisted type is now the pointer `buffer + 8196` into the read buffer,
which `ecs_load_game` has freed before returning: its bytes can no longer be
read. -/
theorem ecs_save_load_frees_persisted_array :
    ecs_with_persisted_type.save_component 0 = true ∧
    ecs_with_persisted_type.components 0 = some { block := 0, offset := 0 } ∧
    mem_read ecs_with_persisted_type.heap { block := 0, offset := 0 } (512 * 4) =
      some (List.replicate (512 * 4) 0) ∧
    ∃ T1 file ecs2,
      ecs_save_game ecs_with_persisted_type = some (T1, file) ∧
      T1.component_type_sizes = ecs_with_persisted_type.component_type_sizes ∧
      T1.save_component = ecs_with_persisted_type.save_component ∧
      ecs_load_game T1 (.ok file) = some ecs2 ∧
      ecs2.global_sequence = ecs_with_persisted_type.global_sequence ∧
      (∀ i, i < 512 → ecs2.sequences i = ecs_with_persisted_type.sequences i) ∧
      (∀ i, i < 512 → ecs2.entity_states i = ecs_with_persisted_type.entity_states i) ∧
      (∀ i, i < 512 → ecs2.component_masks i = ecs_with_persisted_type.component_masks i) ∧
      ecs2.save_component 0 = true ∧
      ecs2.component_type_sizes 0 = 4 ∧
      ecs2.components 0 = some { block := 2, offset := 8196 } ∧
      heap_block ecs2.heap 2 = none ∧
      mem_read ecs2.heap { block := 2, offset := 8196 } (512 * 4) = none := by
  have hfound : find_from (fun i => ((ecs_create heap_empty).components i).isNone)
      k_max_component_types 0 = some 0 := by decide
  obtain ⟨r1, r2, r3, _⟩ := ecs_register_heap (ecs_create heap_empty) "A" 4 4 true 0 hfound
  have hT : (ecs_register_component_type (ecs_create heap_empty) "A" 4 4 true).1 =
      ecs_with_persisted_type := rfl
  rw [hT] at r1 r2 r3
  have hlen0 : (ecs_create heap_empty).heap.blocks.length = 0 := rfl
  rw [hlen0] at r1 r2 r3
  have hsz : wrap_size (aligned_size 4 4 * k_max_entities) = 512 * 4 := by decide
  rw [hsz] at r3
  have hsave0 : ecs_with_persisted_type.save_component = Function.update (fun _ => false) 0 true :=
    rfl
  have hsize0 : ecs_with_persisted_type.component_type_sizes 0 = 4 := by decide
  have hread : ∀ t, t < k_max_component_types → ecs_with_persisted_type.save_component t = true →
      ∀ off, off < k_max_entities * ecs_with_persisted_type.component_type_sizes t →
        (mem_byte ecs_with_persisted_type.heap (ecs_with_persisted_type.components t) off).isSome
          = true := by
    intro t _ hs off hoff
    have ht : t = 0 := by
      by_contra hne
      rw [hsave0, Function.update_noteq hne] at hs
      cases hs
    subst ht
    have hk512 : k_max_entities = 512 := rfl
    rw [hsize0, hk512] at hoff
    have hk : ({ block := 0, offset := 0 } : ptr_t).offset + off <
        (List.replicate (512 * 4) 0).length := by
      rw [List.length_replicate]
      dsimp only
      omega
    rw [r1, mem_byte_of_block ecs_with_persisted_type.heap { block := 0, offset := 0 }
      (List.replicate (512 * 4) 0) off r3 hk]
    rfl
  have hrep : ecs_representable ecs_with_persisted_type := by
    have h1 : ecs_with_persisted_type.global_sequence = 1 := rfl
    have h2 : ecs_with_persisted_type.sequences = fun _ => 0 := rfl
    have h3 : ecs_with_persisted_type.entity_states = fun _ => 0 := rfl
    have h4 : ecs_with_persisted_type.component_masks = fun _ => 0 := rfl
    unfold ecs_representable
    rw [h1, h2, h3, h4]
    refine ⟨by decide, fun i _ => ?_⟩
    dsimp only
    decide
  obtain ⟨T1, file, hsave⟩ := ecs_save_game_exists ecs_with_persisted_type hread (by decide)
  have hT1 := (ecs_save_game_spec _ T1 file hsave).2.2.2.2.2.2.2
  have hlen1 := ecs_save_game_heap_length _ T1 file hsave
  rw [r2] at hlen1
  obtain ⟨ecs2, l1, l2, l3, l4, l5, l6, _, l8, l9, _, l11, _⟩ :=
    ecs_save_load_table ecs_with_persisted_type T1 T1 file hrep hsave
  have hs1 : T1.save_component 0 = true := by rw [hT1]; rfl
  have hc := l9 0 (by decide) hs1
  rw [hlen1] at hc l11
  refine ⟨rfl, r1, ?_, T1, file, ecs2, hsave, by rw [hT1], by rw [hT1], l1, l2, l3, l4, l5,
    by rw [l8]; exact hs1,
    by rw [l6, hT1]; exact hsize0, hc, l11, mem_read_freed _ _ _ l11⟩
  have := mem_read_whole_block ecs_with_persisted_type.heap 0 _ r3
  rw [List.length_replicate] at this
  exact this

/-! ## C2: stale handles stay invalid -/

/-- C2: let `ecs_entity_add` return the ref `r`; after any in-range calls,
let `r` still be valid (under flag `b`) when `ecs_entity_remove(r, b)` and then
`ecs_update` are called. Then, as long as the `int` counter has not overflowed,
`ecs_is_entity_ref_valid(r, b2)` is false for both values of `b2`, right after
that commit and after every further sequence of in-range `ecs_entity_add`,
`ecs_entity_remove` and `ecs_update` calls, slot reuse included. -/
theorem ecs_stale_ref_stays_invalid (ecs : ecs_t) (m : Nat) (calls1 calls2 : List ecs_call_t)
    (b b2 : Bool)
    (hadd : 0 ≤ (ecs_entity_add ecs m).2.entity)
    (_hin1 : ∀ c, c ∈ calls1 → ecs_call_in_range c)
    (_hin2 : ∀ c, c ∈ calls2 → ecs_call_in_range c)
    (hvalid : ecs_is_entity_ref_valid (ecs_run (ecs_entity_add ecs m).1 calls1).1
      (ecs_entity_add ecs m).2 b = true)
    (hlo : -2147483648 ≤ ecs.global_sequence)
    (hno : ecs.global_sequence + 1 +
        ((ecs_run (ecs_entity_add ecs m).1 calls1).2.length : Int) +
        ((ecs_run (ecs_update (ecs_entity_remove (ecs_run (ecs_entity_add ecs m).1 calls1).1
          (ecs_entity_add ecs m).2 b)) calls2).2.length : Int) ≤ 2147483647) :
    ecs_is_entity_ref_valid
      (ecs_update (ecs_entity_remove (ecs_run (ecs_entity_add ecs m).1 calls1).1
        (ecs_entity_add ecs m).2 b)) (ecs_entity_add ecs m).2 b2 = false ∧
    ecs_is_entity_ref_valid
      (ecs_run (ecs_update (ecs_entity_remove (ecs_run (ecs_entity_add ecs m).1 calls1).1
        (ecs_entity_add ecs m).2 b)) calls2).1 (ecs_entity_add ecs m).2 b2 = false := by
  rcases ecs_entity_add_cases ecs m with hfull | ⟨i, hi, _, hfound⟩
  · rw [hfull] at hadd
    exact absurd hadd (show ¬ (0 : Int) ≤ -1 by decide)
  · rw [hfound] at hvalid hno ⊢
    simp only at hvalid hno ⊢
    generalize hs1 : ({ ecs with
        entity_states := Function.update ecs.entity_states i k_entity_pending_add
        sequences := Function.update ecs.sequences i ecs.global_sequence
        global_sequence := wrap_int (ecs.global_sequence + 1)
        component_masks := Function.update ecs.component_masks i m } : ecs_t) = s1
      at hvalid hno ⊢
    have hg1 : s1.global_sequence = ecs.global_sequence + 1 := by
      rw [← hs1]
      exact wrap_int_of_range _ (by omega) (by omega)
    generalize hr : ({ entity := (i : Int), sequence := ecs.global_sequence } : ecs_entity_ref_t)
      = r at hvalid hno ⊢
    have hre : r.entity.toNat = i := by rw [← hr]; simp
    have hrs : r.sequence = ecs.global_sequence := by rw [← hr]
    have hg2 := ecs_run_counter calls1 s1 (by omega) (by omega)
    generalize hs2 : (ecs_run s1 calls1).1 = s2 at hvalid hno hg2 ⊢
    have hv := (ecs_is_entity_ref_valid_iff s2 r b).mp hvalid
    have hstale : ecs_ref_stale (ecs_update (ecs_entity_remove s2 r b)) r := by
      obtain ⟨_, g2, g3, _⟩ := ecs_update_rest (ecs_entity_remove s2 r b)
      obtain ⟨k1, k2, _⟩ := ecs_entity_remove_rest s2 r b
      refine ⟨by rw [g2, k1, hg2, hg1, hrs]; omega, Or.inr ?_⟩
      rw [ecs_update_states, hre, if_pos hi]
      have : (ecs_entity_remove s2 r b).entity_states i = k_entity_pending_remove := by
        unfold ecs_entity_remove
        rw [if_pos hvalid, hre]
        simp
      rw [this]
      decide
    have hg3 : (ecs_update (ecs_entity_remove s2 r b)).global_sequence =
        ecs.global_sequence + 1 + ((ecs_run s1 calls1).2.length : Int) := by
      rw [(ecs_update_rest _).2.1, (ecs_entity_remove_rest s2 r b).1, hg2, hg1]
    exact ⟨ecs_ref_stale_not_valid _ r b2 hstale,
      ecs_ref_stale_not_valid _ r b2
        (ecs_ref_stale_run r calls2 _ hstale (by rw [hg3]; omega) (by rw [hg3]; omega))⟩

/-- C2, instance: on a fresh table, add (slot 0, generation 1), remove it while
pending, commit, then add again (slot 0 is reused): the first ref is invalid. -/
theorem ecs_stale_ref_stays_invalid_witness :
    ecs_is_entity_ref_valid (ecs_run (ecs_entity_add (ecs_create heap_empty) 1).1 []).1
      (ecs_entity_add (ecs_create heap_empty) 1).2 true = true ∧
    ecs_is_entity_ref_valid
      (ecs_run (ecs_update (ecs_entity_remove
        (ecs_run (ecs_entity_add (ecs_create heap_empty) 1).1 []).1
        (ecs_entity_add (ecs_create heap_empty) 1).2 true)) [.add 2]).1
      (ecs_entity_add (ecs_create heap_empty) 1).2 true = false := by
  have hvalid : ecs_is_entity_ref_valid (ecs_run (ecs_entity_add (ecs_create heap_empty) 1).1 []).1
      (ecs_entity_add (ecs_create heap_empty) 1).2 true = true := by decide
  refine ⟨hvalid, (ecs_stale_ref_stays_invalid (ecs_create heap_empty) 1 [] [.add 2] true true
    (by decide) (fun c hc => by simp at hc)
    (fun c hc => by
      simp only [List.mem_singleton] at hc
      subst hc
      exact True.intro)
    hvalid (by decide) ?_).2⟩
  have h2 := ecs_run_refs_length_le [.add 2]
    (ecs_update (ecs_entity_remove (ecs_run (ecs_entity_add (ecs_create heap_empty) 1).1 []).1
      (ecs_entity_add (ecs_create heap_empty) 1).2 true))
  have h1 : (ecs_run (ecs_entity_add (ecs_create heap_empty) 1).1 []).2.length = 0 := rfl
  have h0 : (ecs_create heap_empty).global_sequence = 1 := rfl
  rw [h1, h0]
  simp only [List.length_singleton] at h2
  omega

/-! ## C3: generations are never reused -/

/-- C3: over every sequence of in-range `ecs_entity_add`, `ecs_entity_remove`
and `ecs_update` calls on a freshly created table with fewer than 2^31 - 1
successful adds, the generations returned by the successful adds are strictly
increasing in call order, hence pairwise distinct, whatever slots they name. -/
theorem ecs_generations_strictly_increase (heap : heap_t) (calls : List ecs_call_t)
    (_hin : ∀ c, c ∈ calls → ecs_call_in_range c)
    (hadds : (ecs_run (ecs_create heap) calls).2.length < 2147483647) :
    ((ecs_run (ecs_create heap) calls).2.map (fun r => r.sequence)).Pairwise (fun a b => a < b) ∧
    ((ecs_run (ecs_create heap) calls).2.map (fun r => r.sequence)).Nodup := by
  have h := (ecs_run_sequences calls (ecs_create heap)
    (by show (-2147483648 : Int) ≤ 1; decide)
    (by show (1 : Int) + _ ≤ _; omega)).2
  exact ⟨h, h.imp (fun hab => ne_of_lt hab)⟩

/-- C3, instance: add, remove, commit, add again; the two adds get different,
increasing generations. -/
theorem ecs_generations_strictly_increase_witness :
    (ecs_run (ecs_create heap_empty)
        [.add 1, .remove { entity := 0, sequence := 1 } true, .update, .add 2]).2.length
      < 2147483647 ∧
    ((ecs_run (ecs_create heap_empty)
        [.add 1, .remove { entity := 0, sequence := 1 } true, .update, .add 2]).2.map
      (fun r => r.sequence)).Pairwise (fun a b => a < b) := by
  have hlen : (ecs_run (ecs_create heap_empty)
      [.add 1, .remove { entity := 0, sequence := 1 } true, .update, .add 2]).2.length
      < 2147483647 := by
    have := ecs_run_refs_length_le
      [.add 1, .remove { entity := 0, sequence := 1 } true, .update, .add 2]
      (ecs_create heap_empty)
    simp only [List.length_cons, List.length_nil] at this
    omega
  refine ⟨hlen, (ecs_generations_strictly_increase heap_empty
    [.add 1, .remove { entity := 0, sequence := 1 } true, .update, .add 2] ?_ hlen).1⟩
  intro c hc
  simp only [List.mem_cons, List.mem_singleton, List.not_mem_nil, or_false] at hc
  rcases hc with h | h | h | h <;> subst h <;> simp [ecs_call_in_range, k_max_entities]

/-! ## C4: filling a fresh table -/

theorem ecs_entity_add_many_fresh (heap : heap_t) (masks : Nat → Nat) (k : Nat)
    (hk : k ≤ k_max_entities) :
    (∀ j, (ecs_entity_add_many (ecs_create heap) masks k).entity_states j =
      if j < k then k_entity_pending_add else k_entity_unused) ∧
    (ecs_entity_add_many (ecs_create heap) masks k).global_sequence = (k : Int) + 1 ∧
    find_from (fun i => decide ((ecs_entity_add_many (ecs_create heap) masks k).entity_states i
        = k_entity_unused)) k_max_entities 0 =
      if k < k_max_entities then some k else none := by
  induction k with
  | zero =>
    refine ⟨fun j => by simp [ecs_entity_add_many, ecs_create, k_entity_unused], by
      simp [ecs_entity_add_many, ecs_create], ?_⟩
    rw [if_pos (by decide), find_from_eq_some]
    exact ⟨le_refl _, by decide, by simp [ecs_entity_add_many, ecs_create, k_entity_unused],
      fun j h1 h2 => by omega⟩
  | succ k ih =>
    obtain ⟨ih1, ih2, ih3⟩ := ih (by omega)
    rw [if_pos (by omega)] at ih3
    have hstep : ecs_entity_add_many (ecs_create heap) masks (k + 1) =
        (ecs_entity_add (ecs_entity_add_many (ecs_create heap) masks k) (masks k)).1 := rfl
    have hstates : ∀ j, (ecs_entity_add_many (ecs_create heap) masks (k + 1)).entity_states j =
        if j < k + 1 then k_entity_pending_add else k_entity_unused := by
      intro j
      rw [hstep, ecs_entity_add_of_found _ _ k ih3]
      by_cases hj : j = k
      · subst hj; simp
      · simp only [Function.update_noteq hj, ih1]
        by_cases h : j < k
        · rw [if_pos h, if_pos (by omega)]
        · rw [if_neg h, if_neg (by omega)]
    refine ⟨hstates, ?_, ?_⟩
    · rw [hstep, ecs_entity_add_of_found _ _ k ih3]
      show wrap_int (_ + 1) = _
      rw [ih2]
      have : (k : Int) + 1 + 1 ≤ 2147483647 := by
        have : k < 512 := hk
        omega
      rw [wrap_int_of_range _ (by omega) this]
      push_cast
      ring
    · by_cases hlt : k + 1 < k_max_entities
      · rw [if_pos hlt, find_from_eq_some]
        refine ⟨Nat.zero_le _, by omega, ?_, ?_⟩
        · simp [hstates, k_entity_unused]
        · intro j _ hj
          simp [hstates, hj, k_entity_unused, k_entity_pending_add]
      · rw [if_neg hlt, find_from_eq_none]
        intro j _ hj
        have : j < k + 1 := by
          have : k_max_entities = k + 1 := by omega
          omega
        simp [hstates, this, k_entity_unused, k_entity_pending_add]

/-- C4: on a freshly created table, whatever the masks, the k-th of 512
consecutive `ecs_entity_add` calls (k = 1..512) returns the ref
`(k - 1, k)`, so the generations start at 1 and increase strictly; the 513th
call returns `(-1, -1)` and leaves the whole table as it was. -/
theorem ecs_entity_add_fills_fresh_table (heap : heap_t) (masks : Nat → Nat) :
    (∀ k, k < 512 →
      (ecs_entity_add (ecs_entity_add_many (ecs_create heap) masks k) (masks k)).2 =
        { entity := (k : Int), sequence := (k : Int) + 1 }) ∧
    (∀ k l, k < l → l < 512 →
      (ecs_entity_add (ecs_entity_add_many (ecs_create heap) masks k) (masks k)).2.sequence <
      (ecs_entity_add (ecs_entity_add_many (ecs_create heap) masks l) (masks l)).2.sequence) ∧
    (ecs_entity_add (ecs_entity_add_many (ecs_create heap) masks 512) (masks 512)).2 =
      { entity := -1, sequence := -1 } ∧
    (ecs_entity_add (ecs_entity_add_many (ecs_create heap) masks 512) (masks 512)).1 =
      ecs_entity_add_many (ecs_create heap) masks 512 := by
  have hret : ∀ k, k < 512 →
      (ecs_entity_add (ecs_entity_add_many (ecs_create heap) masks k) (masks k)).2 =
        { entity := (k : Int), sequence := (k : Int) + 1 } := by
    intro k hk
    obtain ⟨_, h2, h3⟩ := ecs_entity_add_many_fresh heap masks k (Nat.le_of_lt hk)
    rw [if_pos (show k < k_max_entities from hk)] at h3
    rw [ecs_entity_add_of_found _ _ k h3, h2]
  obtain ⟨_, _, h3⟩ := ecs_entity_add_many_fresh heap masks 512 (le_refl _)
  rw [if_neg (show ¬ 512 < k_max_entities by decide)] at h3
  refine ⟨hret, ?_, ?_, ?_⟩
  · intro k l hkl hl
    rw [hret k (by omega), hret l hl]
    show (k : Int) + 1 < (l : Int) + 1
    omega
  · rw [ecs_entity_add_of_full _ _ h3]
  · rw [ecs_entity_add_of_full _ _ h3]

/-! ## C5: the 64 type slots -/

/-- C5: on a freshly created table (allocations succeeding), whatever the
arguments, the i-th call of `ecs_register_component_type` (i = 1..64) returns
the id `i - 1`, so the first 64 ids are distinct, strictly increasing and lie
in `[0, 64)`; the 65th call returns -1 and registers nothing. -/
theorem ecs_register_component_type_ids (heap : heap_t) (args : Nat → register_args_t) :
    (∀ k, k < 64 →
      (ecs_register_component_type (ecs_register_many (ecs_create heap) args k) (args k).name
        (args k).size_per_component (args k).alignment (args k).save).2 = (k : Int)) ∧
    (ecs_register_component_type (ecs_register_many (ecs_create heap) args 64) (args 64).name
        (args 64).size_per_component (args 64).alignment (args 64).save).2 = -1 ∧
    (ecs_register_component_type (ecs_register_many (ecs_create heap) args 64) (args 64).name
        (args 64).size_per_component (args 64).alignment (args 64).save).1 =
      ecs_register_many (ecs_create heap) args 64 := by
  refine ⟨?_, ?_⟩
  · intro k hk
    obtain ⟨_, h2⟩ := ecs_register_many_fresh heap args k (Nat.le_of_lt hk)
    rw [if_pos (show k < k_max_component_types from hk)] at h2
    rw [ecs_register_of_found _ _ _ _ _ k h2]
  · obtain ⟨_, h2⟩ := ecs_register_many_fresh heap args 64 (le_refl _)
    rw [if_neg (show ¬ 64 < k_max_component_types by decide)] at h2
    rw [ecs_register_of_full _ _ _ _ _ h2]
    exact ⟨by dsimp only, by dsimp only⟩

/-! ## C6: pending entities and the query -/

theorem commit_state_of_enum (x : Int)
    (h : x = k_entity_unused ∨ x = k_entity_pending_add ∨ x = k_entity_active ∨
      x = k_entity_pending_remove) :
    commit_state x = k_entity_unused ∨ commit_state x = k_entity_active := by
  unfold commit_state k_entity_unused k_entity_pending_add k_entity_active
    k_entity_pending_remove at *
  rcases h with h | h | h | h <;> subst h <;> simp

/-- C6: when every lifecycle state is one of the four enum values, a query on
`mask` run before `ecs_update` visits no slot that is PendingAdd; run after one
`ecs_update` it visits, in strictly ascending index order, exactly the slots
whose mask contains `mask` and whose state is Active, among them every
formerly pending slot whose mask contains `mask`. -/
theorem ecs_query_pending_then_committed (ecs : ecs_t) (mask : Nat)
    (henum : ∀ i, i < 512 →
      ecs.entity_states i = k_entity_unused ∨ ecs.entity_states i = k_entity_pending_add ∨
      ecs.entity_states i = k_entity_active ∨ ecs.entity_states i = k_entity_pending_remove) :
    (∃ before : List Int,
      ecs_query_visit ecs 512 (ecs_query_create ecs mask) = some before ∧
      ∀ i : Nat, i < 512 → ecs.entity_states i = k_entity_pending_add → (i : Int) ∉ before) ∧
    (∃ after : List Int,
      ecs_query_visit (ecs_update ecs) 512 (ecs_query_create (ecs_update ecs) mask) = some after ∧
      after = ((List.range 512).filter (fun i =>
          decide ((ecs_update ecs).component_masks i &&& mask = mask) &&
          decide ((ecs_update ecs).entity_states i = k_entity_active))).map Int.ofNat ∧
      after.Pairwise (fun a b => a < b) ∧
      (∀ i : Nat, i < 512 → ecs.entity_states i = k_entity_pending_add →
        ecs.component_masks i &&& mask = mask → (i : Int) ∈ after)) := by
  constructor
  · obtain ⟨before, h1, _, _, _, _, _, h7⟩ := ecs_query_enumerates_aux ecs mask
    refine ⟨before, h1, ?_⟩
    intro i _ hpend hmem
    obtain ⟨j, _, hj, _, hstate⟩ := h7 _ hmem
    have : i = j := by exact_mod_cast hj
    subst this
    rw [hpend] at hstate
    revert hstate
    decide
  · obtain ⟨after, h1, h2, _, h4, _, h6, _⟩ := ecs_query_enumerates_aux (ecs_update ecs) mask
    have hfilter : (List.range 512).filter (ecs_query_match (ecs_update ecs) mask) =
        (List.range 512).filter (fun i =>
          decide ((ecs_update ecs).component_masks i &&& mask = mask) &&
          decide ((ecs_update ecs).entity_states i = k_entity_active)) := by
      apply List.filter_congr
      intro i hi
      rw [List.mem_range] at hi
      have hc := commit_state_of_enum _ (henum i hi)
      have hs : (ecs_update ecs).entity_states i = commit_state (ecs.entity_states i) := by
        rw [ecs_update_states, if_pos (show i < k_max_entities from hi)]
      unfold ecs_query_match
      rw [hs]
      rcases hc with hc | hc <;> rw [hc] <;> simp [k_entity_unused, k_entity_active]
    refine ⟨after, h1, by rw [h2, hfilter], h4, ?_⟩
    intro i hi hpend hmask
    have hcount := h6 i hi (by
      constructor
      · rw [(ecs_update_rest ecs).2.2.2.1]; exact hmask
      · rw [ecs_update_states, if_pos (show i < k_max_entities from hi), hpend]
        decide)
    exact List.count_pos_iff.mp (by omega)

/-- C6, instance: in the table with slot 0 pending (mask 3) and slot 1 active
(mask 1), the query on mask 1 sees slot 0 only after the commit. -/
theorem ecs_query_pending_then_committed_witness :
    (∃ before : List Int,
      ecs_query_visit ecs_one_pending_one_active 512
        (ecs_query_create ecs_one_pending_one_active 1) = some before ∧
      (0 : Int) ∉ before) ∧
    (∃ after : List Int,
      ecs_query_visit (ecs_update ecs_one_pending_one_active) 512
        (ecs_query_create (ecs_update ecs_one_pending_one_active) 1) = some after ∧
      (0 : Int) ∈ after) := by
  have henum : ∀ i, i < 512 →
      ecs_one_pending_one_active.entity_states i = k_entity_unused ∨
      ecs_one_pending_one_active.entity_states i = k_entity_pending_add ∨
      ecs_one_pending_one_active.entity_states i = k_entity_active ∨
      ecs_one_pending_one_active.entity_states i = k_entity_pending_remove := by
    intro i _
    have hst : ecs_one_pending_one_active.entity_states i =
        if i = 0 then k_entity_pending_add else if i = 1 then k_entity_active
        else k_entity_unused := rfl
    rw [hst]
    split_ifs
    · exact Or.inr (Or.inl rfl)
    · exact Or.inr (Or.inr (Or.inl rfl))
    · exact Or.inl rfl
  obtain ⟨⟨before, hb1, hb2⟩, ⟨after, ha1, _, _, ha4⟩⟩ :=
    ecs_query_pending_then_committed ecs_one_pending_one_active 1 henum
  exact ⟨⟨before, hb1, hb2 0 (by decide) rfl⟩, ⟨after, ha1, ha4 0 (by decide) rfl rfl⟩⟩

/-! ## C7: query enumeration -/

/-- C7: for every table state and mask, the caller's loop over
`ecs_query_create` / `ecs_query_is_valid` / `ecs_query_next` ends within 512
valid cursor positions (more fuel changes nothing); the visited indices are
exactly the slots `i` in `[0, 512)` with `(component_masks[i] & mask) == mask`
and `entity_states[i] >= Active`, in strictly ascending order, each once. -/
theorem ecs_query_enumerates (ecs : ecs_t) (mask : Nat) :
    ∃ visited : List Int,
      (∀ fuel, 512 ≤ fuel →
        ecs_query_visit ecs fuel (ecs_query_create ecs mask) = some visited) ∧
      visited = ((List.range 512).filter (ecs_query_match ecs mask)).map Int.ofNat ∧
      visited.length ≤ 512 ∧
      visited.Pairwise (fun a b => a < b) ∧
      visited.Nodup ∧
      (∀ i : Nat, i < 512 →
        (ecs.component_masks i &&& mask = mask ∧ ecs.entity_states i ≥ k_entity_active →
          visited.count (i : Int) = 1)) ∧
      (∀ x, x ∈ visited → ∃ i : Nat, i < 512 ∧ x = (i : Int) ∧
        ecs.component_masks i &&& mask = mask ∧ ecs.entity_states i ≥ k_entity_active) := by
  obtain ⟨visited, _, h2, h3, h4, h5, h6, h7⟩ := ecs_query_enumerates_aux ecs mask
  refine ⟨visited, ?_, h2, h3, h4, h5, h6, h7⟩
  intro fuel hfuel
  have hrun := ecs_query_visit_from ecs mask 512 0 fuel (by decide) hfuel
  rw [← List.range_eq_range'] at hrun
  rw [h2]
  exact hrun

/-! ## C8: load aborts on a failed read -/

/-- C8: when the storage read reports a non-zero result, `ecs_load_game`
returns and the table is as before: `global_sequence`, every slot's sequence,
lifecycle state and mask, the type registry (pointers, sizes, names,
persistence flags) are unchanged, and every block of memory that was live,
hence every component array, is still live with the same bytes. -/
theorem ecs_load_game_read_failure (ecs : ecs_t) (file : fs_file_t)
    (hfail : fs_work_get_result (fs_read ecs.heap file).2 ≠ 0) :
    ∃ ecs2, ecs_load_game ecs file = some ecs2 ∧
      ecs2.global_sequence = ecs.global_sequence ∧
      ecs2.sequences = ecs.sequences ∧
      ecs2.entity_states = ecs.entity_states ∧
      ecs2.component_masks = ecs.component_masks ∧
      ecs2.components = ecs.components ∧
      ecs2.component_type_sizes = ecs.component_type_sizes ∧
      ecs2.component_type_names = ecs.component_type_names ∧
      ecs2.save_component = ecs.save_component ∧
      (∀ b bs, heap_block ecs.heap b = some bs → heap_block ecs2.heap b = some bs) ∧
      (∀ p n bs, mem_read ecs.heap p n = some bs → mem_read ecs2.heap p n = some bs) := by
  have hblocks : ∀ b bs, heap_block ecs.heap b = some bs →
      heap_block (fs_read ecs.heap file).1 b = some bs := by
    intro b bs hb
    cases file with
    | open_failed err => exact hb
    | read_failed size err =>
      show heap_block (heap_alloc ecs.heap size 8).1 b = some bs
      rw [heap_block_alloc_old _ _ _ _ (heap_block_lt _ _ _ hb)]
      exact hb
    | ok bytes =>
      exact absurd rfl hfail
  refine ⟨{ ecs with heap := (fs_read ecs.heap file).1 }, ?_, rfl, rfl, rfl, rfl, rfl, rfl, rfl,
    rfl, hblocks, ?_⟩
  · unfold ecs_load_game
    rw [if_pos hfail]
  · intro p n bs hr
    unfold mem_read at hr ⊢
    cases hb : heap_block ecs.heap p.block with
    | none => rw [hb] at hr; simp at hr
    | some blk =>
      rw [hb] at hr
      show (heap_block (fs_read ecs.heap file).1 p.block).bind _ = _
      rw [hblocks _ _ hb]
      exact hr

/-- C8, instance: loading into a fresh table when the file cannot be opened
(error 2) gives back the fresh table. -/
theorem ecs_load_game_read_failure_witness :
    fs_work_get_result (fs_read (ecs_create heap_empty).heap (.open_failed 2)).2 ≠ 0 ∧
    ∃ ecs2, ecs_load_game (ecs_create heap_empty) (.open_failed 2) = some ecs2 ∧
      ecs2.global_sequence = 1 :=
  ⟨by decide,
   (ecs_load_game_read_failure (ecs_create heap_empty) (.open_failed 2) (by decide)).imp
     (fun _ h => ⟨h.1, h.2.1⟩)⟩

/-! ## C9: the concrete save/load scenario -/

theorem filter_range_eq_singleton_zero (p : Nat → Bool) (n : Nat) (h0 : p 0 = true)
    (h : ∀ i, 0 < i → i < n + 1 → p i = false) :
    (List.range (n + 1)).filter p = [0] := by
  rw [List.range_eq_range', List.range'_succ, List.filter_cons_of_pos h0]
  congr 1
  rw [List.filter_eq_nil_iff]
  intro a ha
  rw [List.mem_range'_1] at ha
  rw [h a (by omega) (by omega)]
  exact Bool.false_ne_true

/-- C9, the code on the scenario: every step runs; the saved table has the
entity active in slot 0 with 42 in its A component, and the file holds 42 at
offset 8196, the start of A's array. On the loaded table the query with mask
{A} visits exactly slot 0, but the A component it hands out is the address
`buffer + 8196` inside the read buffer (block 5 of the heap), which
`ecs_load_game` freed before returning, so the 4 bytes cannot be read. -/
theorem save_load_scenario_component_freed :
    ∃ sc, save_load_scenario = some sc ∧
      sc.saved.entity_states 0 = k_entity_active ∧
      sc.saved.component_masks 0 = 3 ∧
      sc.saved.components 0 = some { block := 0, offset := 0 } ∧
      mem_read sc.saved.heap { block := 0, offset := 0 } 4 = some (int_to_bytes 42) ∧
      (sc.file.drop 8196).take 4 = int_to_bytes 42 ∧
      ecs_query_visit sc.loaded 512 (ecs_query_create sc.loaded 1) = some [0] ∧
      ecs_query_get_component sc.loaded (ecs_query_create sc.loaded 1) 0 =
        some { block := 5, offset := 8196 } ∧
      heap_block sc.loaded.heap 5 = none ∧
      mem_read sc.loaded.heap { block := 5, offset := 8196 } 4 = none := by
  -- the registered table and the add
  obtain ⟨_, _, _, _, t5, t6, t7, _, t9, t10, _⟩ := ecs_with_types_A_B_spec heap_empty
  have hl0 : heap_empty.blocks.length = 0 := rfl
  rw [hl0] at t7 t9 t10
  have hfind : find_from (fun i =>
      decide ((ecs_with_types_A_B heap_empty).entity_states i = k_entity_unused))
      k_max_entities 0 = some 0 := rfl
  have hadd := ecs_entity_add_of_found (ecs_with_types_A_B heap_empty) 3 0 hfind
  have hA_heap : (ecs_entity_add (ecs_with_types_A_B heap_empty) 3).1.heap =
      (ecs_with_types_A_B heap_empty).heap := by rw [hadd]
  have hA_comp : (ecs_entity_add (ecs_with_types_A_B heap_empty) 3).1.components =
      (ecs_with_types_A_B heap_empty).components := rfl
  have hA_size : (ecs_entity_add (ecs_with_types_A_B heap_empty) 3).1.component_type_sizes =
      Function.update (Function.update (fun _ => 0) 0 4) 1 8 := rfl
  have hA_save : (ecs_entity_add (ecs_with_types_A_B heap_empty) 3).1.save_component =
      Function.update (Function.update (fun _ => false) 0 true) 1 false := rfl
  have hA_states : (ecs_entity_add (ecs_with_types_A_B heap_empty) 3).1.entity_states =
      Function.update (fun _ => 0) 0 1 := rfl
  have hA_seqs : (ecs_entity_add (ecs_with_types_A_B heap_empty) 3).1.sequences =
      Function.update (fun _ => 0) 0 1 := rfl
  have hA_masks : (ecs_entity_add (ecs_with_types_A_B heap_empty) 3).1.component_masks =
      Function.update (fun _ => 0) 0 3 := rfl
  have hA_gs : (ecs_entity_add (ecs_with_types_A_B heap_empty) 3).1.global_sequence = 2 := rfl
  have hvalid : ecs_is_entity_ref_valid (ecs_entity_add (ecs_with_types_A_B heap_empty) 3).1
      (ecs_entity_add (ecs_with_types_A_B heap_empty) 3).2 true = true := rfl
  have hget : ecs_entity_get_component (ecs_entity_add (ecs_with_types_A_B heap_empty) 3).1
      (ecs_entity_add (ecs_with_types_A_B heap_empty) 3).2 0 true =
      some { block := 0, offset := 0 } := by
    unfold ecs_entity_get_component
    rw [if_pos hvalid, hA_comp, t7]
    rfl
  -- the store of 42
  have hb0 : heap_block (ecs_entity_add (ecs_with_types_A_B heap_empty) 3).1.heap
      ({ block := 0, offset := 0 } : ptr_t).block = some (List.replicate (512 * 4) 0) := by
    rw [hA_heap]; exact t10
  have hfit : ({ block := 0, offset := 0 } : ptr_t).offset + (int_to_bytes 42).length ≤
      (List.replicate (512 * 4) 0).length := by
    rw [List.length_replicate, int_to_bytes_length]
    decide
  obtain ⟨heap, hw1, _, hw3, hw4⟩ := mem_write_block _ { block := 0, offset := 0 }
    (int_to_bytes 42) _ hb0 hfit 0
  rw [if_pos rfl] at hw4
  rw [hA_heap, t9] at hw3
  have hscen : ∀ (T1 ecs2 : ecs_t) (file : List Nat),
      ecs_save_game (ecs_update
        { (ecs_entity_add (ecs_with_types_A_B heap_empty) 3).1 with heap := heap }) =
        some (T1, file) →
      ecs_load_game (ecs_with_types_A_B T1.heap) (.ok file) = some ecs2 →
      save_load_scenario = some ⟨ecs_update
        { (ecs_entity_add (ecs_with_types_A_B heap_empty) 3).1 with heap := heap },
        file, ecs2⟩ := by
    intro T1 ecs2 file hsave l1
    unfold save_load_scenario
    rw [hget, Option.some_bind, hw1, Option.some_bind, hsave, Option.some_bind]
    show Option.map _ (ecs_load_game (ecs_with_types_A_B T1.heap) (.ok file)) = _
    rw [l1]
    rfl
  generalize hS4 : ({ (ecs_entity_add (ecs_with_types_A_B heap_empty) 3).1 with heap := heap }
    : ecs_t) = S4 at hscen
  have h4_comp : S4.components 0 = some { block := 0, offset := 0 } := by
    rw [← hS4]; show (ecs_entity_add (ecs_with_types_A_B heap_empty) 3).1.components 0 = _
    rw [hA_comp, t7]
  have h4_size : S4.component_type_sizes =
      Function.update (Function.update (fun _ => 0) 0 4) 1 8 := by rw [← hS4]; exact hA_size
  have h4_save : S4.save_component =
      Function.update (Function.update (fun _ => false) 0 true) 1 false := by
    rw [← hS4]; exact hA_save
  have h4_states : S4.entity_states = Function.update (fun _ => 0) 0 1 := by
    rw [← hS4]; exact hA_states
  have h4_seqs : S4.sequences = Function.update (fun _ => 0) 0 1 := by rw [← hS4]; exact hA_seqs
  have h4_masks : S4.component_masks = Function.update (fun _ => 0) 0 3 := by
    rw [← hS4]; exact hA_masks
  have h4_gs : S4.global_sequence = 2 := by rw [← hS4]; exact hA_gs
  have h4_heap : S4.heap = heap := by rw [← hS4]
  -- the commit
  obtain ⟨u1, u2, u3, u4, u5, u6, _, u8⟩ := ecs_update_rest S4
  have h5_states : ∀ i, (ecs_update S4).entity_states i = if i = 0 then 2 else 0 := by
    intro i
    rw [ecs_update_states, h4_states]
    by_cases hi : i = 0
    · subst hi; rfl
    · rw [Function.update_noteq hi, if_neg hi]
      show (if i < k_max_entities then commit_state 0 else 0) = 0
      split_ifs <;> rfl
  generalize hS5 : ecs_update S4 = S5 at u1 u2 u3 u4 u5 u6 u8 h5_states hscen
  rw [h4_heap] at u1
  rw [h4_gs] at u2
  rw [h4_seqs] at u3
  rw [h4_masks] at u4
  rw [h4_size] at u6
  rw [h4_save] at u8
  have h5_comp : S5.components 0 = some { block := 0, offset := 0 } := by rw [u5]; exact h4_comp
  have hb5 : heap_block S5.heap ({ block := 0, offset := 0 } : ptr_t).block =
      some (List.take 0 (List.replicate (512 * 4) 0) ++ int_to_bytes 42 ++
        List.drop (0 + (int_to_bytes 42).length) (List.replicate (512 * 4) 0)) := by
    rw [u1]; exact hw4
  have hb5len : (List.take 0 (List.replicate (512 * 4) 0) ++ int_to_bytes 42 ++
      List.drop (0 + (int_to_bytes 42).length) (List.replicate (512 * 4) 0)).length = 2048 := by
    rw [List.length_append, List.length_append, List.length_take, List.length_drop,
      List.length_replicate, int_to_bytes_length]
    omega
  have hb5get : ∀ k, k < 4 → (List.take 0 (List.replicate (512 * 4) 0) ++ int_to_bytes 42 ++
      List.drop (0 + (int_to_bytes 42).length) (List.replicate (512 * 4) 0)).getD k 0 =
      (int_to_bytes 42).getD k 0 := by
    intro k hk
    rw [List.take_zero, List.nil_append, List.getD_eq_getElem?_getD, List.getD_eq_getElem?_getD,
      List.getElem?_append_left (by rw [int_to_bytes_length]; exact hk)]
  generalize (List.take 0 (List.replicate (512 * 4) 0) ++ int_to_bytes 42 ++
      List.drop (0 + (int_to_bytes 42).length) (List.replicate (512 * 4) 0)) = blk
    at hb5 hb5len hb5get
  -- the save
  have hrep : ecs_representable S5 := by
    unfold ecs_representable
    rw [u2, u3, u4]
    refine ⟨by decide, fun i _ => ?_⟩
    rw [h5_states]
    by_cases hi : i = 0
    · subst hi; decide
    · rw [Function.update_noteq hi, Function.update_noteq hi, if_neg hi]
      decide
  have hread : ∀ t, t < k_max_component_types → S5.save_component t = true →
      ∀ off, off < k_max_entities * S5.component_type_sizes t →
        (mem_byte S5.heap (S5.components t) off).isSome = true := by
    intro t _ hs off hoff
    have ht : t = 0 := by
      by_contra hne
      rw [u8] at hs
      by_cases h1 : t = 1
      · subst h1; simp at hs
      · rw [Function.update_noteq h1, Function.update_noteq hne] at hs
        cases hs
    subst ht
    rw [u6] at hoff
    have hoff2 : off < 512 * 4 := hoff
    rw [h5_comp, mem_byte_of_block S5.heap { block := 0, offset := 0 } blk off hb5
      (by rw [hb5len]; dsimp only; omega)]
    rfl
  have hsmall : ecs_save_offset S5 k_max_component_types < 18446744073709551616 := by
    rw [ecs_save_offset_congr S5 (ecs_with_types_A_B heap_empty) _ (by rw [u8, t5])
      (by rw [u6, t6])]
    decide
  obtain ⟨T1, file, hsave⟩ := ecs_save_game_exists S5 hread hsmall
  have hT1len := ecs_save_game_heap_length S5 T1 file hsave
  rw [u1, hw3] at hT1len
  obtain ⟨_, _, _, _, _, _, sp7, _⟩ := ecs_save_game_spec S5 T1 file hsave
  have hfile : (file.drop 8196).take 4 = int_to_bytes 42 := by
    have hge := ecs_save_offset_mono S5 1 k_max_component_types (by decide)
    have hoff1 : ecs_save_offset S5 1 = 8196 + 512 * 4 := by
      rw [ecs_save_offset_succ, u8, u6]
      rfl
    have hlen := (ecs_save_game_spec S5 T1 file hsave).2.1
    have key : ∀ k, k < 4 → file.getD (8196 + k) 0 = (int_to_bytes 42).getD k 0 := by
      intro k hk
      have h := sp7 0 (by decide) (by rw [u8]; rfl) 0 k (by decide) (by rw [u6]; exact hk)
      rw [h5_comp, Nat.zero_mul, Nat.zero_add, mem_byte_of_block S5.heap
        { block := 0, offset := 0 } blk k hb5 (by rw [hb5len]; dsimp only; omega)] at h
      have h' := Option.some.inj h
      have e0 : ecs_save_offset S5 0 = 8196 := rfl
      rw [e0, Nat.add_zero] at h'
      rw [← h']
      dsimp only
      rw [Nat.zero_add]
      exact hb5get k hk
    have := slice_eq_of_getD file (int_to_bytes 42) 8196
      (by rw [int_to_bytes_length]; omega)
      (fun j hj => by rw [int_to_bytes_length] at hj; exact key j hj)
    rw [int_to_bytes_length] at this
    exact this
  -- the fresh table and the load
  obtain ⟨_, _, _, _, f5, f6, _, _, f9, _, _⟩ := ecs_with_types_A_B_spec T1.heap
  rw [hT1len] at f9
  obtain ⟨ecs2, l1, _, _, l4, l5, l6, _, l8, l9, _, l11, _⟩ :=
    ecs_save_load_table S5 T1 (ecs_with_types_A_B T1.heap) file hrep hsave
  rw [f9] at l9 l11
  have hc0 := l9 0 (by decide) (by rw [f5]; rfl)
  have e0 : ecs_save_offset (ecs_with_types_A_B T1.heap) 0 = 8196 := rfl
  rw [e0] at hc0
  have hmatch0 : ecs_query_match ecs2 1 0 = true := by
    unfold ecs_query_match
    rw [l5 0 (by decide), l4 0 (by decide), u4, h5_states]
    rfl
  have hmatchn : ∀ i, 0 < i → i < 511 + 1 → ecs_query_match ecs2 1 i = false := by
    intro i hi hi2
    unfold ecs_query_match
    rw [l4 i (by omega), h5_states, if_neg (by omega)]
    simp [k_entity_active]
  have hcreate : ecs_query_create ecs2 1 = { component_mask := 1, entity := 0 } := by
    unfold ecs_query_create ecs_query_next
    have : find_from (ecs_query_match ecs2 1) (k_max_entities - ((-1 : Int) + 1).toNat)
        ((-1 : Int) + 1).toNat = some 0 := by
      rw [find_from_eq_some]
      exact ⟨le_refl _, by decide, hmatch0, fun j h1 h2 => by omega⟩
    simp only [this]
    rfl
  have hvisit : ecs_query_visit ecs2 512 (ecs_query_create ecs2 1) = some [0] := by
    obtain ⟨visited, v1, v2, _⟩ := ecs_query_enumerates_aux ecs2 1
    rw [v1, v2, filter_range_eq_singleton_zero _ 511 hmatch0 hmatchn]
    rfl
  have hb5z : heap_block S5.heap 0 = some blk := hb5
  have hsl := slice_eq_of_getD blk (int_to_bytes 42) 0
    (by rw [hb5len, int_to_bytes_length]; decide)
    (fun j hj => by
      rw [int_to_bytes_length] at hj
      rw [Nat.zero_add]
      exact hb5get j hj)
  rw [int_to_bytes_length] at hsl
  have hsz0 : (Function.update (Function.update (fun _ => 0) 0 4) 1 8 : Nat → Nat) 0 = 4 := by
    decide
  refine ⟨⟨S5, file, ecs2⟩, hscen T1 ecs2 file hsave l1, ?_, ?_, h5_comp, ?_, hfile, hvisit,
    ?_, l11, mem_read_freed _ _ _ l11⟩
  · rw [h5_states]; rfl
  · rw [u4]; rfl
  · unfold mem_read buf_read
    dsimp only
    rw [hb5z, Option.some_bind, if_pos (by rw [hb5len]; decide), hsl]
  · rw [hcreate]
    unfold ecs_query_get_component
    rw [hc0, l6, f6, hsz0]
    simp [ptr_add, wrap_size]

/-! ## C10: postcondition of a successful add -/

/-- C10 (as amended): when some slot is Unused, `ecs_entity_add` takes the
smallest Unused index `i`, returns `(i, g)` with `g` the counter before the
call, leaves `sequences[i] = g`, `entity_states[i] = PendingAdd`,
`component_masks[i] = m`, sets the counter to `g + 1` reduced to the 32-bit
`int` range, which is `g + 1` whenever `g < INT_MAX`, and changes no other
slot, nor the type registry, nor component memory. -/
theorem ecs_entity_add_postcondition (ecs : ecs_t) (m : Nat)
    (h : ∃ j, j < k_max_entities ∧ ecs.entity_states j = k_entity_unused) :
    ∃ i, i < k_max_entities ∧ ecs.entity_states i = k_entity_unused ∧
      (∀ j, j < i → ecs.entity_states j ≠ k_entity_unused) ∧
      (ecs_entity_add ecs m).2 = { entity := (i : Int), sequence := ecs.global_sequence } ∧
      (ecs_entity_add ecs m).1.sequences i = ecs.global_sequence ∧
      (ecs_entity_add ecs m).1.entity_states i = k_entity_pending_add ∧
      (ecs_entity_add ecs m).1.component_masks i = m ∧
      (ecs_entity_add ecs m).1.global_sequence = wrap_int (ecs.global_sequence + 1) ∧
      (-2147483648 ≤ ecs.global_sequence → ecs.global_sequence < 2147483647 →
        (ecs_entity_add ecs m).1.global_sequence = ecs.global_sequence + 1) ∧
      (∀ j, j ≠ i →
        (ecs_entity_add ecs m).1.sequences j = ecs.sequences j ∧
        (ecs_entity_add ecs m).1.entity_states j = ecs.entity_states j ∧
        (ecs_entity_add ecs m).1.component_masks j = ecs.component_masks j) ∧
      (ecs_entity_add ecs m).1.components = ecs.components ∧
      (ecs_entity_add ecs m).1.component_type_sizes = ecs.component_type_sizes ∧
      (ecs_entity_add ecs m).1.component_type_names = ecs.component_type_names ∧
      (ecs_entity_add ecs m).1.save_component = ecs.save_component ∧
      (ecs_entity_add ecs m).1.heap = ecs.heap := by
  obtain ⟨j, hj1, hj2⟩ := h
  obtain ⟨i, hi⟩ := find_from_exists
    (fun i => decide (ecs.entity_states i = k_entity_unused)) k_max_entities 0 j
    (Nat.zero_le _) (by omega) (by simpa using hj2)
  have hspec := (find_from_eq_some _ _ _ _).mp hi
  obtain ⟨_, h2, h3, h4⟩ := hspec
  refine ⟨i, by omega, by simpa using h3, ?_, ?_⟩
  · intro j hj
    have := h4 j (Nat.zero_le _) hj
    simpa using this
  · rw [ecs_entity_add_of_found ecs m i hi]
    refine ⟨rfl, by simp, by simp, by simp, rfl, ?_, ?_, rfl, rfl, rfl, rfl, rfl⟩
    · intro g1 g2
      exact wrap_int_of_range _ (by omega) (by omega)
    · intro j hj
      simp [Function.update_noteq hj]

/-- C10, instance: on a fresh table the add with mask 5 returns slot 0 with
generation 1. -/
theorem ecs_entity_add_postcondition_witness :
    (∃ j, j < k_max_entities ∧ (ecs_create heap_empty).entity_states j = k_entity_unused) ∧
    ∃ i, i < k_max_entities ∧
      (ecs_entity_add (ecs_create heap_empty) 5).2 = { entity := (i : Int), sequence := 1 } :=
  ⟨⟨0, by decide, rfl⟩,
   (ecs_entity_add_postcondition (ecs_create heap_empty) 5 ⟨0, by decide, rfl⟩).imp
     (fun _ h => ⟨h.1, h.2.2.2.1⟩)⟩

/-- C10 as stated fails when the counter stands at `INT_MAX`: slot 0 is Unused,
the add succeeds, and the counter afterwards is `INT_MIN`, not `g + 1`. -/
theorem ecs_entity_add_counter_wraps :
    (∃ j, j < k_max_entities ∧ ecs_counter_at_int_max.entity_states j = k_entity_unused) ∧
    (ecs_entity_add ecs_counter_at_int_max 0).2 = { entity := 0, sequence := 2147483647 } ∧
    (ecs_entity_add ecs_counter_at_int_max 0).1.global_sequence = -2147483648 ∧
    (ecs_entity_add ecs_counter_at_int_max 0).1.global_sequence ≠
      ecs_counter_at_int_max.global_sequence + 1 :=
  ⟨⟨0, by decide, rfl⟩, by decide, by decide, by decide⟩

/-! ## C11: add on a full table -/

/-- C11: when no slot is Unused, `ecs_entity_add` returns the sentinel ref
`(-1, -1)` and the table is exactly as before: `global_sequence` (no
generation is consumed), every slot's sequence, state and mask, the registry
and component memory. -/
theorem ecs_entity_add_full_table (ecs : ecs_t) (m : Nat)
    (hfull : ∀ i, i < 512 → ecs.entity_states i ≠ k_entity_unused) :
    (ecs_entity_add ecs m).2 = { entity := -1, sequence := -1 } ∧
    (ecs_entity_add ecs m).1 = ecs := by
  have hnone : find_from (fun i => decide (ecs.entity_states i = k_entity_unused))
      k_max_entities 0 = none := by
    rw [find_from_eq_none]
    intro j _ hj
    have := hfull j (by
      have : k_max_entities = 512 := rfl
      omega)
    simpa using this
  rw [ecs_entity_add_of_full ecs m hnone]
  exact ⟨rfl, rfl⟩

/-- C11, instance: the table with 512 active entities refuses one more. -/
theorem ecs_entity_add_full_table_witness :
    (∀ i, i < 512 → ecs_full_table.entity_states i ≠ k_entity_unused) ∧
    (ecs_entity_add ecs_full_table 1).2 = { entity := -1, sequence := -1 } ∧
    (ecs_entity_add ecs_full_table 1).1.global_sequence = 513 := by
  have hfull : ∀ i, i < 512 → ecs_full_table.entity_states i ≠ k_entity_unused :=
    fun _ _ => by
      show k_entity_active ≠ k_entity_unused
      decide
  have h := ecs_entity_add_full_table ecs_full_table 1 hfull
  exact ⟨hfull, h.1, by rw [h.2]; rfl⟩

/-! ## C12: remove -/

/-- C12: for a ref whose index is inside the table, if
`ecs_is_entity_ref_valid(ref, allow_pending_add)` holds then `ecs_entity_remove`
sets `entity_states[ref.entity]` to PendingRemove and changes nothing else; if
it does not hold (negative index such as the sentinel -1, stale generation,
Unused slot, or a PendingAdd slot with `allow_pending_add = false`) the table
is left exactly as it was. -/
theorem ecs_entity_remove_effect (ecs : ecs_t) (ref : ecs_entity_ref_t) (allow : Bool)
    (_hin : ref.entity < 512) :
    (ecs_is_entity_ref_valid ecs ref allow = true →
      (ecs_entity_remove ecs ref allow).entity_states ref.entity.toNat =
        k_entity_pending_remove ∧
      (∀ j, j ≠ ref.entity.toNat →
        (ecs_entity_remove ecs ref allow).entity_states j = ecs.entity_states j) ∧
      (ecs_entity_remove ecs ref allow).sequences = ecs.sequences ∧
      (ecs_entity_remove ecs ref allow).component_masks = ecs.component_masks ∧
      (ecs_entity_remove ecs ref allow).global_sequence = ecs.global_sequence ∧
      (ecs_entity_remove ecs ref allow).components = ecs.components ∧
      (ecs_entity_remove ecs ref allow).component_type_sizes = ecs.component_type_sizes ∧
      (ecs_entity_remove ecs ref allow).component_type_names = ecs.component_type_names ∧
      (ecs_entity_remove ecs ref allow).save_component = ecs.save_component ∧
      (ecs_entity_remove ecs ref allow).heap = ecs.heap) ∧
    (ecs_is_entity_ref_valid ecs ref allow = false → ecs_entity_remove ecs ref allow = ecs) ∧
    (ref.entity < 0 → ecs_is_entity_ref_valid ecs ref allow = false) ∧
    (ecs.sequences ref.entity.toNat ≠ ref.sequence →
      ecs_is_entity_ref_valid ecs ref allow = false) ∧
    (ecs.entity_states ref.entity.toNat = k_entity_unused →
      ecs_is_entity_ref_valid ecs ref allow = false) ∧
    (ecs.entity_states ref.entity.toNat = k_entity_pending_add → allow = false →
      ecs_is_entity_ref_valid ecs ref allow = false) := by
  refine ⟨?_, ?_, ?_, ?_, ?_, ?_⟩
  · intro hv
    unfold ecs_entity_remove
    rw [if_pos hv]
    refine ⟨by simp, fun j hj => by simp [Function.update_noteq hj], rfl, rfl, rfl, rfl, rfl,
      rfl, rfl, rfl⟩
  · intro hv
    unfold ecs_entity_remove
    rw [hv]
    rfl
  · intro h
    rw [← Bool.not_eq_true, ecs_is_entity_ref_valid_iff]
    intro hv
    omega
  · intro h
    rw [← Bool.not_eq_true, ecs_is_entity_ref_valid_iff]
    intro hv
    exact h hv.2.1
  · intro h
    rw [← Bool.not_eq_true, ecs_is_entity_ref_valid_iff]
    intro hv
    have := hv.2.2
    rw [h] at this
    cases allow <;> simp [k_entity_unused, k_entity_pending_add, k_entity_active] at this
  · intro h ha
    subst ha
    rw [← Bool.not_eq_true, ecs_is_entity_ref_valid_iff]
    intro hv
    have := hv.2.2
    rw [h] at this
    simp [k_entity_pending_add, k_entity_active] at this

/-- C12, instance: removing the active entity of slot 1 (generation 2) marks
slot 1 PendingRemove and leaves slot 0 pending. -/
theorem ecs_entity_remove_effect_witness :
    ecs_is_entity_ref_valid ecs_one_pending_one_active { entity := 1, sequence := 2 } false
      = true ∧
    (ecs_entity_remove ecs_one_pending_one_active { entity := 1, sequence := 2 } false
      ).entity_states 1 = k_entity_pending_remove ∧
    (ecs_entity_remove ecs_one_pending_one_active { entity := 1, sequence := 2 } false
      ).entity_states 0 = k_entity_pending_add := by
  have hv : ecs_is_entity_ref_valid ecs_one_pending_one_active { entity := 1, sequence := 2 }
      false = true := by decide
  have h := (ecs_entity_remove_effect ecs_one_pending_one_active { entity := 1, sequence := 2 }
    false (by decide)).1 hv
  exact ⟨hv, h.1, by rw [h.2.1 0 (by decide)]; rfl⟩

/-! ## C13: the commit step -/

/-- C13: after `ecs_update` every slot that was PendingAdd is Active, every
slot that was PendingRemove is Unused, every slot in any other state (Unused
and Active among them) keeps its state, and all sequences, all masks,
`global_sequence`, the type registry and component memory are unchanged. -/
theorem ecs_update_commits (ecs : ecs_t) :
    (∀ i, i < 512 →
      (ecs.entity_states i = k_entity_pending_add →
        (ecs_update ecs).entity_states i = k_entity_active) ∧
      (ecs.entity_states i = k_entity_pending_remove →
        (ecs_update ecs).entity_states i = k_entity_unused) ∧
      (ecs.entity_states i = k_entity_unused ∨ ecs.entity_states i = k_entity_active →
        (ecs_update ecs).entity_states i = ecs.entity_states i) ∧
      (ecs.entity_states i ≠ k_entity_pending_add →
        ecs.entity_states i ≠ k_entity_pending_remove →
        (ecs_update ecs).entity_states i = ecs.entity_states i)) ∧
    (ecs_update ecs).sequences = ecs.sequences ∧
    (ecs_update ecs).component_masks = ecs.component_masks ∧
    (ecs_update ecs).global_sequence = ecs.global_sequence ∧
    (ecs_update ecs).components = ecs.components ∧
    (ecs_update ecs).component_type_sizes = ecs.component_type_sizes ∧
    (ecs_update ecs).component_type_names = ecs.component_type_names ∧
    (ecs_update ecs).save_component = ecs.save_component ∧
    (ecs_update ecs).heap = ecs.heap := by
  obtain ⟨h1, h2, h3, h4, h5, h6, h7, h8⟩ := ecs_update_rest ecs
  refine ⟨?_, h3, h4, h2, h5, h6, h7, h8, h1⟩
  intro i hi
  have hs : (ecs_update ecs).entity_states i = commit_state (ecs.entity_states i) := by
    rw [ecs_update_states, if_pos (show i < k_max_entities from hi)]
  rw [hs]
  unfold commit_state
  refine ⟨fun h => by rw [if_pos h], fun h => ?_, fun h => ?_, fun h1 h2 => ?_⟩
  · rw [h]; decide
  · rcases h with h | h <;> rw [h] <;> decide
  · rw [if_neg h1, if_neg h2]

/-! ## C14: the validity rule -/

/-- C14: for a ref whose index is negative or inside the table,
`ecs_is_entity_ref_valid(ref, allow_pending_add)` is true exactly when
`ref.entity >= 0`, `sequences[ref.entity] == ref.sequence` and
`entity_states[ref.entity]` is at least PendingAdd (flag true) or at least
Active (flag false), in the order Unused < PendingAdd < Active < PendingRemove;
the sentinel ref `(-1, -1)` is never valid. -/
theorem ecs_is_entity_ref_valid_rule (ecs : ecs_t) (ref : ecs_entity_ref_t) (allow : Bool)
    (_hin : ref.entity < 0 ∨ (0 ≤ ref.entity ∧ ref.entity < 512)) :
    (ecs_is_entity_ref_valid ecs ref allow = true ↔
      ref.entity ≥ 0 ∧ ecs.sequences ref.entity.toNat = ref.sequence ∧
      ((allow = true ∧ ecs.entity_states ref.entity.toNat ≥ k_entity_pending_add) ∨
       (allow = false ∧ ecs.entity_states ref.entity.toNat ≥ k_entity_active))) ∧
    (k_entity_unused < k_entity_pending_add ∧ k_entity_pending_add < k_entity_active ∧
      k_entity_active < k_entity_pending_remove) ∧
    ecs_is_entity_ref_valid ecs { entity := -1, sequence := -1 } allow = false := by
  refine ⟨?_, by decide, ?_⟩
  · rw [ecs_is_entity_ref_valid_iff]
    cases allow <;> simp
  · rw [← Bool.not_eq_true, ecs_is_entity_ref_valid_iff]
    intro hv
    exact absurd hv.1 (by decide)

/-- C14, instance: in the table with slot 0 pending (generation 1), the ref
`(0, 1)` is valid with the flag and not valid without it. -/
theorem ecs_is_entity_ref_valid_rule_witness :
    ecs_is_entity_ref_valid ecs_one_pending_one_active { entity := 0, sequence := 1 } true
      = true ∧
    ecs_is_entity_ref_valid ecs_one_pending_one_active { entity := 0, sequence := 1 } false
      = false := by
  constructor
  · exact (ecs_is_entity_ref_valid_rule ecs_one_pending_one_active { entity := 0, sequence := 1 }
      true (Or.inr (by decide))).1.mpr
      ⟨by decide, rfl, Or.inl ⟨rfl, by decide⟩⟩
  · decide

/-! ## Lemmas on the file layout and on stored generations -/

/-- The running offset of the save loop is the closed-form layout offset. -/
theorem ecs_save_offset_eq_layout (ecs : ecs_t) (t : Nat) :
    ecs_save_offset ecs t = ecs_layout_offset ecs t := by
  induction t with
  | zero => rfl
  | succ n ih =>
    rw [ecs_save_offset_succ, ih]
    unfold ecs_layout_offset
    rw [List.range_succ, List.filter_append, List.map_append, List.sum_append]
    cases hs : ecs.save_component n
    · simp [hs]
    · simp [hs, k_max_entities]
      omega

/-- One call keeps every stored generation below the counter, as long as the
counter does not overflow. -/
theorem ecs_call_generations (ecs : ecs_t) (c : ecs_call_t)
    (hlo : -2147483648 ≤ ecs.global_sequence)
    (hno : ecs.global_sequence + ((ecs_call ecs c).2.length : Int) ≤ 2147483647)
    (hinv : ∀ i, ecs.sequences i < ecs.global_sequence) :
    (∀ i, (ecs_call ecs c).1.sequences i < (ecs_call ecs c).1.global_sequence) ∧
    (ecs_call ecs c).1.global_sequence =
      ecs.global_sequence + ((ecs_call ecs c).2.length : Int) := by
  cases c with
  | add m =>
    rcases ecs_entity_add_cases ecs m with hfull | ⟨i, _, _, hfound⟩
    · have h1 : (ecs_call ecs (.add m)).1 = ecs := by
        show (ecs_entity_add ecs m).1 = ecs
        rw [hfull]
      have h2 : (ecs_call ecs (.add m)).2 = [] := by
        show (if 0 ≤ (ecs_entity_add ecs m).2.entity then [(ecs_entity_add ecs m).2] else []) = []
        rw [hfull]
        rfl
      rw [h1, h2]
      exact ⟨hinv, by simp⟩
    · have h2 : (ecs_call ecs (.add m)).2 =
          [{ entity := (i : Int), sequence := ecs.global_sequence }] := by
        show (if 0 ≤ (ecs_entity_add ecs m).2.entity then [(ecs_entity_add ecs m).2] else []) = _
        rw [hfound]
        exact if_pos (Int.ofNat_nonneg i)
      rw [h2] at hno ⊢
      simp only [List.length_singleton, Nat.cast_one] at hno ⊢
      have hw : wrap_int (ecs.global_sequence + 1) = ecs.global_sequence + 1 :=
        wrap_int_of_range _ (by omega) hno
      have h1 : (ecs_call ecs (.add m)).1.global_sequence = ecs.global_sequence + 1 := by
        show (ecs_entity_add ecs m).1.global_sequence = _
        rw [hfound]
        exact hw
      have h3 : (ecs_call ecs (.add m)).1.sequences =
          Function.update ecs.sequences i ecs.global_sequence := by
        show (ecs_entity_add ecs m).1.sequences = _
        rw [hfound]
      refine ⟨fun j => ?_, h1⟩
      rw [h1, h3]
      by_cases hj : j = i
      · rw [hj, Function.update_same]; omega
      · rw [Function.update_noteq hj]
        have := hinv j
        omega
  | remove ref a =>
    obtain ⟨h1, h2, _⟩ := ecs_entity_remove_rest ecs ref a
    have e1 : (ecs_call ecs (.remove ref a)).1 = ecs_entity_remove ecs ref a := rfl
    have e2 : (ecs_call ecs (.remove ref a)).2 = [] := rfl
    rw [e1, e2, h1, h2]
    exact ⟨hinv, by simp⟩
  | update =>
    obtain ⟨_, h2, h3, _⟩ := ecs_update_rest ecs
    have e1 : (ecs_call ecs .update).1 = ecs_update ecs := by simp only [ecs_call]
    have e2 : (ecs_call ecs .update).2 = [] := by simp only [ecs_call]
    rw [e1, e2, h2, h3]
    exact ⟨hinv, by simp⟩

/-- A sequence of calls keeps every stored generation below the counter, as
long as the counter does not overflow. -/
theorem ecs_run_generations (calls : List ecs_call_t) :
    ∀ ecs : ecs_t, -2147483648 ≤ ecs.global_sequence →
      ecs.global_sequence + ((ecs_run ecs calls).2.length : Int) ≤ 2147483647 →
      (∀ i, ecs.sequences i < ecs.global_sequence) →
      ∀ i, (ecs_run ecs calls).1.sequences i < (ecs_run ecs calls).1.global_sequence := by
  induction calls with
  | nil => intro ecs _ _ hinv; exact hinv
  | cons c cs ih =>
    intro ecs hlo hno hinv
    rw [ecs_run_cons] at hno ⊢
    simp only [List.length_append, Nat.cast_add] at hno
    have hc := ecs_call_generations ecs c hlo (by omega) hinv
    exact ih (ecs_call ecs c).1 (by rw [hc.2]; omega) (by rw [hc.2]; omega) hc.1

/-- With an Unused slot in the table, `ecs_entity_add` succeeds. -/
theorem ecs_entity_add_found_of_unused (ecs : ecs_t) (m : Nat)
    (h : ∃ j, j < 512 ∧ ecs.entity_states j = k_entity_unused) :
    ∃ i, i < 512 ∧ ecs.entity_states i = k_entity_unused ∧
      ecs_entity_add ecs m =
      ({ ecs with
          entity_states := Function.update ecs.entity_states i k_entity_pending_add
          sequences := Function.update ecs.sequences i ecs.global_sequence
          global_sequence := wrap_int (ecs.global_sequence + 1)
          component_masks := Function.update ecs.component_masks i m },
       { entity := (i : Int), sequence := ecs.global_sequence }) := by
  obtain ⟨j, hj, hu⟩ := h
  obtain ⟨i, hi⟩ := find_from_exists (fun i => decide (ecs.entity_states i = k_entity_unused))
    k_max_entities 0 j (Nat.zero_le j) (by rw [Nat.zero_add]; exact hj) (by simp [hu])
  obtain ⟨_, h2, h3, _⟩ := (find_from_eq_some _ _ _ _).mp hi
  refine ⟨i, ?_, by simpa using h3, ecs_entity_add_of_found ecs m i hi⟩
  have : k_max_entities = 512 := rfl
  omega

/-- Running two lists of calls one after the other. -/
theorem ecs_run_append (l1 l2 : List ecs_call_t) :
    ∀ ecs : ecs_t, ecs_run ecs (l1 ++ l2) =
      ((ecs_run (ecs_run ecs l1).1 l2).1,
       (ecs_run ecs l1).2 ++ (ecs_run (ecs_run ecs l1).1 l2).2) := by
  induction l1 with
  | nil => intro ecs; simp [ecs_run]
  | cons c cs ih =>
    intro ecs
    rw [List.cons_append, ecs_run_cons, ih, ecs_run_cons]
    simp only [List.append_assoc]

/-! ## C15: a fresh ref is valid and becomes visible on commit -/

/-- C15 (as amended): for every table state with an Unused slot, the ref `r`
returned by `ecs_entity_add` is valid with `allow_pending_add = true` and not
with `false`; after one `ecs_update` it is valid for both flag values; and
`r.sequence` differs from the generation of a previous occupant `r0` of the slot
whenever that generation is below the counter. In a state reached from a fresh
table by in-range add / remove / update calls with fewer than 2^31 - 1
successful adds, every stored generation is below the counter and `r.sequence`
differs from the generation of every ref issued before. -/
theorem ecs_fresh_ref_visible_on_commit (ecs : ecs_t) (m : Nat)
    (hslot : ∃ i, i < 512 ∧ ecs.entity_states i = k_entity_unused) :
    ecs_is_entity_ref_valid (ecs_entity_add ecs m).1 (ecs_entity_add ecs m).2 true = true ∧
    ecs_is_entity_ref_valid (ecs_entity_add ecs m).1 (ecs_entity_add ecs m).2 false = false ∧
    ecs_is_entity_ref_valid (ecs_update (ecs_entity_add ecs m).1) (ecs_entity_add ecs m).2 true
      = true ∧
    ecs_is_entity_ref_valid (ecs_update (ecs_entity_add ecs m).1) (ecs_entity_add ecs m).2 false
      = true ∧
    (∀ r0 : ecs_entity_ref_t, r0.entity = (ecs_entity_add ecs m).2.entity →
      ecs.sequences r0.entity.toNat = r0.sequence →
      r0.sequence < ecs.global_sequence →
      (ecs_entity_add ecs m).2.sequence ≠ r0.sequence) ∧
    (∀ (heap : heap_t) (calls : List ecs_call_t),
      (∀ c, c ∈ calls → ecs_call_in_range c) →
      (ecs_run (ecs_create heap) calls).2.length < 2147483647 →
      ecs = (ecs_run (ecs_create heap) calls).1 →
      (∀ i, ecs.sequences i < ecs.global_sequence) ∧
      ∀ r0, r0 ∈ (ecs_run (ecs_create heap) calls).2 →
        (ecs_entity_add ecs m).2.sequence ≠ r0.sequence) := by
  obtain ⟨i, hi, _, hadd⟩ := ecs_entity_add_found_of_unused ecs m hslot
  rw [hadd]
  dsimp only
  have hs : (ecs_update { ecs with
        entity_states := Function.update ecs.entity_states i k_entity_pending_add
        sequences := Function.update ecs.sequences i ecs.global_sequence
        global_sequence := wrap_int (ecs.global_sequence + 1)
        component_masks := Function.update ecs.component_masks i m }).entity_states i =
      k_entity_active := by
    rw [ecs_update_states, if_pos (show i < k_max_entities from hi)]
    dsimp only
    rw [Function.update_same]
    rfl
  have hq := (ecs_update_rest { ecs with
        entity_states := Function.update ecs.entity_states i k_entity_pending_add
        sequences := Function.update ecs.sequences i ecs.global_sequence
        global_sequence := wrap_int (ecs.global_sequence + 1)
        component_masks := Function.update ecs.component_masks i m }).2.2.1
  refine ⟨?_, ?_, ?_, ?_, ?_, ?_⟩
  · rw [ecs_is_entity_ref_valid_iff]
    refine ⟨Int.ofNat_nonneg i, ?_, ?_⟩
    · simp
    · simp [k_entity_pending_add]
  · rw [← Bool.not_eq_true, ecs_is_entity_ref_valid_iff]
    intro hv
    have := hv.2.2
    simp [k_entity_pending_add, k_entity_active] at this
  · rw [ecs_is_entity_ref_valid_iff]
    refine ⟨Int.ofNat_nonneg i, ?_, ?_⟩
    · rw [hq]; simp
    · dsimp only
      rw [Int.toNat_ofNat, hs]
      decide
  · rw [ecs_is_entity_ref_valid_iff]
    refine ⟨Int.ofNat_nonneg i, ?_, ?_⟩
    · rw [hq]; simp
    · dsimp only
      rw [Int.toNat_ofNat, hs]
      decide
  · intro r0 _ _ hlt heq
    omega
  · intro heap calls _ hlen hecs
    have hgen := ecs_run_generations calls (ecs_create heap)
      (by show (-2147483648 : Int) ≤ 1; decide)
      (by show (1 : Int) + _ ≤ _; omega)
      (fun _ => by show (0 : Int) < 1; decide)
    rw [← hecs] at hgen
    refine ⟨hgen, ?_⟩
    intro r0 hr0 heq
    have hrun : ecs_run (ecs_create heap) (calls ++ [.add m]) =
        ((ecs_entity_add ecs m).1,
         (ecs_run (ecs_create heap) calls).2 ++ [(ecs_entity_add ecs m).2]) := by
      rw [ecs_run_append, ← hecs]
      simp [ecs_run, ecs_call, hadd]
    have hseq := (ecs_run_sequences (calls ++ [.add m]) (ecs_create heap)
      (by show (-2147483648 : Int) ≤ 1; decide)
      (by
        rw [hrun]
        show (1 : Int) + _ ≤ _
        simp only [List.length_append, List.length_singleton, Nat.cast_add, Nat.cast_one]
        omega)).2
    rw [hrun, hadd] at hseq
    simp only [List.map_append, List.map_cons, List.map_nil] at hseq
    have hlt := (List.pairwise_append.mp hseq).2.2 r0.sequence
      (List.mem_map_of_mem _ hr0) ecs.global_sequence (List.mem_singleton_self _)
    omega

/-- C15, instance: the first ref of a fresh table is visible as pending only,
and after the commit it is active. -/
theorem ecs_fresh_ref_visible_on_commit_witness :
    (∃ i, i < 512 ∧ (ecs_create heap_empty).entity_states i = k_entity_unused) ∧
    (ecs_entity_add (ecs_create heap_empty) 1).2 = { entity := 0, sequence := 1 } ∧
    ecs_is_entity_ref_valid (ecs_entity_add (ecs_create heap_empty) 1).1
      (ecs_entity_add (ecs_create heap_empty) 1).2 false = false ∧
    ecs_is_entity_ref_valid (ecs_update (ecs_entity_add (ecs_create heap_empty) 1).1)
      (ecs_entity_add (ecs_create heap_empty) 1).2 false = true :=
  ⟨⟨0, by decide, rfl⟩, rfl,
   (ecs_fresh_ref_visible_on_commit (ecs_create heap_empty) 1 ⟨0, by decide, rfl⟩).2.1,
   (ecs_fresh_ref_visible_on_commit (ecs_create heap_empty) 1 ⟨0, by decide, rfl⟩).2.2.2.1⟩

/-- C15 as stated fails after a reload: save a fresh table, add an entity (ref
`r0 = (0, 1)`), remove it, commit, then load the saved file and add again. The
new ref is `(0, 1)` as well: same slot, same generation as `r0`, and `r0`
passes `ecs_is_entity_ref_valid` again. -/
theorem ecs_reload_reissues_generation :
    ∃ r0 r e, ecs_reload_scenario = some (r0, r, e) ∧
      r0 = { entity := 0, sequence := 1 } ∧ r = { entity := 0, sequence := 1 } ∧
      r.sequence = r0.sequence ∧
      ecs_is_entity_ref_valid e r0 true = true := by
  have hsmall : ecs_save_offset (ecs_create heap_empty) k_max_component_types <
      18446744073709551616 := by
    rw [ecs_save_offset_eq_layout]; decide
  obtain ⟨T1, file, hsave⟩ := ecs_save_game_exists (ecs_create heap_empty)
    (fun t _ ht => absurd ht (by show ¬ (false = true); decide)) hsmall
  have hT1 := (ecs_save_game_spec _ _ _ hsave).2.2.2.2.2.2.2
  have hrep : ecs_representable (ecs_create heap_empty) :=
    ⟨⟨by show (-2147483648 : Int) ≤ 1; decide, by show (1 : Int) ≤ 2147483647; decide⟩,
     fun _ _ => ⟨⟨by show (-2147483648 : Int) ≤ 0; decide,
                  by show (0 : Int) ≤ 2147483647; decide⟩,
                 ⟨by show (-2147483648 : Int) ≤ 0; decide,
                  by show (0 : Int) ≤ 2147483647; decide⟩,
                 by show (0 : Nat) < 18446744073709551616; decide⟩⟩
  have hfind1 : find_from (fun i => decide (T1.entity_states i = k_entity_unused))
      k_max_entities 0 = some 0 := by
    rw [find_from_eq_some]
    refine ⟨Nat.le_refl 0, by decide, ?_, fun j h1 h2 => absurd h2 (Nat.not_lt_zero j)⟩
    rw [hT1]
    rfl
  have hadd1 := ecs_entity_add_of_found T1 1 0 hfind1
  have hr0 : (ecs_entity_add T1 1).2 = { entity := 0, sequence := 1 } := by
    rw [hadd1, hT1]
    rfl
  obtain ⟨L, hload, hgs, _, hst, _⟩ := ecs_save_load_table (ecs_create heap_empty) T1
    (ecs_update (ecs_entity_remove (ecs_entity_add T1 1).1 (ecs_entity_add T1 1).2 true))
    file hrep hsave
  have hfind2 : find_from (fun i => decide (L.entity_states i = k_entity_unused))
      k_max_entities 0 = some 0 := by
    rw [find_from_eq_some]
    refine ⟨Nat.le_refl 0, by decide, ?_, fun j h1 h2 => absurd h2 (Nat.not_lt_zero j)⟩
    rw [hst 0 (by decide)]
    rfl
  have hadd2 := ecs_entity_add_of_found L 1 0 hfind2
  have hgs1 : L.global_sequence = 1 := hgs
  have hscen : ecs_reload_scenario =
      some ((ecs_entity_add T1 1).2, (ecs_entity_add L 1).2, (ecs_entity_add L 1).1) := by
    unfold ecs_reload_scenario
    rw [hsave, Option.some_bind]
    dsimp only
    rw [hload, Option.map_some']
  refine ⟨_, _, _, hscen, hr0, ?_, ?_, ?_⟩
  · rw [hadd2, hgs1]
    rfl
  · rw [hadd2, hr0, hgs1]
  · rw [hr0, hadd2, ecs_is_entity_ref_valid_iff]
    refine ⟨by decide, ?_, ?_⟩
    · dsimp only
      rw [hgs1]
      exact Function.update_same _ _ _
    · dsimp only
      rw [show (0 : Int).toNat = 0 from rfl, Function.update_same]
      decide

/-! ## C16: component lookup -/

/-- C16: for a type id in `[0, 64)` and a ref whose index is below 512,
`ecs_entity_get_component(ref, type, allow_pending_add)` is null exactly when
the ref is not valid under that flag or the type has no storage (was never
registered); otherwise it is the location at byte offset
`component_type_sizes[type] * ref.entity` (a `size_t` product, which is the
plain product whenever the 512 elements of the array fit in `size_t`) inside
that type's array. The entity's mask plays no part: the result is the same for
every content of `component_masks`. The function only computes a location; the
table is not modified. -/
theorem ecs_entity_get_component_result (ecs : ecs_t) (ref : ecs_entity_ref_t)
    (component_type : Nat) (allow : Bool)
    (_hty : component_type < 64) (hin : ref.entity < 512) :
    (ecs_entity_get_component ecs ref component_type allow = none ↔
      ecs_is_entity_ref_valid ecs ref allow = false ∨ ecs.components component_type = none) ∧
    (∀ p, ecs_is_entity_ref_valid ecs ref allow = true →
      ecs.components component_type = some p →
      ecs_entity_get_component ecs ref component_type allow =
        some { block := p.block,
               offset := p.offset +
                 wrap_size (ecs.component_type_sizes component_type * ref.entity.toNat) } ∧
      (ecs.component_type_sizes component_type * 512 ≤ 18446744073709551616 →
        ecs_entity_get_component ecs ref component_type allow =
          some { block := p.block,
                 offset := p.offset +
                   ecs.component_type_sizes component_type * ref.entity.toNat })) ∧
    (∀ masks : Nat → Nat,
      ecs_entity_get_component { ecs with component_masks := masks } ref component_type allow =
        ecs_entity_get_component ecs ref component_type allow) := by
  refine ⟨?_, ?_, fun _ => rfl⟩
  · unfold ecs_entity_get_component
    cases hv : ecs_is_entity_ref_valid ecs ref allow
    · simp
    · cases hc : ecs.components component_type <;> simp
  · intro p hv hc
    have h1 : ecs_entity_get_component ecs ref component_type allow =
        some { block := p.block,
               offset := p.offset +
                 wrap_size (ecs.component_type_sizes component_type * ref.entity.toNat) } := by
      unfold ecs_entity_get_component
      rw [if_pos hv, hc]
      rfl
    refine ⟨h1, fun hfit => ?_⟩
    rw [h1]
    have hlt : ref.entity.toNat < 512 := by omega
    have hprod : ecs.component_type_sizes component_type * ref.entity.toNat <
        18446744073709551616 := by
      rcases Nat.eq_zero_or_pos (ecs.component_type_sizes component_type) with h0 | hpos
      · rw [h0, Nat.zero_mul]; decide
      · calc ecs.component_type_sizes component_type * ref.entity.toNat
            < ecs.component_type_sizes component_type * 512 :=
              Nat.mul_lt_mul_of_pos_left hlt hpos
          _ ≤ 18446744073709551616 := hfit
    unfold wrap_size
    rw [Nat.mod_eq_of_lt hprod]

/-- C16, instance: the active entity of slot 1 has its type-0 component 16
bytes into the array, and no component of the unregistered type 1. -/
theorem ecs_entity_get_component_result_witness :
    ecs_entity_get_component ecs_two_entities_one_type { entity := 1, sequence := 2 } 0 false =
      some { block := 0, offset := 16 } ∧
    ecs_entity_get_component ecs_two_entities_one_type { entity := 1, sequence := 2 } 1 false =
      none := by
  constructor
  · exact ((ecs_entity_get_component_result ecs_two_entities_one_type
      { entity := 1, sequence := 2 } 0 false (by decide) (by decide)).2.1
      { block := 0, offset := 0 } (by decide) rfl).2 (by decide)
  · exact (ecs_entity_get_component_result ecs_two_entities_one_type
      { entity := 1, sequence := 2 } 1 false (by decide) (by decide)).1.mpr (Or.inr rfl)

/-! ## Lemmas on the alignment mask -/

/-- Clearing the `k` low bits of a 64-bit value rounds it down to a multiple of
`2 ^ k`. -/
theorem and_align_mask (x k : Nat) (hx : x < 2 ^ 64) :
    x &&& (2 ^ 64 - ((2 ^ k - 1) + 1)) = x / 2 ^ k * 2 ^ k := by
  by_cases hk : k ≤ 64
  · apply Nat.eq_of_testBit_eq
    intro j
    have hlt : 2 ^ k - 1 < 2 ^ 64 :=
      Nat.lt_of_lt_of_le (Nat.sub_lt (Nat.two_pow_pos k) (by decide))
        (Nat.pow_le_pow_right (by decide) hk)
    rw [Nat.testBit_and, Nat.testBit_two_pow_sub_succ hlt, Nat.testBit_two_pow_sub_one,
      Nat.mul_comm, ← Nat.shiftRight_eq_div_pow, Nat.testBit_mul_pow_two,
      Nat.testBit_shiftRight]
    by_cases hjk : j < k
    · simp [hjk]
    · have hkj : k + (j - k) = j := by omega
      rw [hkj]
      by_cases hj : j < 64
      · simp [hjk, hj, Nat.le_of_not_lt hjk]
      · have : x.testBit j = false :=
          Nat.testBit_lt_two_pow (Nat.lt_of_lt_of_le hx
            (Nat.pow_le_pow_right (by decide) (Nat.le_of_not_lt hj)))
        simp [this]
  · have hbig : 2 ^ 64 < 2 ^ k := Nat.pow_lt_pow_right (by decide) (by omega)
    have h1 : 2 ^ 64 - ((2 ^ k - 1) + 1) = 0 := by omega
    rw [h1, Nat.and_zero, Nat.div_eq_of_lt (by omega), Nat.zero_mul]

/-- The rounding of `ecs_register_component_type` as a quotient: for a
power-of-two alignment below `2 ^ 64` and `s + a - 1` inside `size_t`. -/
theorem aligned_size_eq (s k : Nat) (hk : k ≤ 63) (hs : s + 2 ^ k - 1 < 2 ^ 64) :
    aligned_size s (2 ^ k) = (s + (2 ^ k - 1)) / 2 ^ k * 2 ^ k := by
  have hpos : 0 < 2 ^ k := Nat.two_pow_pos k
  have hlt : 2 ^ k < 2 ^ 64 := Nat.pow_lt_pow_right (by decide) (by omega)
  have e64 : (18446744073709551616 : Nat) = 2 ^ 64 := by norm_num
  have hw : wrap_size (2 ^ k + 18446744073709551615) = 2 ^ k - 1 := by
    unfold wrap_size
    rw [e64]
    have : 2 ^ k + 18446744073709551615 = (2 ^ k - 1) + 2 ^ 64 := by omega
    rw [this, Nat.add_mod_right, Nat.mod_eq_of_lt (by omega)]
  have hw2 : wrap_size (s + (2 ^ k - 1)) = s + (2 ^ k - 1) := by
    unfold wrap_size
    rw [e64]
    exact Nat.mod_eq_of_lt (by omega)
  unfold aligned_size
  rw [hw, hw2]
  have hm : 18446744073709551615 - (2 ^ k - 1) = 2 ^ 64 - ((2 ^ k - 1) + 1) := by omega
  rw [hm]
  exact and_align_mask _ k (by omega)

/-- The quotient `(s + (a - 1)) / a * a` is the least multiple of `a` that is
at least `s`. -/
theorem round_up_least (s a : Nat) (ha : 0 < a) :
    a ∣ (s + (a - 1)) / a * a ∧ s ≤ (s + (a - 1)) / a * a ∧
    ∀ m, a ∣ m → s ≤ m → (s + (a - 1)) / a * a ≤ m := by
  refine ⟨Nat.dvd_mul_left _ _, ?_, ?_⟩
  · have h1 := Nat.div_add_mod (s + (a - 1)) a
    have h2 := Nat.mod_lt (s + (a - 1)) ha
    rw [Nat.mul_comm] at h1
    omega
  · rintro m ⟨c, rfl⟩ hsm
    rw [Nat.mul_comm a c]
    apply Nat.mul_le_mul_right
    rw [Nat.div_le_iff_le_mul_add_pred ha]
    have : a * c + (a - 1) = c * a + (a - 1) := by rw [Nat.mul_comm]
    omega

/-! ## C17: registration rounds the element size up to the alignment -/

/-- C17 (as amended): for every size `s` and power-of-two alignment
`a = 2 ^ k` with `s + a - 1` inside `size_t` and `512 * aligned size` inside
`size_t`, a registration that returns the id `i` makes
`ecs_get_component_type_size(i)` the least multiple of `a` that is at least
`s`, records `persist` as the flag of type `i`, and gives type `i` a new array
of `512 * aligned size` bytes, all zero; the sizes, flags and storage of every
other type are unchanged. -/
theorem ecs_register_component_type_rounds (ecs : ecs_t) (name : String) (s k : Nat)
    (persist : Bool) (i : Nat)
    (hk : k ≤ 63) (hs : s + 2 ^ k - 1 < 2 ^ 64)
    (hfit : 512 * aligned_size s (2 ^ k) < 2 ^ 64)
    (hreg : (ecs_register_component_type ecs name s (2 ^ k) persist).2 = (i : Int)) :
    (2 ^ k ∣ ecs_get_component_type_size
        (ecs_register_component_type ecs name s (2 ^ k) persist).1 i ∧
      s ≤ ecs_get_component_type_size
        (ecs_register_component_type ecs name s (2 ^ k) persist).1 i ∧
      ∀ m, 2 ^ k ∣ m → s ≤ m →
        ecs_get_component_type_size
          (ecs_register_component_type ecs name s (2 ^ k) persist).1 i ≤ m) ∧
    (ecs_register_component_type ecs name s (2 ^ k) persist).1.save_component i = persist ∧
    (∃ p, (ecs_register_component_type ecs name s (2 ^ k) persist).1.components i = some p ∧
      p.block = ecs.heap.blocks.length ∧ p.offset = 0 ∧
      heap_block (ecs_register_component_type ecs name s (2 ^ k) persist).1.heap p.block =
        some (List.replicate
          (512 * ecs_get_component_type_size
            (ecs_register_component_type ecs name s (2 ^ k) persist).1 i) 0)) ∧
    (∀ j, j ≠ i →
      (ecs_register_component_type ecs name s (2 ^ k) persist).1.component_type_sizes j =
        ecs.component_type_sizes j ∧
      (ecs_register_component_type ecs name s (2 ^ k) persist).1.save_component j =
        ecs.save_component j ∧
      (ecs_register_component_type ecs name s (2 ^ k) persist).1.components j =
        ecs.components j) ∧
    (∀ c, c < ecs.heap.blocks.length →
      heap_block (ecs_register_component_type ecs name s (2 ^ k) persist).1.heap c =
        heap_block ecs.heap c) := by
  have hfind : find_from (fun i => (ecs.components i).isNone) k_max_component_types 0 =
      some i := by
    cases hf : find_from (fun i => (ecs.components i).isNone) k_max_component_types 0 with
    | none =>
      rw [ecs_register_of_full ecs name s (2 ^ k) persist hf] at hreg
      have : (-1 : Int) = (i : Int) := hreg
      omega
    | some j =>
      rw [ecs_register_of_found ecs name s (2 ^ k) persist j hf] at hreg
      have : (j : Int) = (i : Int) := hreg
      rw [Int.ofNat_inj.mp this]
  obtain ⟨g1, _, g3, g4⟩ := ecs_register_heap ecs name s (2 ^ k) persist i hfind
  have hsize : ecs_get_component_type_size
      (ecs_register_component_type ecs name s (2 ^ k) persist).1 i = aligned_size s (2 ^ k) := by
    unfold ecs_get_component_type_size
    rw [ecs_register_of_found ecs name s (2 ^ k) persist i hfind]
    exact Function.update_same _ _ _
  have hw : wrap_size (aligned_size s (2 ^ k) * k_max_entities) =
      512 * aligned_size s (2 ^ k) := by
    unfold wrap_size
    rw [show k_max_entities = 512 from rfl, Nat.mul_comm]
    exact Nat.mod_eq_of_lt hfit
  refine ⟨?_, ?_, ⟨_, g1, rfl, rfl, ?_⟩, ?_, g4⟩
  · rw [hsize, aligned_size_eq s k hk hs]
    exact round_up_least s (2 ^ k) (Nat.two_pow_pos k)
  · rw [ecs_register_of_found ecs name s (2 ^ k) persist i hfind]
    exact Function.update_same _ _ _
  · rw [hsize, ← hw]
    exact g3
  · intro j hj
    rw [ecs_register_of_found ecs name s (2 ^ k) persist i hfind]
    exact ⟨Function.update_noteq hj _ _, Function.update_noteq hj _ _,
      Function.update_noteq hj _ _⟩

/-- C17, instance: registering a 5-byte component with alignment 4 on a fresh
table gives type 0 with element size 8. -/
theorem ecs_register_component_type_rounds_witness :
    (ecs_register_component_type (ecs_create heap_empty) "A" 5 (2 ^ 2) true).2 = ((0 : Nat) : Int) ∧
    2 ^ 2 ∣ ecs_get_component_type_size
      (ecs_register_component_type (ecs_create heap_empty) "A" 5 (2 ^ 2) true).1 0 ∧
    5 ≤ ecs_get_component_type_size
      (ecs_register_component_type (ecs_create heap_empty) "A" 5 (2 ^ 2) true).1 0 ∧
    ecs_get_component_type_size
      (ecs_register_component_type (ecs_create heap_empty) "A" 5 (2 ^ 2) true).1 0 ≤ 8 := by
  have hreg : (ecs_register_component_type (ecs_create heap_empty) "A" 5 (2 ^ 2) true).2 =
      ((0 : Nat) : Int) := rfl
  have h := (ecs_register_component_type_rounds (ecs_create heap_empty) "A" 5 2 true 0
    (by decide) (by decide) (by decide) hreg).1
  exact ⟨hreg, h.1, h.2.1, h.2.2 8 (by decide) (by decide)⟩

/-- C17 as stated fails when `512 * aligned size` leaves `size_t`: with
`s = 2 ^ 55` and alignment 1 the registration succeeds with element size
`2 ^ 55`, and the array it allocates and zeroes has 0 bytes, not
`512 * 2 ^ 55`. -/
theorem ecs_register_array_size_wraps :
    1 = 2 ^ 0 ∧ 36028797018963968 + 1 - 1 < 2 ^ 64 ∧
    (ecs_register_component_type (ecs_create heap_empty) "A" 36028797018963968 1 true).2 = 0 ∧
    ecs_get_component_type_size
      (ecs_register_component_type (ecs_create heap_empty) "A" 36028797018963968 1 true).1 0 =
      36028797018963968 ∧
    (ecs_register_component_type (ecs_create heap_empty) "A" 36028797018963968 1 true
      ).1.components 0 = some { block := 0, offset := 0 } ∧
    heap_block (ecs_register_component_type (ecs_create heap_empty) "A" 36028797018963968 1 true
      ).1.heap 0 = some [] := by
  have hfind : find_from (fun i => ((ecs_create heap_empty).components i).isNone)
      k_max_component_types 0 = some 0 := rfl
  obtain ⟨g1, _, g3, _⟩ := ecs_register_heap (ecs_create heap_empty) "A" 36028797018963968 1 true
    0 hfind
  have hw : wrap_size (aligned_size 36028797018963968 1 * k_max_entities) = 0 := by decide
  rw [hw] at g3
  refine ⟨by decide, by decide, ?_, ?_, g1, g3⟩
  · rw [ecs_register_of_found _ _ _ _ _ 0 hfind]
    rfl
  · unfold ecs_get_component_type_size
    rw [ecs_register_of_found _ _ _ _ _ 0 hfind]
    show aligned_size 36028797018963968 1 = 36028797018963968
    decide

/-! ## C18: the serialized layout -/

/-- C18: when the arrays of the persisted types are readable and the total
fits `size_t`, `ecs_save_game` writes a buffer of length
`4 + 16 * 512 + sum over persisted types of 512 * component_type_sizes[i]`
holding the 4 bytes of `global_sequence` at offset 0, the 512 4-byte sequences
from offset 4, the 512 4-byte lifecycle states from offset 2052, the 512 8-byte
masks from offset 4100, and then from offset 8196, in ascending type-id order,
the whole `512 * size` byte array of each persisted type, each starting where
the previous persisted one ended; a type whose flag is clear takes no bytes. -/
theorem ecs_save_game_layout (ecs : ecs_t)
    (hread : ∀ t, t < 64 → ecs.save_component t = true →
      ∀ off, off < 512 * ecs.component_type_sizes t →
        (mem_byte ecs.heap (ecs.components t) off).isSome = true)
    (hsmall : ecs_layout_offset ecs 64 < 18446744073709551616) :
    ∃ ecs2 file, ecs_save_game ecs = some (ecs2, file) ∧
      file.length = ecs_layout_offset ecs 64 ∧
      file.take 4 = int_to_bytes ecs.global_sequence ∧
      (∀ i, i < 512 → (file.drop (4 + i * 4)).take 4 = int_to_bytes (ecs.sequences i)) ∧
      (∀ i, i < 512 →
        (file.drop (2052 + i * 4)).take 4 = int_to_bytes (ecs.entity_states i)) ∧
      (∀ i, i < 512 →
        (file.drop (4100 + i * 8)).take 8 = u64_to_bytes (ecs.component_masks i)) ∧
      (∀ t, t < 64 → ecs.save_component t = true →
        ecs_layout_offset ecs t + 512 * ecs.component_type_sizes t =
          ecs_layout_offset ecs (t + 1) ∧
        ecs_layout_offset ecs (t + 1) ≤ file.length ∧
        ∀ off, off < 512 * ecs.component_type_sizes t →
          mem_byte ecs.heap (ecs.components t) off =
            some (file.getD (ecs_layout_offset ecs t + off) 0)) ∧
      (∀ t, t < 64 → ecs.save_component t = false →
        ecs_layout_offset ecs (t + 1) = ecs_layout_offset ecs t) := by
  have hsmall2 : ecs_save_offset ecs k_max_component_types < 18446744073709551616 := by
    rw [ecs_save_offset_eq_layout]; exact hsmall
  obtain ⟨ecs2, file, hsave⟩ := ecs_save_game_exists ecs hread hsmall2
  obtain ⟨s1, _, s3, s4, s5, s6, s7, _⟩ := ecs_save_game_spec ecs ecs2 file hsave
  have hlen : file.length = ecs_layout_offset ecs 64 := by
    rw [s1, ecs_save_size_eq_offset ecs hsmall2, ecs_save_offset_eq_layout]
    rfl
  have hmono : ∀ t, t ≤ 64 → ecs_layout_offset ecs t ≤ file.length := by
    intro t ht
    rw [hlen, ← ecs_save_offset_eq_layout, ← ecs_save_offset_eq_layout]
    exact ecs_save_offset_mono ecs t 64 ht
  have h0 : 8196 ≤ file.length := by
    have := hmono 0 (by omega)
    have h8 : ecs_layout_offset ecs 0 = 8196 := rfl
    omega
  refine ⟨ecs2, file, hsave, hlen, ?_, ?_, ?_, ?_, ?_, ?_⟩
  · have := slice_eq_of_getD file (int_to_bytes ecs.global_sequence) 0
      (by rw [int_to_bytes_length]; omega)
      (fun j hj => by
        rw [int_to_bytes_length] at hj
        rw [Nat.zero_add]
        exact s3 j hj)
    rw [int_to_bytes_length, List.drop_zero] at this
    exact this
  · intro i hi
    have := slice_eq_of_getD file (int_to_bytes (ecs.sequences i)) (4 + i * 4)
      (by rw [int_to_bytes_length]; omega)
      (fun j hj => by
        rw [int_to_bytes_length] at hj
        exact s4 i j hi hj)
    rw [int_to_bytes_length] at this
    exact this
  · intro i hi
    have := slice_eq_of_getD file (int_to_bytes (ecs.entity_states i)) (2052 + i * 4)
      (by rw [int_to_bytes_length]; omega)
      (fun j hj => by
        rw [int_to_bytes_length] at hj
        exact s5 i j hi hj)
    rw [int_to_bytes_length] at this
    exact this
  · intro i hi
    have := slice_eq_of_getD file (u64_to_bytes (ecs.component_masks i)) (4100 + i * 8)
      (by rw [u64_to_bytes_length]; omega)
      (fun j hj => by
        rw [u64_to_bytes_length] at hj
        exact s6 i j hi hj)
    rw [u64_to_bytes_length] at this
    exact this
  · intro t ht hs
    have hsucc : ecs_layout_offset ecs t + 512 * ecs.component_type_sizes t =
        ecs_layout_offset ecs (t + 1) := by
      rw [← ecs_save_offset_eq_layout, ← ecs_save_offset_eq_layout, ecs_save_offset_succ,
        if_pos hs]
      rfl
    refine ⟨hsucc, hmono (t + 1) (by omega), ?_⟩
    intro off hoff
    have hpos : 0 < ecs.component_type_sizes t := by
      rcases Nat.eq_zero_or_pos (ecs.component_type_sizes t) with h | h
      · rw [h] at hoff; omega
      · exact h
    have hj : off / ecs.component_type_sizes t < k_max_entities :=
      Nat.div_lt_of_lt_mul (by rw [Nat.mul_comm]; exact hoff)
    have hk : off % ecs.component_type_sizes t < ecs.component_type_sizes t :=
      Nat.mod_lt _ hpos
    have hsplit : off / ecs.component_type_sizes t * ecs.component_type_sizes t +
        off % ecs.component_type_sizes t = off := by
      rw [Nat.mul_comm]; exact Nat.div_add_mod off _
    have := s7 t ht hs _ _ hj hk
    rw [Nat.add_assoc, hsplit, ecs_save_offset_eq_layout] at this
    exact this
  · intro t _ hs
    rw [← ecs_save_offset_eq_layout, ← ecs_save_offset_eq_layout, ecs_save_offset_succ, hs]
    rfl

/-- C18, instance: with type 0 (4 bytes, persisted) and type 1 (8 bytes, not
persisted) registered on a fresh table, the file has `8196 + 512 * 4` bytes,
starts with the counter 1 and ends with the zeroed array of type 0. -/
theorem ecs_save_game_layout_witness :
    ∃ ecs2 file, ecs_save_game (ecs_with_types_A_B heap_empty) = some (ecs2, file) ∧
      file.length = 10244 ∧ file.take 4 = [1, 0, 0, 0] ∧
      ∀ off, off < 2048 → file.getD (8196 + off) 0 = 0 := by
  obtain ⟨hgs, _, _, _, hsave, hsizes, hc0, _, _, hb0, _⟩ := ecs_with_types_A_B_spec heap_empty
  have hlay : ∀ t, ecs_layout_offset (ecs_with_types_A_B heap_empty) t =
      4 + 16 * 512 + (((List.range t).filter (fun u =>
        Function.update (Function.update (fun _ => false) 0 true) 1 false u)).map
        (fun u => 512 * Function.update (Function.update (fun _ => 0) 0 4) 1 8 u)).sum := by
    intro t
    unfold ecs_layout_offset
    rw [hsave, hsizes]
  have h64 : ecs_layout_offset (ecs_with_types_A_B heap_empty) 64 = 10244 := by
    rw [hlay]; decide
  have h0 : ecs_layout_offset (ecs_with_types_A_B heap_empty) 0 = 8196 := rfl
  have hsz0 : (ecs_with_types_A_B heap_empty).component_type_sizes 0 = 4 := by
    rw [hsizes]; rfl
  have hflag : ∀ t, (ecs_with_types_A_B heap_empty).save_component t = true → t = 0 := by
    intro t ht
    rw [hsave] at ht
    by_cases h1 : t = 1
    · subst h1; simp at ht
    · by_cases h0 : t = 0
      · exact h0
      · simp [Function.update_noteq h1, Function.update_noteq h0] at ht
  have hbyte : ∀ off, off < 2048 →
      mem_byte (ecs_with_types_A_B heap_empty).heap
        ((ecs_with_types_A_B heap_empty).components 0) off = some 0 := by
    intro off hoff
    generalize hbs : List.replicate (512 * 4) 0 = bs at hb0
    have hlen : bs.length = 2048 := by rw [← hbs, List.length_replicate]
    have hk : ({ block := heap_empty.blocks.length, offset := 0 } : ptr_t).offset + off <
        bs.length := by
      rw [hlen]
      dsimp only
      omega
    rw [hc0, mem_byte_of_block _ { block := heap_empty.blocks.length, offset := 0 } bs off hb0 hk,
      List.getD_eq_getElem _ _ hk]
    subst hbs
    rw [List.getElem_replicate]
  obtain ⟨ecs2, file, h1, h2, h3, _, _, _, h7, _⟩ :=
    ecs_save_game_layout (ecs_with_types_A_B heap_empty)
      (fun t _ ht off hoff => by
        have := hflag t ht
        subst this
        rw [hsz0] at hoff
        rw [hbyte off (by omega)]
        rfl)
      (by rw [h64]; decide)
  refine ⟨ecs2, file, h1, by rw [h2, h64], by rw [h3, hgs]; decide, ?_⟩
  intro off hoff
  have := (h7 0 (by decide) (by rw [hsave]; rfl)).2.2 off (by rw [hsz0]; omega)
  rw [hbyte off hoff, h0] at this
  exact (Option.some.inj this).symm

/-! ## C19: the mask invariant -/

/-- One call keeps the mask invariant, when an `ecs_entity_add` is given a mask
of registered types. -/
theorem ecs_table_call_masks (ecs : ecs_t) (c : ecs_table_call_t)
    (hok : ∀ m, c = .add m → ecs_mask_registered ecs m)
    (hinv : ∀ i, ecs_mask_registered ecs (ecs.component_masks i)) :
    ∀ i, ecs_mask_registered (ecs_table_call ecs c) ((ecs_table_call ecs c).component_masks i) := by
  cases c with
  | register name s a save =>
    have e1 : ecs_table_call ecs (.register name s a save) =
        (ecs_register_component_type ecs name s a save).1 := rfl
    rw [e1]
    cases hf : find_from (fun i => (ecs.components i).isNone) k_max_component_types 0 with
    | none =>
      rw [ecs_register_of_full ecs name s a save hf]
      exact hinv
    | some j =>
      rw [ecs_register_of_found ecs name s a save j hf]
      intro i k hk
      dsimp only at hk ⊢
      by_cases hkj : k = j
      · rw [hkj, Function.update_same]
        rfl
      · rw [Function.update_noteq hkj]
        exact hinv i k hk
  | add m =>
    have e1 : ecs_table_call ecs (.add m) = (ecs_entity_add ecs m).1 := rfl
    rw [e1]
    rcases ecs_entity_add_cases ecs m with hfull | ⟨j, _, _, hfound⟩
    · rw [hfull]
      exact hinv
    · rw [hfound]
      intro i k hk
      dsimp only at hk ⊢
      by_cases hij : i = j
      · rw [hij, Function.update_same] at hk
        exact hok m rfl k hk
      · rw [Function.update_noteq hij] at hk
        exact hinv i k hk
  | remove ref a =>
    have e1 : ecs_table_call ecs (.remove ref a) = ecs_entity_remove ecs ref a := rfl
    rw [e1]
    unfold ecs_entity_remove
    by_cases hv : ecs_is_entity_ref_valid ecs ref a = true
    · rw [if_pos hv]
      exact hinv
    · rw [if_neg hv]
      exact hinv
  | update =>
    have e1 : ecs_table_call ecs .update = ecs_update ecs := by simp only [ecs_table_call]
    obtain ⟨_, _, _, h4, h5, _⟩ := ecs_update_rest ecs
    rw [e1]
    intro i k hk
    rw [h4] at hk
    unfold ecs_mask_registered at hinv
    rw [h5]
    exact hinv i k hk

/-- A sequence of calls keeps the mask invariant, when the callers keep to
registered types. -/
theorem ecs_table_run_masks (calls : List ecs_table_call_t) :
    ∀ ecs : ecs_t, ecs_table_calls_ok ecs calls →
      (∀ i, ecs_mask_registered ecs (ecs.component_masks i)) →
      ∀ i, ecs_mask_registered (ecs_table_run ecs calls)
        ((ecs_table_run ecs calls).component_masks i) := by
  induction calls with
  | nil => intro ecs _ hinv; exact hinv
  | cons c cs ih =>
    intro ecs hok hinv
    show ∀ i, ecs_mask_registered (ecs_table_run (ecs_table_call ecs c) cs)
      ((ecs_table_run (ecs_table_call ecs c) cs).component_masks i)
    refine ih (ecs_table_call ecs c) hok.2 (ecs_table_call_masks ecs c ?_ hinv)
    intro m hm
    have h1 := hok.1
    rw [hm] at h1
    exact h1

/-- C19 (as amended): in every table state reached from a freshly created
table through `ecs_register_component_type`, `ecs_entity_add`,
`ecs_entity_remove` and `ecs_update`, where every mask passed to
`ecs_entity_add` has only bits of types registered at the time of the call,
every bit `k` set in any slot's component mask is the id of a registered
component type: `components[k]` is present. -/
theorem ecs_mask_bits_registered (heap : heap_t) (calls : List ecs_table_call_t)
    (hok : ecs_table_calls_ok (ecs_create heap) calls) (i k : Nat)
    (hbit : ((ecs_table_run (ecs_create heap) calls).component_masks i).testBit k = true) :
    ((ecs_table_run (ecs_create heap) calls).components k).isSome = true :=
  ecs_table_run_masks calls (ecs_create heap) hok
    (fun _ k hk => absurd hk (by show ¬ (Nat.testBit 0 k = true); simp)) i k hbit

/-- C19 as stated fails: `ecs_entity_add` stores whatever mask it is given.
On a fresh table with no type registered, an add with mask 1 leaves bit 0 set
in slot 0 while `components[0]` is absent. -/
theorem ecs_entity_add_unregistered_mask :
    (ecs_table_run (ecs_create heap_empty) [.add 1]).component_masks 0 = 1 ∧
    Nat.testBit 1 0 = true ∧
    (ecs_table_run (ecs_create heap_empty) [.add 1]).components 0 = none := by
  refine ⟨rfl, by decide, rfl⟩

/-- C19, instance: after registering type 0 and adding an entity with mask 1,
bit 0 of slot 0 is set and type 0 has storage. -/
theorem ecs_mask_bits_registered_witness :
    ecs_table_calls_ok (ecs_create heap_empty) [.register "A" 4 4 true, .add 1] ∧
    ((ecs_table_run (ecs_create heap_empty)
      [.register "A" 4 4 true, .add 1]).component_masks 0).testBit 0 = true ∧
    ((ecs_table_run (ecs_create heap_empty)
      [.register "A" 4 4 true, .add 1]).components 0).isSome = true := by
  have hok : ecs_table_calls_ok (ecs_create heap_empty) [.register "A" 4 4 true, .add 1] := by
    refine ⟨trivial, ?_, trivial⟩
    intro k hk
    have hk0 : k = 0 := by
      rcases Nat.eq_zero_or_pos k with h | h
      · exact h
      · rw [Nat.testBit_one_eq_true_iff_self_eq_zero] at hk
        exact hk
    subst hk0
    rfl
  have hbit : ((ecs_table_run (ecs_create heap_empty)
      [.register "A" 4 4 true, .add 1]).component_masks 0).testBit 0 = true := rfl
  exact ⟨hok, hbit, ecs_mask_bits_registered heap_empty _ hok 0 0 hbit⟩

/-! ## C20: the per-slot state machine -/

/-- C20 (as amended): for every table state and every single in-range call of
`ecs_entity_add`, `ecs_entity_remove` (either flag, any ref) or `ecs_update`, a
slot holding a lifecycle state that changes does so along one of exactly five
edges: Unused to PendingAdd (by add), PendingAdd to Active (by update), Active
to PendingRemove (by remove), PendingRemove to Unused (by update), and
PendingAdd to PendingRemove (by remove with `allow_pending_add = true`). -/
theorem ecs_slot_state_edges (ecs : ecs_t) (c : ecs_call_t) (i : Nat)
    (_hin : ecs_call_in_range c) (hi : i < 512)
    (henum : is_entity_state (ecs.entity_states i))
    (hch : (ecs_call ecs c).1.entity_states i ≠ ecs.entity_states i) :
    (ecs.entity_states i = k_entity_unused ∧
      (ecs_call ecs c).1.entity_states i = k_entity_pending_add ∧ ∃ m, c = .add m) ∨
    (ecs.entity_states i = k_entity_pending_add ∧
      (ecs_call ecs c).1.entity_states i = k_entity_active ∧ c = .update) ∨
    (ecs.entity_states i = k_entity_active ∧
      (ecs_call ecs c).1.entity_states i = k_entity_pending_remove ∧
      ∃ ref a, c = .remove ref a) ∨
    (ecs.entity_states i = k_entity_pending_remove ∧
      (ecs_call ecs c).1.entity_states i = k_entity_unused ∧ c = .update) ∨
    (ecs.entity_states i = k_entity_pending_add ∧
      (ecs_call ecs c).1.entity_states i = k_entity_pending_remove ∧
      ∃ ref, c = .remove ref true) := by
  cases c with
  | add m =>
    have e1 : (ecs_call ecs (.add m)).1 = (ecs_entity_add ecs m).1 := rfl
    rw [e1] at hch ⊢
    rcases ecs_entity_add_cases ecs m with hfull | ⟨j, _, hu, hfound⟩
    · rw [hfull] at hch
      exact absurd rfl hch
    · rw [hfound] at hch ⊢
      dsimp only at hch ⊢
      by_cases hij : i = j
      · subst hij
        exact Or.inl ⟨hu, Function.update_same _ _ _, m, rfl⟩
      · rw [Function.update_noteq hij] at hch
        exact absurd rfl hch
  | remove ref a =>
    have e1 : (ecs_call ecs (.remove ref a)).1 = ecs_entity_remove ecs ref a := rfl
    rw [e1] at hch ⊢
    unfold ecs_entity_remove at hch ⊢
    by_cases hv : ecs_is_entity_ref_valid ecs ref a = true
    swap
    · rw [if_neg hv] at hch
      exact absurd rfl hch
    · rw [if_pos hv] at hch ⊢
      dsimp only at hch ⊢
      by_cases hij : i = ref.entity.toNat
      · subst hij
        rw [Function.update_same] at hch ⊢
        have hthr := ((ecs_is_entity_ref_valid_iff ecs ref a).mp hv).2.2
        rcases henum with h | h | h | h
        · rw [h] at hthr
          cases a <;> simp [k_entity_unused, k_entity_pending_add, k_entity_active] at hthr
        · cases a
          · rw [h] at hthr
            simp [k_entity_pending_add, k_entity_active] at hthr
          · exact Or.inr (Or.inr (Or.inr (Or.inr ⟨h, rfl, ref, rfl⟩)))
        · exact Or.inr (Or.inr (Or.inl ⟨h, rfl, ref, a, rfl⟩))
        · exact absurd h.symm hch
      · rw [Function.update_noteq hij] at hch
        exact absurd rfl hch
  | update =>
    have e1 : (ecs_call ecs .update).1 = ecs_update ecs := by simp only [ecs_call]
    rw [e1] at hch ⊢
    rw [ecs_update_states, if_pos (show i < k_max_entities from hi)] at hch ⊢
    unfold commit_state at hch ⊢
    by_cases h1 : ecs.entity_states i = k_entity_pending_add
    · rw [if_pos h1]
      exact Or.inr (Or.inl ⟨h1, rfl, rfl⟩)
    · rw [if_neg h1] at hch ⊢
      by_cases h3 : ecs.entity_states i = k_entity_pending_remove
      · rw [if_pos h3]
        exact Or.inr (Or.inr (Or.inr (Or.inl ⟨h3, rfl, rfl⟩)))
      · rw [if_neg h3] at hch
        exact absurd rfl hch

/-- C20, instance: `ecs_update` moves the pending entity of slot 0 to Active. -/
theorem ecs_slot_state_edges_witness :
    ecs_one_pending_one_active.entity_states 0 = k_entity_pending_add ∧
    (ecs_call ecs_one_pending_one_active .update).1.entity_states 0 = k_entity_active := by
  have hch : (ecs_call ecs_one_pending_one_active .update).1.entity_states 0 ≠
      ecs_one_pending_one_active.entity_states 0 := by
    have e1 : (ecs_call ecs_one_pending_one_active .update).1 =
        ecs_update ecs_one_pending_one_active := by simp only [ecs_call]
    rw [e1, ecs_update_states]
    decide
  have h := ecs_slot_state_edges ecs_one_pending_one_active .update 0 trivial (by decide)
    (Or.inr (Or.inl rfl)) hch
  rcases h with h | h | h | h | h
  · exact absurd h.1 (by decide)
  · exact ⟨h.1, h.2.1⟩
  · exact absurd h.1 (by decide)
  · exact absurd h.1 (by decide)
  · exact absurd h.2.2 (by simp)

/-- C20 as stated fails for `ecs_entity_remove` with `allow_pending_add = true`
on an entity that is still PendingAdd: slot 0 goes from PendingAdd straight to
PendingRemove, which is none of the four edges. -/
theorem ecs_entity_remove_pending_add_edge :
    ecs_one_pending_one_active.entity_states 0 = k_entity_pending_add ∧
    ecs_is_entity_ref_valid ecs_one_pending_one_active { entity := 0, sequence := 1 } true
      = true ∧
    (ecs_entity_remove ecs_one_pending_one_active { entity := 0, sequence := 1 } true
      ).entity_states 0 = k_entity_pending_remove ∧
    k_entity_pending_add ≠ k_entity_active ∧ k_entity_pending_add ≠ k_entity_unused ∧
    k_entity_pending_remove ≠ k_entity_active := by
  decide

/-! ## C21: visible transitions happen only at commit -/

/-- C21: for every table state, every slot whose state differs after
`ecs_entity_add` is in PendingAdd, and every slot whose state differs after
`ecs_entity_remove` (either flag, ref index below 512) is in PendingRemove;
hence neither call ever changes a slot's state to Active or to Unused, and
promotion and retirement are left to `ecs_update`. -/
theorem ecs_add_remove_only_pending (ecs : ecs_t) (m : Nat) (ref : ecs_entity_ref_t)
    (allow : Bool) (i : Nat) (_hin : ref.entity < 512) :
    ((ecs_entity_add ecs m).1.entity_states i ≠ ecs.entity_states i →
      (ecs_entity_add ecs m).1.entity_states i = k_entity_pending_add ∧
      (ecs_entity_add ecs m).1.entity_states i ≠ k_entity_active ∧
      (ecs_entity_add ecs m).1.entity_states i ≠ k_entity_unused) ∧
    ((ecs_entity_remove ecs ref allow).entity_states i ≠ ecs.entity_states i →
      (ecs_entity_remove ecs ref allow).entity_states i = k_entity_pending_remove ∧
      (ecs_entity_remove ecs ref allow).entity_states i ≠ k_entity_active ∧
      (ecs_entity_remove ecs ref allow).entity_states i ≠ k_entity_unused) := by
  constructor
  · intro hch
    have h : (ecs_entity_add ecs m).1.entity_states i = k_entity_pending_add := by
      rcases ecs_entity_add_cases ecs m with hfull | ⟨j, _, _, hfound⟩
      · rw [hfull] at hch
        exact absurd rfl hch
      · rw [hfound] at hch ⊢
        dsimp only at hch ⊢
        by_cases hij : i = j
        · rw [hij, Function.update_same]
        · rw [Function.update_noteq hij] at hch
          exact absurd rfl hch
    rw [h]
    exact ⟨rfl, by decide, by decide⟩
  · intro hch
    have h : (ecs_entity_remove ecs ref allow).entity_states i = k_entity_pending_remove := by
      unfold ecs_entity_remove at hch ⊢
      by_cases hv : ecs_is_entity_ref_valid ecs ref allow = true
      · rw [if_pos hv] at hch ⊢
        dsimp only at hch ⊢
        by_cases hij : i = ref.entity.toNat
        · rw [hij, Function.update_same]
        · rw [Function.update_noteq hij] at hch
          exact absurd rfl hch
      · rw [if_neg hv] at hch
        exact absurd rfl hch
    rw [h]
    exact ⟨rfl, by decide, by decide⟩

/-- C21, instance: removing the active entity of slot 1 changes that slot, and
the new state is PendingRemove. -/
theorem ecs_add_remove_only_pending_witness :
    (ecs_entity_remove ecs_one_pending_one_active { entity := 1, sequence := 2 } false
      ).entity_states 1 ≠ ecs_one_pending_one_active.entity_states 1 ∧
    (ecs_entity_remove ecs_one_pending_one_active { entity := 1, sequence := 2 } false
      ).entity_states 1 = k_entity_pending_remove :=
  ⟨by decide,
   ((ecs_add_remove_only_pending ecs_one_pending_one_active 0
      { entity := 1, sequence := 2 } false 1 (by decide)).2 (by decide)).1⟩

/-! ## C22: the generation counter across the table operations -/

/-- C22 (as amended): for every table state, `global_sequence` is left as it
was by `ecs_register_component_type`, by `ecs_entity_remove`, by `ecs_update`,
by `ecs_save_game`, by an `ecs_entity_add` that fails, and by an
`ecs_load_game` whose read reports a non-zero result; a successful
`ecs_entity_add` sets it to `g + 1` in `int` arithmetic, which is strictly
greater than `g` whenever `g` is below `INT_MAX`; an `ecs_load_game` of a
buffer of at least 8196 bytes sets it to the `int` held in the first four
bytes of the buffer, whatever it was before. -/
theorem ecs_global_sequence_steps (ecs : ecs_t) :
    (∀ name size alignment save,
      (ecs_register_component_type ecs name size alignment save).1.global_sequence =
        ecs.global_sequence) ∧
    (∀ m, (ecs_entity_add ecs m).2.entity < 0 →
      (ecs_entity_add ecs m).1.global_sequence = ecs.global_sequence) ∧
    (∀ m, 0 ≤ (ecs_entity_add ecs m).2.entity →
      (ecs_entity_add ecs m).1.global_sequence = wrap_int (ecs.global_sequence + 1) ∧
      (-2147483648 ≤ ecs.global_sequence → ecs.global_sequence < 2147483647 →
        (ecs_entity_add ecs m).1.global_sequence = ecs.global_sequence + 1 ∧
        ecs.global_sequence < (ecs_entity_add ecs m).1.global_sequence)) ∧
    (∀ ref allow, (ecs_entity_remove ecs ref allow).global_sequence = ecs.global_sequence) ∧
    (ecs_update ecs).global_sequence = ecs.global_sequence ∧
    (∀ ecs2 file, ecs_save_game ecs = some (ecs2, file) →
      ecs2.global_sequence = ecs.global_sequence) ∧
    (∀ file, fs_work_get_result (fs_read ecs.heap file).2 ≠ 0 →
      ∃ ecs2, ecs_load_game ecs file = some ecs2 ∧
        ecs2.global_sequence = ecs.global_sequence) ∧
    (∀ bytes : List Nat, 8196 ≤ bytes.length →
      ∃ ecs2, ecs_load_game ecs (.ok bytes) = some ecs2 ∧
        ecs2.global_sequence = int_of_bytes (bytes.take 4)) := by
  refine ⟨?_, ?_, ?_, ?_, (ecs_update_rest ecs).2.1, ?_, ?_, ?_⟩
  · intro name size alignment save
    cases hf : find_from (fun i => (ecs.components i).isNone) k_max_component_types 0 with
    | none => rw [ecs_register_of_full ecs name size alignment save hf]
    | some j => rw [ecs_register_of_found ecs name size alignment save j hf]
  · intro m hneg
    rcases ecs_entity_add_cases ecs m with hfull | ⟨i, _, _, hfound⟩
    · rw [hfull]
    · rw [hfound] at hneg
      exact absurd hneg (not_lt.mpr (Int.ofNat_nonneg i))
  · intro m hpos
    rcases ecs_entity_add_cases ecs m with hfull | ⟨i, _, _, hfound⟩
    · rw [hfull] at hpos
      exact absurd hpos (show ¬ (0 : Int) ≤ -1 by decide)
    · rw [hfound]
      dsimp only
      refine ⟨rfl, fun hlo hhi => ?_⟩
      rw [wrap_int_of_range _ (by omega) (by omega)]
      exact ⟨rfl, by omega⟩
  · intro ref allow
    exact (ecs_entity_remove_rest ecs ref allow).1
  · intro ecs2 file hsave
    rw [(ecs_save_game_spec ecs ecs2 file hsave).2.2.2.2.2.2.2]
  · intro file hfail
    refine ⟨{ ecs with heap := (fs_read ecs.heap file).1 }, ?_, rfl⟩
    unfold ecs_load_game
    rw [if_pos hfail]
  · intro bytes hlen
    obtain ⟨ecs2, h1, h2, _⟩ := ecs_load_game_ok ecs bytes hlen
    exact ⟨ecs2, h1, h2⟩

/-- C22 as stated fails twice. `ecs_load_game` of a buffer of 8196 zero bytes
into a fresh table (counter 1) leaves the counter at 0; and a successful
`ecs_entity_add` on a table whose counter stands at `INT_MAX` leaves the
counter at `INT_MIN`, which is not greater. -/
theorem ecs_global_sequence_decreases :
    (∃ ecs2, ecs_load_game (ecs_create heap_empty) (.ok (List.replicate 8196 0)) = some ecs2 ∧
      ecs2.global_sequence = 0 ∧
      ecs2.global_sequence < (ecs_create heap_empty).global_sequence) ∧
    0 ≤ (ecs_entity_add ecs_counter_at_int_max 0).2.entity ∧
    (ecs_entity_add ecs_counter_at_int_max 0).1.global_sequence <
      ecs_counter_at_int_max.global_sequence := by
  refine ⟨?_, by decide, by decide⟩
  obtain ⟨ecs2, h1, h2, _⟩ := ecs_load_game_ok (ecs_create heap_empty) (List.replicate 8196 0)
    (by rw [List.length_replicate])
  have h0 : ecs2.global_sequence = 0 := by
    rw [h2, List.take_replicate]
    decide
  refine ⟨ecs2, h1, h0, ?_⟩
  rw [h0]
  decide

/-! ## C23: refs taken from a query are valid -/

/-- C23: for every table state and mask, when the cursor that
`ecs_query_create` or `ecs_query_next` produces (from a start position of -1 or
more, with no table mutation in between) satisfies `ecs_query_is_valid`, its
index lies in `[0, 512)`, `ecs_query_get_entity` returns the ref
`(cursor index, sequences[cursor index])`, and that ref satisfies
`ecs_is_entity_ref_valid(ref, false)`. -/
theorem ecs_query_ref_valid (ecs : ecs_t) (query : ecs_query_t)
    (_hq : -1 ≤ query.entity)
    (hv : ecs_query_is_valid ecs (ecs_query_next ecs query) = true) :
    (query.entity = -1 →
      ecs_query_create ecs query.component_mask = ecs_query_next ecs query) ∧
    0 ≤ (ecs_query_next ecs query).entity ∧ (ecs_query_next ecs query).entity < 512 ∧
    ecs_query_get_entity ecs (ecs_query_next ecs query) =
      { entity := (ecs_query_next ecs query).entity,
        sequence := ecs.sequences (ecs_query_next ecs query).entity.toNat } ∧
    ecs_is_entity_ref_valid ecs (ecs_query_get_entity ecs (ecs_query_next ecs query)) false
      = true := by
  refine ⟨?_, ?_⟩
  · intro h
    unfold ecs_query_create
    rw [← h]
  · unfold ecs_query_is_valid at hv
    unfold ecs_query_next at hv ⊢
    cases hf : find_from (ecs_query_match ecs query.component_mask)
        (k_max_entities - (query.entity + 1).toNat) (query.entity + 1).toNat with
    | none =>
      rw [hf] at hv
      simp at hv
    | some i =>
      obtain ⟨h1, h2, h3, _⟩ := (find_from_eq_some _ _ _ _).mp hf
      have hi : i < 512 := by
        have : k_max_entities = 512 := rfl
        omega
      dsimp only
      refine ⟨Int.ofNat_nonneg i, by omega, rfl, ?_⟩
      rw [ecs_is_entity_ref_valid_iff]
      unfold ecs_query_get_entity
      dsimp only
      rw [Int.toNat_ofNat]
      refine ⟨Int.ofNat_nonneg i, rfl, ?_⟩
      unfold ecs_query_match at h3
      simp only [Bool.and_eq_true, decide_eq_true_eq] at h3
      exact h3.2

/-- C23, instance: with slot 0 pending and slot 1 active, the query for mask 1
stops at slot 1 and the ref taken there, `(1, 2)`, is valid. -/
theorem ecs_query_ref_valid_witness :
    ecs_query_is_valid ecs_one_pending_one_active
      (ecs_query_next ecs_one_pending_one_active { component_mask := 1, entity := -1 }) = true ∧
    ecs_query_get_entity ecs_one_pending_one_active
      (ecs_query_next ecs_one_pending_one_active { component_mask := 1, entity := -1 }) =
      { entity := 1, sequence := 2 } ∧
    ecs_is_entity_ref_valid ecs_one_pending_one_active
      (ecs_query_get_entity ecs_one_pending_one_active
        (ecs_query_next ecs_one_pending_one_active { component_mask := 1, entity := -1 }))
      false = true :=
  ⟨by decide, by decide,
   (ecs_query_ref_valid ecs_one_pending_one_active { component_mask := 1, entity := -1 }
      (by decide) (by decide)).2.2.2.2⟩

/-! ## Lemmas on the size header of a compressed file -/

/-- Invariant rule for the loop that counts down. -/
theorem for_down_inv {σ : Type} (P : Nat → σ → Prop) (body : Nat → σ → σ) (n : Nat) :
    ∀ s, P n s → (∀ k a, k < n → P (k + 1) a → P k (body k a)) →
      P 0 (for_down n body s) := by
  induction n with
  | zero => intro s h0 _; exact h0
  | succ n ih =>
    intro s h0 hstep
    show P 0 (for_down n body (body n s))
    exact ih (body n s) (hstep n s (Nat.lt_succ_self n) h0)
      (fun k a hk h => hstep k a (Nat.lt_succ_of_lt hk) h)

/-- Dropping one more decimal digit. -/
theorem div_pow_ten_step (n k : Nat) (hk : k < 10) :
    n / 10 ^ (9 - k) / 10 = n / 10 ^ (10 - k) := by
  rw [Nat.div_div_eq_div_mul, ← Nat.pow_succ]
  congr 2
  omega

/-- The byte that `file_compress` stores for the last digit of `a`. -/
theorem int_to_char_digit (a : Nat) :
    int_to_char (48 + Int.tmod (a : Int) 10) = 48 + a % 10 := by
  unfold int_to_char
  rw [Int.tmod_eq_emod (Int.ofNat_nonneg a) (by decide)]
  omega

/-- The quotient that `file_compress` keeps after storing a digit. -/
theorem int_tdiv_ten (a : Nat) : Int.tdiv (a : Int) 10 = ((a / 10 : Nat) : Int) := by
  rw [Int.tdiv_eq_ediv (Int.ofNat_nonneg a) (by decide)]
  omega

/-- An `int` operation whose result is in range gives that result. -/
theorem int_checked_of_range (x : Int) (h1 : -2147483648 ≤ x) (h2 : x ≤ 2147483647) :
    int_checked x = some x := by
  unfold int_checked
  rw [if_pos ⟨h1, h2⟩]

/-- The digit loop of `file_compress`, started on the sizes `n` and `m`. -/
theorem file_compress_loop (buffer : Nat → Nat) (n m : Nat) :
    (∀ i, i < 10 →
      (for_down 10 file_compress_digit
        { buffer := buffer, compressed_size := (n : Int), decompressed_size := (m : Int) }
        ).buffer i = 48 + n / 10 ^ (9 - i) % 10 ∧
      (for_down 10 file_compress_digit
        { buffer := buffer, compressed_size := (n : Int), decompressed_size := (m : Int) }
        ).buffer (i + 11) = 48 + m / 10 ^ (9 - i) % 10) ∧
    (∀ x, x = 10 ∨ 21 ≤ x →
      (for_down 10 file_compress_digit
        { buffer := buffer, compressed_size := (n : Int), decompressed_size := (m : Int) }
        ).buffer x = buffer x) := by
  have h := for_down_inv
    (fun (k : Nat) (s : size_header_t) =>
      s.compressed_size = ((n / 10 ^ (10 - k) : Nat) : Int) ∧
      s.decompressed_size = ((m / 10 ^ (10 - k) : Nat) : Int) ∧
      (∀ i, k ≤ i → i < 10 →
        s.buffer i = 48 + n / 10 ^ (9 - i) % 10 ∧
        s.buffer (i + 11) = 48 + m / 10 ^ (9 - i) % 10) ∧
      (∀ x, x = 10 ∨ 21 ≤ x → s.buffer x = buffer x))
    file_compress_digit 10
    { buffer := buffer, compressed_size := (n : Int), decompressed_size := (m : Int) }
    ⟨by simp, by simp, fun i h1 h2 => absurd h1 (by omega), fun _ _ => rfl⟩
    (by
      intro k s hk ⟨hc, hd, hb, hf⟩
      have e : 10 - (k + 1) = 9 - k := by omega
      rw [e] at hc hd
      unfold file_compress_digit
      refine ⟨?_, ?_, ?_, ?_⟩
      · dsimp only
        rw [hc, int_tdiv_ten, div_pow_ten_step n k hk]
      · dsimp only
        rw [hd, int_tdiv_ten, div_pow_ten_step m k hk]
      · intro i h1 h2
        dsimp only
        by_cases hik : i = k
        · subst hik
          rw [Function.update_noteq (by omega), Function.update_same, Function.update_same,
            hc, hd, int_to_char_digit, int_to_char_digit]
          exact ⟨rfl, rfl⟩
        · rw [Function.update_noteq (by omega), Function.update_noteq hik,
            Function.update_noteq (by omega), Function.update_noteq (by omega)]
          exact hb i (by omega) h2
      · intro x hx
        dsimp only
        rw [Function.update_noteq (by omega), Function.update_noteq (by omega)]
        exact hf x hx)
  exact ⟨fun i hi => h.2.2.1 i (Nat.zero_le i) hi, h.2.2.2⟩

/-- The digit loop of `file_decompress` on a header that holds the decimal
digits of `n` and `m`, both in the range of `int`: after `k` rounds the two
variables hold the first `k` digits, and no operation has overflowed. -/
theorem file_decompress_loop (h : Nat → Nat) (n m : Nat)
    (hn : n ≤ 2147483647) (hm : m ≤ 2147483647)
    (hc : ∀ i, i < 10 → h i = 48 + n / 10 ^ (9 - i) % 10)
    (hd : ∀ i, i < 10 → h (i + 11) = 48 + m / 10 ^ (9 - i) % 10) (k : Nat) (hk : k ≤ 10) :
    for_lt_opt k (file_decompress_digit h) (0, 0) =
      some (((n / 10 ^ (10 - k) : Nat) : Int), ((m / 10 ^ (10 - k) : Nat) : Int)) := by
  induction k with
  | zero =>
    have h1 : n / 10 ^ (10 - 0) = 0 := Nat.div_eq_of_lt (by norm_num; omega)
    have h2 : m / 10 ^ (10 - 0) = 0 := Nat.div_eq_of_lt (by norm_num; omega)
    rw [h1, h2]
    rfl
  | succ k ih =>
    have hk1 : k < 10 := hk
    rw [for_lt_opt_succ, ih (by omega), Option.some_bind]
    have e : 10 - (k + 1) = 9 - k := by omega
    rw [e, ← div_pow_ten_step n k hk1, ← div_pow_ten_step m k hk1]
    have ha : n / 10 ^ (9 - k) ≤ n := Nat.div_le_self _ _
    have hb : m / 10 ^ (9 - k) ≤ m := Nat.div_le_self _ _
    have hck := hc k hk1
    have hdk := hd k hk1
    generalize n / 10 ^ (9 - k) = a at ha hck ⊢
    generalize m / 10 ^ (9 - k) = b at hb hdk ⊢
    have hca : char_to_int (48 + a % 10) = 48 + ((a % 10 : Nat) : Int) := by
      unfold char_to_int
      rw [if_pos (by omega)]
      omega
    have hcb : char_to_int (48 + b % 10) = 48 + ((b % 10 : Nat) : Int) := by
      unfold char_to_int
      rw [if_pos (by omega)]
      omega
    unfold file_decompress_digit
    dsimp only
    rw [hck, hdk, hca, hcb,
      int_checked_of_range _ (by omega) (by omega), Option.some_bind,
      int_checked_of_range _ (by omega) (by omega), Option.some_bind,
      int_checked_of_range _ (by omega) (by omega), Option.some_bind,
      int_checked_of_range _ (by omega) (by omega), Option.map_some']
    have e1 : ((a / 10 : Nat) : Int) * 10 + (48 + ((a % 10 : Nat) : Int) - 48) = (a : Int) := by
      omega
    have e2 : ((b / 10 : Nat) : Int) * 10 + (48 + ((b % 10 : Nat) : Int) - 48) = (b : Int) := by
      omega
    rw [e1, e2]

/-! ## C24: the size header of a compressed file -/

/-- C24: for every pair of non-negative `int` sizes `(c, d)` and every buffer,
the header that `file_compress` writes holds `c` as 10 zero-padded decimal
digits in bytes 0..9, a newline in byte 10, `d` as 10 zero-padded decimal digits
in bytes 11..20 and a newline in byte 21, leaving the bytes from 22 on as they
were; and the digit loop of `file_decompress` reads from it exactly
`compressed_size = c` and `decompressed_size = d`, no `int` operation
overflowing on the way. -/
theorem file_size_header_round_trip (buffer : Nat → Nat) (c d : Int)
    (hc0 : 0 ≤ c) (hc1 : c ≤ 2147483647) (hd0 : 0 ≤ d) (hd1 : d ≤ 2147483647) :
    (∀ i, i < 10 → file_compress_header buffer c d i = 48 + c.toNat / 10 ^ (9 - i) % 10) ∧
    file_compress_header buffer c d 10 = 10 ∧
    (∀ i, i < 10 →
      file_compress_header buffer c d (i + 11) = 48 + d.toNat / 10 ^ (9 - i) % 10) ∧
    file_compress_header buffer c d 21 = 10 ∧
    (∀ x, 22 ≤ x → file_compress_header buffer c d x = buffer x) ∧
    file_decompress_sizes (file_compress_header buffer c d) = some (c, d) := by
  obtain ⟨n, rfl⟩ := Int.eq_ofNat_of_zero_le hc0
  obtain ⟨m, rfl⟩ := Int.eq_ofNat_of_zero_le hd0
  obtain ⟨hdig, hframe⟩ := file_compress_loop buffer n m
  have h1 : ∀ i, i < 10 →
      file_compress_header buffer (n : Int) (m : Int) i = 48 + n / 10 ^ (9 - i) % 10 := by
    intro i hi
    unfold file_compress_header
    rw [Function.update_noteq (by omega), Function.update_noteq (by omega)]
    exact (hdig i hi).1
  have h2 : ∀ i, i < 10 →
      file_compress_header buffer (n : Int) (m : Int) (i + 11) =
        48 + m / 10 ^ (9 - i) % 10 := by
    intro i hi
    unfold file_compress_header
    rw [Function.update_noteq (by omega), Function.update_noteq (by omega)]
    exact (hdig i hi).2
  refine ⟨?_, ?_, ?_, ?_, ?_, ?_⟩
  · intro i hi
    rw [Int.toNat_ofNat]
    exact h1 i hi
  · unfold file_compress_header
    rw [Function.update_noteq (by decide), Function.update_same]
  · intro i hi
    rw [Int.toNat_ofNat]
    exact h2 i hi
  · unfold file_compress_header
    rw [Function.update_same]
  · intro x hx
    unfold file_compress_header
    rw [Function.update_noteq (by omega), Function.update_noteq (by omega)]
    exact hframe x (Or.inr (by omega))
  · have h := file_decompress_loop (file_compress_header buffer (n : Int) (m : Int)) n m
      (by omega) (by omega) h1 h2 10 (Nat.le_refl 10)
    unfold file_decompress_sizes
    rw [h]
    simp

/-- C24, instance: the sizes 1234 and `INT_MAX` come back from the header; the
header starts with the digit 0 and its byte 20 is the digit 7. -/
theorem file_size_header_round_trip_witness :
    file_decompress_sizes (file_compress_header (fun _ => 0) 1234 2147483647) =
      some (1234, 2147483647) ∧
    file_compress_header (fun _ => 0) 1234 2147483647 0 = 48 ∧
    file_compress_header (fun _ => 0) 1234 2147483647 20 = 55 := by
  have h := file_size_header_round_trip (fun _ => 0) 1234 2147483647
    (by decide) (by decide) (by decide) (by decide)
  refine ⟨h.2.2.2.2.2, ?_, ?_⟩
  · rw [h.1 0 (by decide)]
    decide
  · rw [h.2.2.1 9 (by decide)]
    decide

end EvilEngine
